import Mathlib

/-!
Ingestion-and-dispatch pipeline of the due-diligence backend.

A shallow embedding of `backend-go`: the record operations of `db/repository.go`,
the queue producer of `queue/redis.go`, the attachment extraction of
`gmail/service.go` and the two intake handlers of `main.go` (`uploadDeck`,
`processEmail`).  Handlers are functions from a world (record store, staged
files, queue) to a response and a new world; every answer of a collaborator
(database, file system, Redis, Gmail, the UUID generator) is an explicit
parameter of the run.
-/

namespace Sago

/-! ## Library values: time, UUIDs, paths -/

/-- Timestamps (`time.Time`, SQL `NOW()`), as a number of clock ticks. -/
abbrev Time := Nat

/-- The type `uuid.UUID` is sixteen bytes; `val` is their big-endian value, read
modulo 2^128 by `UUID.String`. -/
structure UUID where
  val : Nat
deriving DecidableEq, Repr

/-- Lower-case hexadecimal digit of a number below sixteen. -/
def hexDigit (n : Nat) : Char :=
  "0123456789abcdef".data.getD n '0'

/-- Two hexadecimal digits of byte number `i` (0 is the most significant) of `u`. -/
def UUID.byteHex (u : UUID) (i : Nat) : List Char :=
  let b := u.val / 256 ^ (15 - i) % 256
  [hexDigit (b / 16), hexDigit (b % 16)]

/-- Hexadecimal digits of the bytes `i, i+1, ..., i+n-1` of `u`. -/
def UUID.hexRange (u : UUID) (i n : Nat) : List Char :=
  ((List.range n).map fun k => u.byteHex (i + k)).flatten

/-- The method `UUID.String`: the form xxxxxxxx-xxxx-xxxx-xxxx-xxxxxxxxxxxx. -/
def UUID.String (u : UUID) : String :=
  String.mk (u.hexRange 0 4 ++ '-' :: u.hexRange 4 2 ++ '-' :: u.hexRange 6 2
    ++ '-' :: u.hexRange 8 2 ++ '-' :: u.hexRange 10 6)

/-- The bytes of a character in a Go string: its UTF-8 encoding. -/
def utf8Bytes (c : Char) : List Nat :=
  let n := c.toNat
  if n < 128 then [n]
  else if n < 2048 then [192 + n / 64, 128 + n % 64]
  else if n < 65536 then [224 + n / 4096, 128 + n / 64 % 64, 128 + n % 64]
  else [240 + n / 262144, 128 + n / 4096 % 64, 128 + n / 64 % 64, 128 + n % 64]

/-- The bytes of the Go string that holds the text `s`; `len(s)` is their number. -/
def bytesOf (s : String) : List Nat := (s.data.map utf8Bytes).flatten

/-- Value of a byte that is a hexadecimal digit of either case, `none` for any
other byte (the table `xvalues` behind `xtob`). -/
def hexVal (b : Nat) : Option Nat :=
  if 48 ≤ b ∧ b ≤ 57 then some (b - 48)
  else if 97 ≤ b ∧ b ≤ 102 then some (b - 87)
  else if 65 ≤ b ∧ b ≤ 70 then some (b - 55)
  else none

/-- Reads a run of hexadecimal digits as a number, most significant first. -/
def hexNat : List Nat → Nat → Option Nat
  | [], acc => some acc
  | b :: bs, acc =>
    match hexVal b with
    | none => none
    | some d => hexNat bs (acc * 16 + d)

/-- The end of `uuid.Parse` on a string of at least 36 bytes: bytes 8, 13, 18
and 23 are hyphens and the other bytes below 36 are hexadecimal digits, two for
each of the sixteen bytes of the result.  Bytes from 36 on are not looked at. -/
def parseCanonical (s : List Nat) : Option UUID :=
  if s.getD 8 0 = 45 ∧ s.getD 13 0 = 45 ∧ s.getD 18 0 = 45 ∧ s.getD 23 0 = 45 then
    (hexNat (s.take 8 ++ (s.drop 9).take 4 ++ (s.drop 14).take 4 ++ (s.drop 19).take 4
      ++ (s.drop 24).take 12) 0).map UUID.mk
  else none

/-- An upper-case ASCII letter as its lower-case letter, any other byte as it is. -/
def lowerByte (b : Nat) : Nat := if 65 ≤ b ∧ b ≤ 90 then b + 32 else b

/-- The function `uuid.Parse` of github.com/google/uuid, which switches on the
number of bytes of the string.  36: the standard form.  45: the first nine bytes
must equal `urn:uuid:` in any case (`strings.EqualFold`) and are cut off.  38:
the form in braces, of which the first byte is cut off (`s = s[1:]`) without
being looked at; only the 36 bytes in the middle are examined, so the last byte
is not looked at either.  32: the raw form of 32 hexadecimal digits.  Any other
length is an error. -/
def uuidParse (str : String) : Option UUID :=
  let s := bytesOf str
  if s.length = 36 then parseCanonical s
  else if s.length = 45 then
    if (s.take 9).map lowerByte = bytesOf "urn:uuid:" then parseCanonical (s.drop 9) else none
  else if s.length = 38 then parseCanonical (s.drop 1)
  else if s.length = 32 then (hexNat s 0).map UUID.mk
  else none

/-- Splits a path at every separator `/`; `cur` holds the element being read, reversed. -/
def splitSlash : List Char → List Char → List (List Char)
  | [], cur => [cur.reverse]
  | c :: cs, cur => if c = '/' then cur.reverse :: splitSlash cs [] else splitSlash cs (c :: cur)

/-- One element of a path pushed on the elements kept so far (last one first), by
the rules of `filepath.Clean`: empty and `.` elements vanish, `..` removes the
element before it, is dropped at the root and is kept at the start of a relative path. -/
def cleanPush (rooted : Bool) (stack : List (List Char)) (e : List Char) : List (List Char) :=
  if e = [] ∨ e = ['.'] then stack
  else if e = ['.', '.'] then
    match stack with
    | [] => if rooted then [] else [e]
    | top :: rest => if top = ['.', '.'] then e :: stack else rest
  else e :: stack

/-- The function `filepath.Clean` on Unix, after its documentation. -/
def pathClean (p : String) : String :=
  let rooted := p.data.head? = some '/'
  let kept := ((splitSlash p.data []).foldl (cleanPush rooted) []).reverse
  let body := String.mk (List.intercalate ['/'] kept)
  if rooted then "/" ++ body else if kept = [] then "." else body

/-- The function `filepath.Join` on Unix: leading empty elements are skipped, the
rest is joined with `/` and the result is cleaned; all elements empty gives "". -/
def pathJoin (elems : List String) : String :=
  match elems.dropWhile (fun e => e = "") with
  | [] => ""
  | es => pathClean (String.intercalate "/" es)

/-- The function `filepath.Abs` on Unix: `wd` is the answer of `os.Getwd`, `none`
when it fails.  The Go function then returns "" and an error. -/
def pathAbs (wd : Option String) (p : String) : Option String :=
  if p.data.head? = some '/' then some (pathClean p)
  else match wd with
    | none => none
    | some d => some (pathJoin [d, p])

/-! ## Records (`db/models.go`) -/

/-- Byte sequences: `[]byte` values and the contents of Go strings. -/
abbrev Bytes := String

/-- The struct `PitchDeck`; a pointer field is an `Option`, nil being `none`. -/
structure PitchDeck where
  ID : UUID := ⟨0⟩
  InvestorID : Option UUID := none
  Filename : String := ""
  GCSPath : Option String := none
  FileHash : Option String := none
  Source : String := ""
  SourceMetadata : Option String := none
  CreatedAt : Time := 0
deriving DecidableEq, Repr

/-- The struct `AnalysisJob`. -/
structure AnalysisJob where
  ID : UUID := ⟨0⟩
  DeckID : Option UUID := none
  InvestorID : Option UUID := none
  Status : String := ""
  ClaimsExtracted : Option String := none
  VerificationResults : Option String := none
  FinalReport : Option String := none
  FinalReportGCSPath : Option String := none
  ErrorMessage : Option String := none
  StartedAt : Option Time := none
  CompletedAt : Option Time := none
  CreatedAt : Time := 0
deriving DecidableEq, Repr

def JobStatusPending : String := "pending"
def JobStatusRunning : String := "running"
def JobStatusCompleted : String := "completed"
def JobStatusFailed : String := "failed"

/-- The tables `pitch_decks` and `analysis_jobs`, rows in insertion order. -/
structure Store where
  decks : List PitchDeck := []
  jobs : List AnalysisJob := []
deriving DecidableEq, Repr

/-! ## Record operations (`db/repository.go`)

An `INSERT ... RETURNING id, created_at` is answered by the database with the
generated id and timestamp, or with an error; that answer is the first argument.
An `UPDATE ... WHERE id = $n` is executed (`exec = true`, with `now` the value of
`NOW()`) or fails with an error and changes nothing. -/

/-- The function `CreatePitchDeck`: inserts the six columns of the struct and
scans the generated id and timestamp back into it. -/
def CreatePitchDeck (r : Except String (UUID × Time)) (deck : PitchDeck) (s : Store) :
    Except String (PitchDeck × Store) :=
  match r with
  | .error e => .error e
  | .ok (id, t) =>
    let row : PitchDeck :=
      { ID := id, InvestorID := deck.InvestorID, Filename := deck.Filename,
        GCSPath := deck.GCSPath, FileHash := deck.FileHash, Source := deck.Source,
        SourceMetadata := deck.SourceMetadata, CreatedAt := t }
    .ok ({ deck with ID := id, CreatedAt := t }, { s with decks := s.decks ++ [row] })

/-- The function `CreateJob`: inserts `deck_id`, `investor_id` and the constant
`JobStatusPending`; the other columns take their null defaults.  Only the id and
the timestamp are scanned back into the struct. -/
def CreateJob (r : Except String (UUID × Time)) (job : AnalysisJob) (s : Store) :
    Except String (AnalysisJob × Store) :=
  match r with
  | .error e => .error e
  | .ok (id, t) =>
    let row : AnalysisJob :=
      { ID := id, DeckID := job.DeckID, InvestorID := job.InvestorID,
        Status := JobStatusPending, CreatedAt := t }
    .ok ({ job with ID := id, CreatedAt := t }, { s with jobs := s.jobs ++ [row] })

/-- The function `GetJobByID`: the row with that id, an error when there is none. -/
def GetJobByID (id : UUID) (s : Store) : Except String AnalysisJob :=
  match s.jobs.find? (fun j => j.ID = id) with
  | some j => .ok j
  | none => .error "sql: no rows in result set"

/-- The function `GetPitchDeckByID`. -/
def GetPitchDeckByID (id : UUID) (s : Store) : Except String PitchDeck :=
  match s.decks.find? (fun d => d.ID = id) with
  | some d => .ok d
  | none => .error "sql: no rows in result set"

/-- An `UPDATE analysis_jobs SET ... WHERE id = $n`: `set` is applied to every row
with that id, the other rows and the decks are kept. -/
def updateJobs (exec : Bool) (id : UUID) (set : AnalysisJob → AnalysisJob) (s : Store) :
    Except String Store :=
  if exec then .ok { s with jobs := s.jobs.map fun j => if j.ID = id then set j else j }
  else .error "database error"

/-- The function `UpdateJobStatus`. -/
def UpdateJobStatus (exec : Bool) (id : UUID) (status : String) (s : Store) :
    Except String Store :=
  updateJobs exec id (fun j => { j with Status := status }) s

/-- The function `UpdateJobStarted`. -/
def UpdateJobStarted (exec : Bool) (now : Time) (id : UUID) (s : Store) : Except String Store :=
  updateJobs exec id (fun j => { j with Status := JobStatusRunning, StartedAt := some now }) s

/-- The function `UpdateJobCompleted`. -/
def UpdateJobCompleted (exec : Bool) (now : Time) (id : UUID)
    (claims verification finalReport : String) (s : Store) : Except String Store :=
  updateJobs exec id (fun j =>
    { j with Status := JobStatusCompleted, ClaimsExtracted := some claims,
             VerificationResults := some verification, FinalReport := some finalReport,
             CompletedAt := some now }) s

/-- The function `UpdateJobFailed`. -/
def UpdateJobFailed (exec : Bool) (now : Time) (id : UUID) (errorMsg : String) (s : Store) :
    Except String Store :=
  updateJobs exec id (fun j =>
    { j with Status := JobStatusFailed, ErrorMessage := some errorMsg,
             CompletedAt := some now }) s

/-- One call of a transition operation of the repository, with the value of `NOW()`. -/
inductive Transition where
  | started (now : Time)
  | completed (now : Time) (claims verification finalReport : String)
  | failed (now : Time) (errorMsg : String)
  | status (status : String)
deriving DecidableEq, Repr

/-- Runs one transition on job `id`, the statement being executed by the database. -/
def Transition.run (id : UUID) (t : Transition) (s : Store) : Except String Store :=
  match t with
  | .started now => UpdateJobStarted true now id s
  | .completed now c v r => UpdateJobCompleted true now id c v r s
  | .failed now m => UpdateJobFailed true now id m s
  | .status st => UpdateJobStatus true id st s

/-- Runs a sequence of transitions on job `id`, stopping at the first error. -/
def runTransitions (id : UUID) : List Transition → Store → Except String Store
  | [], s => .ok s
  | t :: ts, s =>
    match t.run id s with
    | .error e => .error e
    | .ok s1 => runTransitions id ts s1

/-- The status a transition writes. -/
def Transition.target : Transition → String
  | .started _ => JobStatusRunning
  | .completed _ _ _ _ => JobStatusCompleted
  | .failed _ _ => JobStatusFailed
  | .status st => st

/-- The stored status of job `id`, as `GetJobByID` reads it. -/
def statusOf (id : UUID) (s : Store) : Option String :=
  match GetJobByID id s with
  | .ok j => some j.Status
  | .error _ => none


/-! ## Dispatch queue (`queue/redis.go`) -/

/-- The struct `JobPayload`. -/
structure JobPayload where
  JobID : String := ""
  InvestorID : String := ""
  DeckContent : String := ""
  DeckPath : String := ""
deriving DecidableEq, Repr

/-- A JSON object of string members, as the list of its keys and values. -/
abbrev Message := List (String × String)

/-- A member tagged `omitempty` is written only when its value is not empty. -/
def omitEmpty (key value : String) : Message :=
  if value = "" then [] else [(key, value)]

/-- The call `json.Marshal(payload)`: `job_id` always, the others unless empty. -/
def marshal (p : JobPayload) : Message :=
  [("job_id", p.JobID)] ++ omitEmpty "investor_id" p.InvestorID
    ++ omitEmpty "deck_content" p.DeckContent ++ omitEmpty "deck_path" p.DeckPath

/-- The payload `EnqueueJob` builds from its arguments. -/
def jobPayload (jobID : UUID) (investorID : Option UUID) (deckContent deckPath : String) :
    JobPayload :=
  let payload : JobPayload :=
    { JobID := jobID.String, DeckContent := deckContent, DeckPath := deckPath }
  match investorID with
  | some id => { payload with InvestorID := id.String }
  | none => payload

/-- The method `EnqueueJob`: `push` is the answer of Redis to the `RPUSH`, which
appends the marshalled payload to the list `sago:jobs` when it succeeds. -/
def EnqueueJob (push : Except String Unit) (jobID : UUID) (investorID : Option UUID)
    (deckContent deckPath : String) (queue : List Message) : Except String (List Message) :=
  match push with
  | .error e => .error e
  | .ok _ => .ok (queue ++ [marshal (jobPayload jobID investorID deckContent deckPath)])

/-- The method `GetQueueLength`. -/
def GetQueueLength (queue : List Message) : Nat := queue.length

/-! ## Attachment extraction (`gmail/service.go`) -/

/-- A part of a message payload (`gmail.MessagePart`): file name, MIME type, the
attachment id of its body, and its nested parts. -/
inductive MessagePart where
  | mk (Filename MimeType AttachmentId : String) (Parts : List MessagePart)

def MessagePart.Filename : MessagePart → String
  | .mk f _ _ _ => f

def MessagePart.MimeType : MessagePart → String
  | .mk _ m _ _ => m

def MessagePart.AttachmentId : MessagePart → String
  | .mk _ _ a _ => a

def MessagePart.Parts : MessagePart → List MessagePart
  | .mk _ _ _ ps => ps

/-- A message as `Users.Messages.Get` returns it: the headers (name, value) and
the parts of its payload. -/
structure GmailMessage where
  Headers : List (String × String) := []
  Parts : List MessagePart := []

/-- The struct `Attachment`. -/
structure Attachment where
  Filename : String
  MimeType : String
  Data : Bytes
deriving DecidableEq, Repr

/-- The answers of the mail provider and of the base64 decoder during one call. -/
structure Gmail where
  /-- Answer of `Users.Messages.List` for the query: the ids of the messages. -/
  list : String → Nat → Except String (List String)
  /-- Answer of `Users.Messages.Get` for a message id. -/
  get : String → Except String GmailMessage
  /-- Answer of `Users.Messages.Attachments.Get`: the encoded data. -/
  attachment : String → String → Except String String
  /-- Result of `base64.URLEncoding.DecodeString`, `none` when it fails. -/
  decode : String → Option Bytes

/-- The test `strings.HasSuffix(strings.ToLower(name), ".pdf")`.  Lowering is done
on ASCII letters: no other letter lowers to one of `.`, `p`, `d`, `f`. -/
def hasPdfSuffix (name : String) : Bool :=
  ".pdf".data.isSuffixOf (name.data.map Char.toLower)

/-- The body of the loop of `GetPDFAttachments` for one part: the attachment it
appends, or `none` when the part is passed over or its fetch or decode fails. -/
def pdfAttachment (g : Gmail) (messageID : String) (part : MessagePart) : Option Attachment :=
  if part.Filename ≠ "" ∧ hasPdfSuffix part.Filename then
    match g.attachment messageID part.AttachmentId with
    | .error _ => none
    | .ok attData =>
      match g.decode attData with
      | none => none
      | some data => some { Filename := part.Filename, MimeType := part.MimeType, Data := data }
  else none

/-- The method `GetPDFAttachments`. -/
def GetPDFAttachments (g : Gmail) (messageID : String) : Except String (List Attachment) :=
  match g.get messageID with
  | .error e => .error e
  | .ok msg =>
    .ok (msg.Parts.foldl (fun attachments part =>
      match pdfAttachment g messageID part with
      | some a => attachments ++ [a]
      | none => attachments) [])

/-- The method `ListRecentMessages`: the ids of the messages the provider lists
for the query, at most `maxResults` of them by the contract of the provider. -/
def ListRecentMessages (g : Gmail) (query : String) (maxResults : Nat) :
    Except String (List String) :=
  match g.list query maxResults with
  | .error e => .error ("unable to list messages: " ++ e)
  | .ok ids => .ok ids

/-- The method `GetMessage`. -/
def GetMessage (g : Gmail) (messageID : String) : Except String GmailMessage :=
  match g.get messageID with
  | .error e => .error ("unable to get message: " ++ e)
  | .ok msg => .ok msg

/-- An element of the result of `CheckForPitchDecks`. -/
structure PitchDeckMail where
  MessageID : String
  Subject : String
  Sender : String
  PDFs : List Attachment
deriving DecidableEq, Repr

/-- The loop over the headers in `CheckForPitchDecks`: the value of the last
header called `Subject` and of the last one called `From`, "" when there is none. -/
def subjectAndSender (headers : List (String × String)) : String × String :=
  headers.foldl (fun acc header =>
    if header.1 = "Subject" then (header.2, acc.2)
    else if header.1 = "From" then (acc.1, header.2)
    else acc) ("", "")

/-- The body of the loop of `CheckForPitchDecks` for one message id: the element
it appends, or `none` when the message is skipped.  The message is fetched by
`GetMessage` and again inside `GetPDFAttachments`; the provider gives the same
answer both times. -/
def pitchDeckMail (g : Gmail) (id : String) : Option PitchDeckMail :=
  match GetMessage g id with
  | .error _ => none
  | .ok msg =>
    let (subject, sender) := subjectAndSender msg.Headers
    match GetPDFAttachments g id with
    | .error _ => none
    | .ok pdfs =>
      if pdfs.length = 0 then none
      else some { MessageID := id, Subject := subject, Sender := sender, PDFs := pdfs }

/-- The method `CheckForPitchDecks`. -/
def CheckForPitchDecks (g : Gmail) : Except String (List PitchDeckMail) :=
  let query :=
    "is:unread has:attachment filename:pdf (subject:pitch OR subject:deck OR subject:investment)"
  match ListRecentMessages g query 10 with
  | .error e => .error e
  | .ok messages =>
    .ok (messages.foldl (fun results id =>
      match pitchDeckMail g id with
      | some r => results ++ [r]
      | none => results) [])

/-! ## The world of the intake handlers (`main.go`) -/

/-- A change made by a handler, recorded in the order the changes are made. -/
inductive Effect where
  | file (path : String)
  | deck (id : UUID)
  | job (id : UUID)
  | push (m : Message)
deriving DecidableEq, Repr

/-- What the handlers act on: the record store, the directories and files of the
staging area, the Redis list, and the record of the changes made so far. -/
structure World where
  store : Store := {}
  dirs : List String := []
  files : List (String × Bytes) := []
  queue : List Message := []
  log : List Effect := []
deriving DecidableEq, Repr

/-- The call `os.MkdirAll(dir, 0755)` when it succeeds. -/
def World.mkdir (w : World) (dir : String) : World :=
  if dir ∈ w.dirs then w else { w with dirs := w.dirs ++ [dir] }

/-- The file at `path` is created or truncated and receives `data`. -/
def World.writeFile (w : World) (path : String) (data : Bytes) : World :=
  { w with files := (w.files.filter fun f => f.1 ≠ path) ++ [(path, data)],
           log := w.log ++ [.file path] }

/-- Answers of the file system and of `uuid.New` during one staging of a file. -/
structure StageOracle where
  /-- Result of `uuid.New()`. -/
  token : UUID
  /-- Success of `os.MkdirAll`. -/
  mkdirOk : Bool := true
  /-- Success of opening the file (`os.Create`, or the open of `os.WriteFile`). -/
  createOk : Bool := true
  /-- The write fails after that many bytes; `none` when it does not fail. -/
  writeErr : Option Nat := none
  /-- Answer of `os.Getwd` inside `filepath.Abs`. -/
  wd : Option String := some "/app"

/-- The answers of the collaborators during one run of a handler. -/
structure Env where
  /-- Answers for the k-th staging of the run, counted from 0. -/
  stage : Nat → StageOracle
  /-- Answer of the database to the insert of `CreatePitchDeck`. -/
  deckInsert : Except String (UUID × Time)
  /-- Answer of the database to the insert of `CreateJob`. -/
  jobInsert : Except String (UUID × Time)
  /-- The client `redisQueue`: `none` when nil, else the answer to the push. -/
  redis : Option (Except String Unit)

/-- The JSON bodies the two handlers answer with. -/
inductive Body where
  | error (msg : String) (details : Option String)
  | uploaded (deck : PitchDeck) (jobId : UUID) (status : String)
  | queued (status : String) (jobId deckId : UUID) (pdfName : String)
deriving DecidableEq, Repr

/-- An HTTP response: status code and body. -/
structure Response where
  code : Nat
  body : Body
deriving DecidableEq, Repr

/-- A part of a multipart body as the reader hands it over: `fileName` is the
result of `part.FileName()`, `readErr = some n` a read that fails after n bytes. -/
structure Part where
  formName : String
  fileName : String := ""
  body : Bytes := ""
  readErr : Option Nat := none
deriving DecidableEq, Repr

/-- One answer of `mr.NextPart()` before the end of the body: a part, or an error. -/
inductive PartEvent where
  | part (p : Part)
  | fail (msg : String)
deriving DecidableEq, Repr

/-- The first `n` bytes. -/
def takeBytes (n : Nat) (b : Bytes) : Bytes := String.mk (b.data.take n)

/-- The call `io.Copy(dst, part)` into a file: the bytes that reach the file and
whether the copy succeeded. -/
def copyToFile (readErr writeErr : Option Nat) (body : Bytes) : Bytes × Bool :=
  match readErr, writeErr with
  | none, none => (body, true)
  | some n, none => (takeBytes n body, false)
  | none, some m => (takeBytes m body, false)
  | some n, some m => (takeBytes (min n m) body, false)

/-- The variables of `uploadDeck` that live across its loop, and the number of
file parts staged so far in the run. -/
structure UploadState where
  localPath : String := ""
  filename : String := ""
  investorID : Option UUID := none
  staged : Nat := 0
deriving DecidableEq, Repr

/-- Outcome of the loop of `uploadDeck`, or of one turn of it. -/
inductive LoopResult where
  | abort (r : Response) (w : World)
  | next (st : UploadState) (w : World)
deriving DecidableEq, Repr

/-- One turn of the loop of `uploadDeck` on a part. -/
def uploadPart (env : Env) (st : UploadState) (p : Part) (w : World) : LoopResult :=
  if p.formName = "investor_id" then
    match p.readErr with
    | some _ => .next st w
    | none =>
      let idStr := p.body
      if idStr ≠ "" then
        match uuidParse idStr with
        | some id => .next { st with investorID := some id } w
        | none => .next st w
      else .next st w
  else if p.formName = "file" then
    let o := env.stage st.staged
    let st1 := { st with filename := p.fileName, staged := st.staged + 1 }
    let uploadsDir := "uploads"
    if !o.mkdirOk then
      .abort ⟨500, .error "failed to create uploads dir" none⟩ w
    else
      let w1 := w.mkdir uploadsDir
      let localFilename := o.token.String ++ "_" ++ p.fileName
      let localPath := pathJoin [uploadsDir, localFilename]
      if !o.createOk then
        .abort ⟨500, .error "failed to create file" none⟩ w1
      else
        match copyToFile p.readErr o.writeErr p.body with
        | (written, false) =>
          .abort ⟨500, .error "failed to save file" (some "copy error")⟩
            (w1.writeFile localPath written)
        | (written, true) =>
          let absPath := (pathAbs o.wd localPath).getD ""
          .next { st1 with localPath := absPath } (w1.writeFile localPath written)
  else .next st w

/-- The loop of `uploadDeck` over the answers of `mr.NextPart()`. -/
def uploadLoop (env : Env) : List PartEvent → UploadState → World → LoopResult
  | [], st, w => .next st w
  | .fail msg :: _, _, w => .abort ⟨400, .error "processing upload" (some msg)⟩ w
  | .part p :: rest, st, w =>
    match uploadPart env st p w with
    | .abort r w1 => .abort r w1
    | .next st1 w1 => uploadLoop env rest st1 w1

/-- The push at the end of both handlers: nothing when `redisQueue` is nil, and
an error of `EnqueueJob` is only logged. -/
def enqueueStep (redis : Option (Except String Unit)) (jobID : UUID)
    (investorID : Option UUID) (localPath : String) (w : World) : World :=
  match redis with
  | none => w
  | some push =>
    match EnqueueJob push jobID investorID "" localPath w.queue with
    | .error _ => w
    | .ok q =>
      { w with queue := q,
               log := w.log ++ [.push (marshal (jobPayload jobID investorID "" localPath))] }

/-- The calls `db.CreatePitchDeck` and `db.CreateJob` act on the store of the world. -/
def World.createDeck (w : World) (r : Except String (UUID × Time)) (deck : PitchDeck) :
    Except String (PitchDeck × World) :=
  match CreatePitchDeck r deck w.store with
  | .error e => .error e
  | .ok (d, s) => .ok (d, { w with store := s, log := w.log ++ [.deck d.ID] })

def World.createJob (w : World) (r : Except String (UUID × Time)) (job : AnalysisJob) :
    Except String (AnalysisJob × World) :=
  match CreateJob r job w.store with
  | .error e => .error e
  | .ok (j, s) => .ok (j, { w with store := s, log := w.log ++ [.job j.ID] })

/-- The handler `uploadDeck`.  The request is the error of `MultipartReader()` or
the answers of `NextPart()` up to the end of the body. -/
def uploadDeck (env : Env) (req : Except String (List PartEvent)) (w : World) :
    Response × World :=
  match req with
  | .error e => (⟨400, .error "failed to start multipart reader" (some e)⟩, w)
  | .ok events =>
    match uploadLoop env events {} w with
    | .abort r w1 => (r, w1)
    | .next st w1 =>
      if st.localPath = "" then
        (⟨400, .error "file required (not found in request)" none⟩, w1)
      else
        let gcsPath := ""
        let deck : PitchDeck :=
          { InvestorID := st.investorID, Filename := st.filename, GCSPath := some gcsPath,
            Source := "upload" }
        match w1.createDeck env.deckInsert deck with
        | .error e => (⟨500, .error e none⟩, w1)
        | .ok (deck, w2) =>
          let job : AnalysisJob := { DeckID := some deck.ID, InvestorID := st.investorID }
          match w2.createJob env.jobInsert job with
          | .error e => (⟨500, .error e none⟩, w2)
          | .ok (job, w3) =>
            let w4 := enqueueStep env.redis job.ID st.investorID st.localPath w3
            (⟨201, .uploaded deck job.ID "Job queued for processing"⟩, w4)

/-- The staging inside `processEmail`: a failure of `MkdirAll` is only logged, a
failure of `WriteFile` is logged and empties the path. -/
def stageAttachment (o : StageOracle) (a : Attachment) (w : World) : String × World :=
  let uploadsDir := "uploads"
  let w1 := if o.mkdirOk then w.mkdir uploadsDir else w
  let localFilename := o.token.String ++ "_" ++ a.Filename
  let localPath := pathJoin [uploadsDir, localFilename]
  if !o.createOk then ("", w1)
  else
    match o.writeErr with
    | some n => ("", w1.writeFile localPath (takeBytes n a.Data))
    | none => ((pathAbs o.wd localPath).getD "", w1.writeFile localPath a.Data)

/-- The handler `processEmail`; `gmail` is the global `gmailService`, `none` when nil. -/
def processEmail (gmail : Option Gmail) (env : Env) (messageID : String) (w : World) :
    Response × World :=
  match gmail with
  | none => (⟨503, .error "Gmail not connected" none⟩, w)
  | some g =>
    if messageID = "" then (⟨400, .error "messageId required" none⟩, w)
    else
      match GetPDFAttachments g messageID with
      | .error e => (⟨500, .error e none⟩, w)
      | .ok [] => (⟨404, .error "No PDF attachments found" none⟩, w)
      | .ok (a0 :: _) =>
        let gcsPath := ""
        let sourceMetadata := "\x7b\"message_id\": \"" ++ messageID ++ "\"\x7d"
        let deck : PitchDeck :=
          { Filename := a0.Filename, GCSPath := some gcsPath, Source := "gmail",
            SourceMetadata := some sourceMetadata }
        match w.createDeck env.deckInsert deck with
        | .error e => (⟨500, .error ("Failed to create deck: " ++ e) none⟩, w)
        | .ok (deck, w1) =>
          let job : AnalysisJob := { DeckID := some deck.ID }
          match w1.createJob env.jobInsert job with
          | .error e => (⟨500, .error ("Failed to create job: " ++ e) none⟩, w1)
          | .ok (job, w2) =>
            let (localPath, w3) := stageAttachment (env.stage 0) a0 w2
            let w4 := enqueueStep env.redis job.ID none localPath w3
            (⟨200, .queued "queued" job.ID deck.ID a0.Filename⟩, w4)

/-- An intake call from one of the two sources. -/
inductive Intake where
  | upload (req : Except String (List PartEvent))
  | email (gmail : Option Gmail) (messageID : String)

/-- Runs the handler of the source. -/
def Intake.run (env : Env) : Intake → World → Response × World
  | .upload req, w => uploadDeck env req w
  | .email gmail messageID, w => processEmail gmail env messageID w

/-- The status code with which the handler of the source reports success:
`http.StatusCreated` for `uploadDeck`, `http.StatusOK` for `processEmail`. -/
def Intake.successCode : Intake → Nat
  | .upload _ => 201
  | .email _ _ => 200

/-- World reached by a loop outcome. -/
def LoopResult.world : LoopResult → World
  | .abort _ w => w
  | .next _ w => w

/-- The stored status of job `id` after a sequence of transitions on it. -/
def statusAfter (id : UUID) (ts : List Transition) (s : Store) : Option String :=
  match runTransitions id ts s with
  | .ok s1 => statusOf id s1
  | .error _ => none

/-- The changes a run made: what it added to the record of changes of `w`. -/
def newEffects (w out : World) : List Effect := out.log.drop w.log.length

/-- The value of the member `key` of a message, `none` when it has no such member. -/
def Message.member (m : Message) (key : String) : Option String := m.lookup key

/-- The world after the run of an intake call. -/
def Intake.after (env : Env) (i : Intake) (w : World) : World := (i.run env w).2

/-- The three shapes of what an intake run leaves behind, `fs` and `fs2` being
the paths of the files written before and after the inserts (`late` says which
`fs2` the handler allows): nothing recorded; a Deck row without a Job; or a Deck
row and its Job row, with at most one message, pushed last and built from the
id and investor id of that Job and from a path that is empty or the absolute
path of a file written in the run. -/
inductive Outcome (late : List String → Prop) (env : Env) (w out : World) : Prop where
  | nothing (fs : List String) (hs : out.store = w.store) (hq : out.queue = w.queue)
      (hl : newEffects w out = fs.map Effect.file)
  | orphan (fs : List String) (d : PitchDeck) (e : String)
      (hd : env.deckInsert = .ok (d.ID, d.CreatedAt)) (hj : env.jobInsert = .error e)
      (hdecks : out.store.decks = w.store.decks ++ [d]) (hjobs : out.store.jobs = w.store.jobs)
      (hq : out.queue = w.queue) (hl : newEffects w out = fs.map Effect.file ++ [.deck d.ID])
  | recorded (fs fs2 : List String) (d : PitchDeck) (j : AnalysisJob)
      (hd : env.deckInsert = .ok (d.ID, d.CreatedAt))
      (hj : env.jobInsert = .ok (j.ID, j.CreatedAt))
      (hdecks : out.store.decks = w.store.decks ++ [d])
      (hjobs : out.store.jobs = w.store.jobs ++ [j])
      (href : j.DeckID = some d.ID) (hstatus : j.Status = JobStatusPending)
      (hlate : late fs2)
      (hpush :
        (out.queue = w.queue ∧
          newEffects w out = fs.map Effect.file ++ [.deck d.ID, .job j.ID] ++ fs2.map Effect.file) ∨
        (∃ m path, out.queue = w.queue ++ [m] ∧
          m = marshal (jobPayload j.ID j.InvestorID "" path) ∧
          (path = "" ∨ ∃ rel k, rel ∈ fs ++ fs2 ∧ pathAbs (env.stage k).wd rel = some path) ∧
          newEffects w out =
            fs.map Effect.file ++ [.deck d.ID, .job j.ID] ++ fs2.map Effect.file ++ [.push m]))

/-- The staging of a file part of an upload fails: the directory or the file
cannot be created, or the copy of the bytes fails. -/
def uploadStagingFails (o : StageOracle) (p : Part) : Bool :=
  !o.mkdirOk || !o.createOk || !(copyToFile p.readErr o.writeErr p.body).2

/-- The staging of an attachment fails: `os.WriteFile` cannot open or write the file. -/
def emailStagingFails (o : StageOracle) : Bool :=
  !o.createOk || o.writeErr.isSome

/-- A part with the bytes of its file taken out; other parts are kept as they are. -/
def Part.withoutBytes (p : Part) : Part :=
  if p.formName = "file" then { p with body := "" } else p

/-- An answer of the multipart reader with the bytes of its file taken out. -/
def PartEvent.withoutBytes : PartEvent → PartEvent
  | .part p => .part p.withoutBytes
  | .fail msg => .fail msg

/-- An attachment with its bytes taken out. -/
def Attachment.withoutBytes (a : Attachment) : Attachment := { a with Data := "" }

/-- Two intake calls that differ at most in the bytes of the files they carry:
uploads whose parts agree once the file bytes are taken out, or email intakes of
the same message id whose extracted attachments agree once their data are. -/
def sameButBytes : Intake → Intake → Prop
  | .upload (.ok e1), .upload (.ok e2) =>
    e1.map PartEvent.withoutBytes = e2.map PartEvent.withoutBytes
  | .upload (.error a), .upload (.error b) => a = b
  | .email none m1, .email none m2 => m1 = m2
  | .email (some g1) m1, .email (some g2) m2 =>
    m1 = m2 ∧
    match GetPDFAttachments g1 m1, GetPDFAttachments g2 m2 with
    | .ok l1, .ok l2 => l1.map Attachment.withoutBytes = l2.map Attachment.withoutBytes
    | .error a, .error b => a = b
    | _, _ => False
  | _, _ => False

/-- What of a loop outcome does not lie in the world: the response of an abort,
or the state the loop ended in. -/
def LoopResult.skeleton : LoopResult → Response ⊕ UploadState
  | .abort r _ => .inl r
  | .next st _ => .inr st

/-- The Deck id and the Job id a success body carries, `none` for an error body. -/
def Body.ids : Body → Option (UUID × UUID)
  | .uploaded deck jobId _ => some (deck.ID, jobId)
  | .queued _ jobId deckId _ => some (deckId, jobId)
  | .error _ _ => none

mutual
/-- A part followed by all the parts nested in it, in document order. -/
def MessagePart.withNested : MessagePart → List MessagePart
  | .mk f m a ps => .mk f m a ps :: nestedParts ps
/-- The parts of a list with all the parts nested in them, in document order. -/
def nestedParts : List MessagePart → List MessagePart
  | [] => []
  | p :: ps => p.withNested ++ nestedParts ps
end

/-- The query `CheckForPitchDecks` sends to the provider. -/
def pitchDeckQuery : String :=
  "is:unread has:attachment filename:pdf (subject:pitch OR subject:deck OR subject:investment)"

/-- A message fails attachment fetch or decode: one of its parts qualifies by
its file name and `GetPDFAttachments` cannot fetch or decode its data. -/
def attachmentFails (g : Gmail) (messageID : String) (msg : GmailMessage) : Bool :=
  msg.Parts.any fun part =>
    decide (part.Filename ≠ "") && hasPdfSuffix part.Filename &&
      (pdfAttachment g messageID part).isNone

/-- The path at which the k-th staging of an upload run writes the file of a part. -/
def stagedName (env : Env) (k : Nat) (p : Part) : String :=
  pathJoin ["uploads", (env.stage k).token.String ++ "_" ++ p.fileName]

/-- The path and the bytes of the file of every part named `file`, in order,
the first of them being the k-th staging of the run. -/
def stagedFrom (env : Env) : Nat → List Part → List (String × Bytes)
  | _, [] => []
  | k, p :: ps =>
    if p.formName = "file" then (stagedName env k p, p.body) :: stagedFrom env (k + 1) ps
    else stagedFrom env k ps

/-- The files after the given files were written one after the other. -/
def writeAll (files : List (String × Bytes)) (written : List (String × Bytes)) :
    List (String × Bytes) :=
  written.foldl (fun fs f => (fs.filter fun g => g.1 ≠ f.1) ++ [f]) files

/-- The request whose multipart body hands over the given parts, then ends. -/
def uploadOf (ps : List Part) : Except String (List PartEvent) := .ok (ps.map PartEvent.part)

/-- The id that one part of an upload gives the request: the parsed body of a
part named `investor_id` that is read without error and holds a non-empty
identifier that `uuid.Parse` accepts; `none` for every other part. -/
def Part.investor (p : Part) : Option UUID :=
  if p.formName = "investor_id" ∧ p.readErr = none ∧ p.body ≠ "" then uuidParse p.body else none

/-- The parts of an upload that are named `file`, in order. -/
def fileParts (ps : List Part) : List Part := ps.filter fun p => decide (p.formName = "file")

/-- The path at which `processEmail` writes an attachment under the answers `o`. -/
def emailStagedName (o : StageOracle) (a : Attachment) : String :=
  pathJoin ["uploads", o.token.String ++ "_" ++ a.Filename]

/-! ## Concrete runs -/

/-- A run in which every collaborator answers with success: the k-th staging
draws the token k+1, the deck gets id 16 and the job id 32. -/
def okEnv : Env :=
  { stage := fun k => { token := ⟨k + 1⟩ },
    deckInsert := .ok (⟨16⟩, 100),
    jobInsert := .ok (⟨32⟩, 101),
    redis := some (.ok ()) }

/-- A file part `deck.pdf`. -/
def deckPart : Part := { formName := "file", fileName := "deck.pdf", body := "%PDF-1.4" }

/-- An upload of one file `deck.pdf` and no investor id. -/
def deckUpload : Except String (List PartEvent) := .ok [.part deckPart]

/-- The parts of an upload with a valid investor id, a note, and no file. -/
def noFileParts : List PartEvent :=
  [.part { formName := "investor_id", body := "00000000-0000-0000-0000-0000000000ff" },
   .part { formName := "note", body := "see attached" }]

/-- The attachment `deck.pdf` of the message `m1` of `oneDeckMail`. -/
def deckAttachment : Attachment :=
  { Filename := "deck.pdf", MimeType := "application/pdf", Data := "JVBERi0" }

/-- A mailbox with one message `m1` that has a text part and a part `deck.pdf`
whose data decode to themselves. -/
def oneDeckMail : Gmail :=
  { list := fun _ _ => .ok ["m1"],
    get := fun id =>
      if id = "m1" then
        .ok { Headers := [("Subject", "pitch"), ("From", "founder@example.com")],
              Parts := [.mk "" "text/plain" "" [], .mk "deck.pdf" "application/pdf" "att1" []] }
      else .error "not found",
    attachment := fun _ att => if att = "att1" then .ok "JVBERi0" else .error "not found",
    decode := fun data => some data }

/-- A store with one deck and its job, the job being completed. -/
def doneStore : Store :=
  { decks := [{ ID := ⟨16⟩, Filename := "deck.pdf", GCSPath := some "", Source := "upload",
                CreatedAt := 100 }],
    jobs := [{ ID := ⟨32⟩, DeckID := some ⟨16⟩, Status := JobStatusCompleted,
               ClaimsExtracted := some "claims", VerificationResults := some "checks",
               FinalReport := some "report", StartedAt := some 110, CompletedAt := some 120,
               CreatedAt := 101 }] }

/-- The job row that `CreateJob` stored for deck 16. -/
def pendingJob : AnalysisJob :=
  { ID := ⟨32⟩, DeckID := some ⟨16⟩, Status := JobStatusPending, CreatedAt := 101 }

/-- A store with one deck and its job, the job waiting for the worker. -/
def pendingStore : Store :=
  { decks := [{ ID := ⟨16⟩, Filename := "deck.pdf", GCSPath := some "", Source := "upload",
                CreatedAt := 100 }],
    jobs := [pendingJob] }

/-- A store with one deck and its job, the job being run by the worker. -/
def runningStore : Store :=
  { decks := [{ ID := ⟨16⟩, Filename := "deck.pdf", GCSPath := some "", Source := "upload",
                CreatedAt := 100 }],
    jobs := [{ ID := ⟨32⟩, DeckID := some ⟨16⟩, Status := JobStatusRunning,
               StartedAt := some 110, CreatedAt := 101 }] }

/-- A run in which the staging file cannot be created and all else succeeds. -/
def noDiskEnv : Env :=
  { stage := fun k => { token := ⟨k + 1⟩, createOk := false },
    deckInsert := .ok (⟨16⟩, 100),
    jobInsert := .ok (⟨32⟩, 101),
    redis := some (.ok ()) }

/-- An investor id field that does not hold a UUID. -/
def badInvestorPart : Part := { formName := "investor_id", body := "not-a-uuid" }

/-- The file part `deck.pdf` with other bytes. -/
def deckPart2 : Part :=
  { formName := "file", fileName := "deck.pdf", body := "%PDF-1.7 another, longer document" }

/-- A mailbox with one message `m1` whose only part is an attachment that the
sender named `/../deck.pdf`, with the given data. -/
def slashMail (data : String) : Gmail :=
  { list := fun _ _ => .ok ["m1"],
    get := fun _ => .ok { Parts := [.mk "/../deck.pdf" "application/pdf" "att1" []] },
    attachment := fun _ _ => .ok data,
    decode := fun d => some d }

/-- A later run in which every collaborator answers with success: the k-th
staging draws the token k+2, the deck gets id 17 and the job id 33. -/
def okEnv2 : Env :=
  { stage := fun k => { token := ⟨k + 2⟩ },
    deckInsert := .ok (⟨17⟩, 200),
    jobInsert := .ok (⟨33⟩, 201),
    redis := some (.ok ()) }

/-- A run in which the push to Redis fails and all else succeeds. -/
def noRedisEnv : Env :=
  { stage := fun k => { token := ⟨k + 1⟩ },
    deckInsert := .ok (⟨16⟩, 100),
    jobInsert := .ok (⟨32⟩, 101),
    redis := some (.error "connection refused") }

/-- The Deck row of the email intake of `m1` under `okEnv`. -/
def m1DeckRow : PitchDeck :=
  { ID := ⟨16⟩, Filename := "deck.pdf", GCSPath := some "", Source := "gmail",
    SourceMetadata := some "\x7b\"message_id\": \"m1\"\x7d", CreatedAt := 100 }

/-- The Deck row of the upload of `deck.pdf` under `okEnv`. -/
def uploadDeckRow : PitchDeck :=
  { ID := ⟨16⟩, Filename := "deck.pdf", GCSPath := some "", Source := "upload",
    CreatedAt := 100 }

/-- A message with two PDF parts: `lost.pdf`, whose data cannot be fetched, and
`deck.pdf`. -/
def halfMessage : GmailMessage :=
  { Headers := [("Subject", "pitch"), ("From", "founder@example.com")],
    Parts := [.mk "lost.pdf" "application/pdf" "gone" [],
              .mk "deck.pdf" "application/pdf" "att1" []] }

/-- A mailbox that lists `m0`, which cannot be fetched, and `m1`, which is
`halfMessage`. -/
def halfMail : Gmail :=
  { list := fun _ _ => .ok ["m0", "m1"],
    get := fun id => if id = "m1" then .ok halfMessage else .error "not found",
    attachment := fun _ att => if att = "att1" then .ok "JVBERi0" else .error "not found",
    decode := fun data => some data }

/-- The attachment `terms.pdf`, a second attachment of the message of `twoDeckMail`. -/
def termsAttachment : Attachment :=
  { Filename := "terms.pdf", MimeType := "application/pdf", Data := "JVBERi1" }

/-- A mailbox whose message `m1` has the two PDF parts `deck.pdf` and `terms.pdf`. -/
def twoDeckMail : Gmail :=
  { list := fun _ _ => .ok ["m1"],
    get := fun _ =>
      .ok { Parts := [.mk "deck.pdf" "application/pdf" "att1" [],
                      .mk "terms.pdf" "application/pdf" "att2" []] },
    attachment := fun _ att => if att = "att1" then .ok "JVBERi0" else .ok "JVBERi1",
    decode := fun data => some data }

/-- A mailbox whose message `m1` has a text part only. -/
def noDeckMail : Gmail :=
  { list := fun _ _ => .ok ["m1"],
    get := fun _ => .ok { Parts := [.mk "" "text/plain" "" []] },
    attachment := fun _ _ => .error "not found",
    decode := fun data => some data }

/-- An investor id field that holds the id 255. -/
def investorPart : Part :=
  { formName := "investor_id", body := "00000000-0000-0000-0000-0000000000ff" }

/-- An investor id field of 38 bytes whose first and last byte are no braces. -/
def unbracedInvestorPart : Part :=
  { formName := "investor_id", body := "x00000000-0000-0000-0000-0000000000ffy" }

/-! ## Facts about the building blocks -/

@[simp] theorem mkdir_store (w : World) (d : String) : (w.mkdir d).store = w.store := by
  unfold World.mkdir; split <;> rfl

@[simp] theorem mkdir_queue (w : World) (d : String) : (w.mkdir d).queue = w.queue := by
  unfold World.mkdir; split <;> rfl

@[simp] theorem mkdir_log (w : World) (d : String) : (w.mkdir d).log = w.log := by
  unfold World.mkdir; split <;> rfl

@[simp] theorem mkdir_files (w : World) (d : String) : (w.mkdir d).files = w.files := by
  unfold World.mkdir; split <;> rfl

@[simp] theorem writeFile_store (w : World) (p : String) (b : Bytes) :
    (w.writeFile p b).store = w.store := rfl

theorem writeFile_log (w : World) (p : String) (b : Bytes) :
    (w.writeFile p b).log = w.log ++ [.file p] := rfl

@[simp] theorem writeFile_queue (w : World) (p : String) (b : Bytes) :
    (w.writeFile p b).queue = w.queue := rfl

/-- One turn of the upload loop leaves the record store and the queue alone. -/
theorem uploadPart_store_queue (env : Env) (st : UploadState) (p : Part) (w : World) :
    (uploadPart env st p w).world.store = w.store ∧
    (uploadPart env st p w).world.queue = w.queue := by
  generalize hres : uploadPart env st p w = res
  simp only [uploadPart] at hres
  repeat' (split at hres)
  all_goals (subst hres; simp [LoopResult.world])

/-- The upload loop leaves the record store and the queue alone. -/
theorem uploadLoop_store_queue (env : Env) (events : List PartEvent) :
    ∀ (st : UploadState) (w : World),
      (uploadLoop env events st w).world.store = w.store ∧
      (uploadLoop env events st w).world.queue = w.queue := by
  induction events with
  | nil => intro st w; simp [uploadLoop, LoopResult.world]
  | cons e rest ih =>
    intro st w
    cases e with
    | fail msg => simp [uploadLoop, LoopResult.world]
    | part p =>
      have h := uploadPart_store_queue env st p w
      unfold uploadLoop
      split
      · rename_i r w1 heq
        rw [heq] at h
        simpa [LoopResult.world] using h
      · rename_i st1 w1 heq
        rw [heq] at h
        have h2 := ih st1 w1
        simp only [LoopResult.world] at h
        rw [h.1, h.2] at h2
        exact h2

/-- A response of an aborted upload loop is never the success response. -/
theorem uploadLoop_abort_code (env : Env) (events : List PartEvent) :
    ∀ (st : UploadState) (w : World) (r : Response) (w1 : World),
      uploadLoop env events st w = .abort r w1 → r.code = 400 ∨ r.code = 500 := by
  induction events with
  | nil => intro st w r w1 h; simp [uploadLoop] at h
  | cons e rest ih =>
    intro st w r w1 h
    cases e with
    | fail msg =>
      simp only [uploadLoop, LoopResult.abort.injEq] at h
      left; rw [← h.1]
    | part p =>
      unfold uploadLoop at h
      split at h
      · rename_i r0 w0 heq
        simp only [LoopResult.abort.injEq] at h
        rw [← h.1]
        simp only [uploadPart] at heq
        right
        repeat' (split at heq)
        all_goals (first | (simp only [LoopResult.abort.injEq] at heq; rw [← heq.1]) | simp at heq)
      · exact ih _ _ _ _ h

/-- The insert of `CreateJob` stores the status `pending` whatever status the
struct of the caller carries, and appends exactly one row. -/
theorem CreateJob_stores_pending (r : Except String (UUID × Time)) (job j : AnalysisJob)
    (s s1 : Store) (h : CreateJob r job s = .ok (j, s1)) :
    ∃ row, s1.jobs = s.jobs ++ [row] ∧ s1.decks = s.decks ∧ row.Status = JobStatusPending ∧
      row.ID = j.ID ∧ row.DeckID = job.DeckID ∧ row.InvestorID = job.InvestorID := by
  unfold CreateJob at h
  split at h
  · simp at h
  · rename_i id t
    simp only [Except.ok.injEq, Prod.mk.injEq] at h
    obtain ⟨hj, hs⟩ := h
    subst hj; subst hs
    exact ⟨_, rfl, rfl, rfl, rfl, rfl, rfl⟩

/-- The insert of `CreatePitchDeck` appends exactly one row, which has the id
scanned back into the struct. -/
theorem CreatePitchDeck_appends (r : Except String (UUID × Time)) (deck d : PitchDeck)
    (s s1 : Store) (h : CreatePitchDeck r deck s = .ok (d, s1)) :
    s1.decks = s.decks ++ [d] ∧ s1.jobs = s.jobs ∧ d.Filename = deck.Filename ∧
      d.InvestorID = deck.InvestorID ∧ d.Source = deck.Source := by
  unfold CreatePitchDeck at h
  split at h
  · simp at h
  · rename_i id t
    simp only [Except.ok.injEq, Prod.mk.injEq] at h
    obtain ⟨hj, hs⟩ := h
    subst hj; subst hs
    exact ⟨rfl, rfl, rfl, rfl, rfl⟩

@[simp] theorem enqueueStep_store (redis : Option (Except String Unit)) (jobID : UUID)
    (inv : Option UUID) (path : String) (w : World) :
    (enqueueStep redis jobID inv path w).store = w.store := by
  unfold enqueueStep EnqueueJob
  repeat' split
  all_goals simp_all

@[simp] theorem enqueueStep_files (redis : Option (Except String Unit)) (jobID : UUID)
    (inv : Option UUID) (path : String) (w : World) :
    (enqueueStep redis jobID inv path w).files = w.files := by
  unfold enqueueStep EnqueueJob
  repeat' split
  all_goals simp_all

/-- A successful `createDeck` appends the returned deck to the table and its
effect to the record of changes, and changes nothing else. -/
theorem createDeck_ok (w w1 : World) (r : Except String (UUID × Time)) (deck d : PitchDeck)
    (h : w.createDeck r deck = .ok (d, w1)) :
    w1.store.decks = w.store.decks ++ [d] ∧ w1.store.jobs = w.store.jobs ∧
      w1.queue = w.queue ∧ w1.files = w.files ∧ w1.dirs = w.dirs ∧
      w1.log = w.log ++ [.deck d.ID] ∧
      d.Filename = deck.Filename ∧ d.InvestorID = deck.InvestorID ∧ d.Source = deck.Source := by
  unfold World.createDeck at h
  split at h
  · simp at h
  · rename_i d0 s0 heq
    simp only [Except.ok.injEq, Prod.mk.injEq] at h
    obtain ⟨hd, hw⟩ := h
    subst hd; subst hw
    obtain ⟨h1, h2, h3, h4, h5⟩ := CreatePitchDeck_appends _ _ _ _ _ heq
    exact ⟨h1, h2, rfl, rfl, rfl, rfl, h3, h4, h5⟩

/-- A successful `createJob` appends one row in status `pending`, bound to the
deck and investor of the struct, and its effect to the record of changes. -/
theorem createJob_ok (w w1 : World) (r : Except String (UUID × Time)) (job j : AnalysisJob)
    (h : w.createJob r job = .ok (j, w1)) :
    ∃ row, w1.store.jobs = w.store.jobs ++ [row] ∧ w1.store.decks = w.store.decks ∧
      w1.queue = w.queue ∧ w1.files = w.files ∧ w1.dirs = w.dirs ∧
      w1.log = w.log ++ [.job j.ID] ∧
      row.Status = JobStatusPending ∧ row.ID = j.ID ∧ row.DeckID = job.DeckID ∧
      row.InvestorID = job.InvestorID := by
  unfold World.createJob at h
  split at h
  · simp at h
  · rename_i j0 s0 heq
    simp only [Except.ok.injEq, Prod.mk.injEq] at h
    obtain ⟨hd, hw⟩ := h
    subst hd; subst hw
    obtain ⟨row, h1, h2, h3, h4, h5, h6⟩ := CreateJob_stores_pending _ _ _ _ _ heq
    exact ⟨row, h1, h2, rfl, rfl, rfl, rfl, h3, h4, h5, h6⟩

@[simp] theorem stageAttachment_store (o : StageOracle) (a : Attachment) (w : World) :
    (stageAttachment o a w).2.store = w.store := by
  simp only [stageAttachment]
  repeat' split
  all_goals simp

@[simp] theorem stageAttachment_queue (o : StageOracle) (a : Attachment) (w : World) :
    (stageAttachment o a w).2.queue = w.queue := by
  simp only [stageAttachment]
  repeat' split
  all_goals simp

/-! ## Successful intake -/

/-- Claim C1.  A successful intake call from either source (`uploadDeck` answering
201, `processEmail` answering 200) appends exactly one Deck row and exactly one
Job row to the record store; the Job row references that Deck and its stored
status is `pending`. -/
theorem intake_success_one_deck_one_job (env : Env) (i : Intake) (w : World)
    (h : (i.run env w).1.code = i.successCode) :
    ∃ deck job,
      (i.run env w).2.store.decks = w.store.decks ++ [deck] ∧
      (i.run env w).2.store.jobs = w.store.jobs ++ [job] ∧
      job.DeckID = some deck.ID ∧ job.Status = JobStatusPending := by
  cases i with
  | upload req =>
    simp only [Intake.run, Intake.successCode] at h ⊢
    cases req with
    | error e => simp [uploadDeck] at h
    | ok events =>
      have hl := uploadLoop_store_queue env events {} w
      rcases hloop : uploadLoop env events {} w with ⟨r, w1⟩ | ⟨st, w1⟩
      · have := uploadLoop_abort_code env events _ _ _ _ hloop
        simp only [uploadDeck, hloop] at h
        omega
      · rw [hloop] at hl
        simp only [LoopResult.world] at hl
        rcases hd : env.deckInsert with e | ⟨id, t⟩ <;>
        rcases hj : env.jobInsert with e2 | ⟨id2, t2⟩ <;>
        by_cases hp : st.localPath = "" <;>
        simp [uploadDeck, hloop, hd, hj, hp, World.createDeck, World.createJob,
          CreatePitchDeck, CreateJob] at h ⊢
        simp [hl.1, JobStatusPending]
  | email gmail messageID =>
    simp only [Intake.run, Intake.successCode] at h ⊢
    cases gmail with
    | none => simp [processEmail] at h
    | some g =>
      rcases hg : GetPDFAttachments g messageID with e | (_ | ⟨a0, rest⟩) <;>
      rcases hd : env.deckInsert with e | ⟨id, t⟩ <;>
      rcases hj : env.jobInsert with e2 | ⟨id2, t2⟩ <;>
      by_cases hm : messageID = "" <;>
      simp [processEmail, hg, hd, hj, hm, World.createDeck, World.createJob,
        CreatePitchDeck, CreateJob, JobStatusPending] at h ⊢

/-- Witness of C1: the upload of `deck.pdf` with every collaborator succeeding. -/
theorem intake_success_one_deck_one_job_witness :
    ((Intake.upload deckUpload).run okEnv {}).1.code = (Intake.upload deckUpload).successCode ∧
    ∃ deck job,
      ((Intake.upload deckUpload).run okEnv {}).2.store.decks = ({} : World).store.decks ++ [deck] ∧
      ((Intake.upload deckUpload).run okEnv {}).2.store.jobs = ({} : World).store.jobs ++ [job] ∧
      job.DeckID = some deck.ID ∧ job.Status = JobStatusPending :=
  ⟨by decide, intake_success_one_deck_one_job okEnv (.upload deckUpload) {} (by decide)⟩

/-! ## Job lifecycle -/

/-- Reading job `id` after an update keyed by `id` gives the updated row, as
long as the update keeps the id column. -/
theorem find_after_update (id : UUID) (set : AnalysisJob → AnalysisJob)
    (hset : ∀ j, (set j).ID = j.ID) (jobs : List AnalysisJob) :
    (jobs.map fun j => if j.ID = id then set j else j).find? (fun j => j.ID = id) =
      (jobs.find? (fun j => j.ID = id)).map set := by
  induction jobs with
  | nil => rfl
  | cons j rest ih =>
    by_cases hj : j.ID = id
    · simp [List.find?, hj, hset]
    · simp [List.find?_cons, hj, ih]

/-- An executed update keyed by `id` turns the row read for `id` into `set` of it. -/
theorem GetJobByID_updateJobs (id : UUID) (set : AnalysisJob → AnalysisJob)
    (hset : ∀ j, (set j).ID = j.ID) (s : Store) (j : AnalysisJob)
    (hj : GetJobByID id s = .ok j) :
    ∃ s1, updateJobs true id set s = .ok s1 ∧ GetJobByID id s1 = .ok (set j) ∧
      s1.decks = s.decks := by
  refine ⟨{ s with jobs := s.jobs.map fun j => if j.ID = id then set j else j }, ?_, ?_, rfl⟩
  · simp [updateJobs]
  · unfold GetJobByID at hj ⊢
    simp only
    rw [find_after_update id set hset]
    cases hf : s.jobs.find? (fun j => j.ID = id) with
    | none => rw [hf] at hj; simp at hj
    | some j0 =>
      rw [hf] at hj
      simp only [Except.ok.injEq] at hj
      subst hj
      rfl

/-- Every transition is an executed update of the row that keeps its id and
writes the target status. -/
theorem Transition.run_spec (id : UUID) (t : Transition) (s : Store) (j : AnalysisJob)
    (hj : GetJobByID id s = .ok j) :
    ∃ s1 j1, t.run id s = .ok s1 ∧ GetJobByID id s1 = .ok j1 ∧ j1.Status = t.target := by
  cases t with
  | started now =>
    obtain ⟨s1, h1, h2, -⟩ := GetJobByID_updateJobs id
      (fun j => { j with Status := JobStatusRunning, StartedAt := some now }) (fun _ => rfl) s j hj
    exact ⟨s1, _, h1, h2, rfl⟩
  | completed now c v r =>
    obtain ⟨s1, h1, h2, -⟩ := GetJobByID_updateJobs id
      (fun j => { j with Status := JobStatusCompleted, ClaimsExtracted := some c,
                         VerificationResults := some v, FinalReport := some r,
                         CompletedAt := some now }) (fun _ => rfl) s j hj
    exact ⟨s1, _, h1, h2, rfl⟩
  | failed now m =>
    obtain ⟨s1, h1, h2, -⟩ := GetJobByID_updateJobs id
      (fun j => { j with Status := JobStatusFailed, ErrorMessage := some m,
                         CompletedAt := some now }) (fun _ => rfl) s j hj
    exact ⟨s1, _, h1, h2, rfl⟩
  | status st =>
    obtain ⟨s1, h1, h2, -⟩ := GetJobByID_updateJobs id
      (fun j => { j with Status := st }) (fun _ => rfl) s j hj
    exact ⟨s1, _, h1, h2, rfl⟩

/-- Counterexample to C2 as stated: `UpdateJobStarted` on a completed job is
executed and the job then reads `running`. -/
theorem completed_job_restarts :
    statusOf ⟨32⟩ doneStore = some JobStatusCompleted ∧
    statusAfter ⟨32⟩ [.started 130] doneStore = some JobStatusRunning := by
  decide

/-- Claim C2, amended.  The updates are unconditional: after any sequence of
transition operations on an existing job its stored status is the status written
by the last operation of the sequence, whatever the status was before (a terminal
one included), and it is the status before when the sequence is empty. -/
theorem status_follows_last_transition (id : UUID) (ts : List Transition) :
    ∀ (s : Store) (j : AnalysisJob), GetJobByID id s = .ok j →
      statusAfter id ts s = some ((ts.getLast?.map Transition.target).getD j.Status) := by
  induction ts with
  | nil =>
    intro s j hj
    simp [statusAfter, runTransitions, statusOf, hj]
  | cons t rest ih =>
    intro s j hj
    obtain ⟨s1, j1, h1, h2, h3⟩ := Transition.run_spec id t s j hj
    have hrest := ih s1 j1 h2
    simp only [statusAfter, runTransitions, h1] at hrest ⊢
    rw [hrest, h3]
    cases rest with
    | nil => simp
    | cons t2 rest2 =>
      obtain ⟨x, hx⟩ : ∃ x, (t2 :: rest2).getLast? = some x :=
        ⟨_, List.getLast?_eq_getLast _ (by simp)⟩
      simp [List.getLast?_cons_cons, hx]

/-- Witness of C2, amended: a completed job that is started and then failed. -/
theorem status_follows_last_transition_witness :
    GetJobByID ⟨32⟩ doneStore = .ok
      { ID := ⟨32⟩, DeckID := some ⟨16⟩, Status := JobStatusCompleted,
        ClaimsExtracted := some "claims", VerificationResults := some "checks",
        FinalReport := some "report", StartedAt := some 110, CompletedAt := some 120,
        CreatedAt := 101 } ∧
    statusAfter ⟨32⟩ [.started 130, .failed 140 "late"] doneStore = some JobStatusFailed :=
  ⟨rfl,
   status_follows_last_transition ⟨32⟩ [.started 130, .failed 140 "late"] doneStore _ rfl⟩

/-- Claim C3.  On an existing job, `UpdateJobStarted` at time `t1` followed by
`UpdateJobCompleted` at a time `t2` not before `t1` gives a job that reads
`completed`, with started-at `t1`, completed-at `t2` not before it, and the three
result payloads equal to the strings given. -/
theorem started_then_completed (s : Store) (id : UUID) (j : AnalysisJob)
    (hj : GetJobByID id s = .ok j) (t1 t2 : Time) (ht : t1 ≤ t2)
    (claims verification report : String) :
    ∃ s1 s2 j2,
      UpdateJobStarted true t1 id s = .ok s1 ∧
      UpdateJobCompleted true t2 id claims verification report s1 = .ok s2 ∧
      GetJobByID id s2 = .ok j2 ∧
      j2.Status = JobStatusCompleted ∧
      (∃ a b, j2.StartedAt = some a ∧ j2.CompletedAt = some b ∧ a ≤ b) ∧
      j2.ClaimsExtracted = some claims ∧
      j2.VerificationResults = some verification ∧
      j2.FinalReport = some report := by
  obtain ⟨s1, h1, h2, -⟩ := GetJobByID_updateJobs id
    (fun j => { j with Status := JobStatusRunning, StartedAt := some t1 }) (fun _ => rfl) s j hj
  obtain ⟨s2, h3, h4, -⟩ := GetJobByID_updateJobs id
    (fun j => { j with Status := JobStatusCompleted, ClaimsExtracted := some claims,
                       VerificationResults := some verification, FinalReport := some report,
                       CompletedAt := some t2 }) (fun _ => rfl) s1 _ h2
  exact ⟨s1, s2, _, h1, h3, h4, rfl, ⟨t1, t2, rfl, rfl, ht⟩, rfl, rfl, rfl⟩

/-- Witness of C3: the pending job of `pendingStore`, started at 110 and
completed at 120. -/
theorem started_then_completed_witness :
    GetJobByID ⟨32⟩ pendingStore = .ok pendingJob ∧ (110 : Time) ≤ 120 ∧
    ∃ s1 s2 j2,
      UpdateJobStarted true 110 ⟨32⟩ pendingStore = .ok s1 ∧
      UpdateJobCompleted true 120 ⟨32⟩ "claims" "checks" "report" s1 = .ok s2 ∧
      GetJobByID ⟨32⟩ s2 = .ok j2 ∧
      j2.Status = JobStatusCompleted ∧
      (∃ a b, j2.StartedAt = some a ∧ j2.CompletedAt = some b ∧ a ≤ b) ∧
      j2.ClaimsExtracted = some "claims" ∧
      j2.VerificationResults = some "checks" ∧
      j2.FinalReport = some "report" :=
  ⟨rfl, by decide,
   started_then_completed pendingStore ⟨32⟩ pendingJob rfl 110 120 (by decide)
     "claims" "checks" "report"⟩

/-- Claim C4.  On an existing job, `UpdateJobFailed` with message `m` gives a job
that reads `failed`, with error message `m` and completed-at set, and with every
other column as before: the result payloads (still null when they were null),
started-at, deck id, investor id, creation time, report path and id. -/
theorem failed_changes_three_columns (s : Store) (id : UUID) (j : AnalysisJob)
    (hj : GetJobByID id s = .ok j) (now : Time) (m : String) :
    ∃ s1 j1,
      UpdateJobFailed true now id m s = .ok s1 ∧ GetJobByID id s1 = .ok j1 ∧
      j1.Status = JobStatusFailed ∧ j1.ErrorMessage = some m ∧ j1.CompletedAt = some now ∧
      j1.ClaimsExtracted = j.ClaimsExtracted ∧
      j1.VerificationResults = j.VerificationResults ∧
      j1.FinalReport = j.FinalReport ∧ j1.FinalReportGCSPath = j.FinalReportGCSPath ∧
      j1.StartedAt = j.StartedAt ∧ j1.DeckID = j.DeckID ∧ j1.InvestorID = j.InvestorID ∧
      j1.CreatedAt = j.CreatedAt ∧ j1.ID = j.ID ∧ s1.decks = s.decks := by
  obtain ⟨s1, h1, h2, h3⟩ := GetJobByID_updateJobs id
    (fun j => { j with Status := JobStatusFailed, ErrorMessage := some m,
                       CompletedAt := some now }) (fun _ => rfl) s j hj
  exact ⟨s1, _, h1, h2, rfl, rfl, rfl, rfl, rfl, rfl, rfl, rfl, rfl, rfl, rfl, rfl, h3⟩

/-- Witness of C4: the scenario of a parser timeout on the running job, whose
claims and report stay null. -/
theorem failed_changes_three_columns_witness :
    GetJobByID ⟨32⟩ runningStore = .ok
      { ID := ⟨32⟩, DeckID := some ⟨16⟩, Status := JobStatusRunning, StartedAt := some 110,
        CreatedAt := 101 } ∧
    ∃ s1 j1,
      UpdateJobFailed true 125 ⟨32⟩ "parser timeout" runningStore = .ok s1 ∧
      GetJobByID ⟨32⟩ s1 = .ok j1 ∧
      j1.Status = JobStatusFailed ∧ j1.ErrorMessage = some "parser timeout" ∧
      j1.CompletedAt = some 125 ∧
      j1.ClaimsExtracted = none ∧ j1.VerificationResults = none ∧
      j1.FinalReport = none ∧ j1.FinalReportGCSPath = none ∧
      j1.StartedAt = some 110 ∧ j1.DeckID = some ⟨16⟩ ∧ j1.InvestorID = none ∧
      j1.CreatedAt = 101 ∧ j1.ID = ⟨32⟩ ∧ s1.decks = runningStore.decks :=
  ⟨rfl, failed_changes_three_columns runningStore ⟨32⟩ _ rfl 125 "parser timeout"⟩

/-! ## Order of the steps of an intake -/

theorem marshal_job_id (p : JobPayload) : Message.member (marshal p) "job_id" = some p.JobID := by
  simp [Message.member, marshal, List.lookup]

theorem jobPayload_JobID (jobID : UUID) (inv : Option UUID) (c path : String) :
    (jobPayload jobID inv c path).JobID = jobID.String := by
  cases inv <;> rfl

/-- The path kept by `filepath.Abs` with its error dropped is empty or the
absolute path it returned. -/
theorem abs_or_empty (wd : Option String) (rel : String) :
    (pathAbs wd rel).getD "" = "" ∨ pathAbs wd rel = some ((pathAbs wd rel).getD "") := by
  cases pathAbs wd rel with
  | none => left; rfl
  | some a => right; rfl

/-- One turn of the upload loop adds only file effects to the record of changes,
and the path it leaves is the one before, or empty, or the absolute path of a
file it wrote. -/
theorem uploadPart_log (env : Env) (st : UploadState) (p : Part) (w : World) :
    ∃ fs : List String, (uploadPart env st p w).world.log = w.log ++ fs.map Effect.file ∧
      ∀ st1 w1, uploadPart env st p w = .next st1 w1 →
        st1.localPath = st.localPath ∨ st1.localPath = "" ∨
        ∃ rel k, rel ∈ fs ∧ pathAbs (env.stage k).wd rel = some st1.localPath := by
  generalize hres : uploadPart env st p w = res
  simp only [uploadPart] at hres
  repeat' (split at hres)
  all_goals subst hres
  all_goals first
    | (refine ⟨[], ?_, ?_⟩
       · simp [LoopResult.world]
       · intro st1 w1 h
         first
           | (simp only [reduceCtorEq] at h)
           | (simp only [LoopResult.next.injEq] at h; left; rw [← h.1]))
    | (refine ⟨[pathJoin ["uploads", (env.stage st.staged).token.String ++ "_" ++ p.fileName]],
         ?_, ?_⟩
       · simp only [LoopResult.world, writeFile_log, mkdir_log]; rfl
       · intro st1 w1 h
         first
           | (simp only [reduceCtorEq] at h)
           | (simp only [LoopResult.next.injEq] at h
              obtain ⟨h1, -⟩ := h
              subst h1
              rcases abs_or_empty (env.stage st.staged).wd
                (pathJoin ["uploads", (env.stage st.staged).token.String ++ "_" ++ p.fileName])
                with h0 | h0
              · right; left; exact h0
              · right; right; exact ⟨_, st.staged, List.mem_singleton.mpr rfl, h0⟩))

/-- The upload loop adds only file effects to the record of changes, and the
path it ends with is the one before, or empty, or the absolute path of a file it
wrote. -/
theorem uploadLoop_log (env : Env) (events : List PartEvent) :
    ∀ (st : UploadState) (w : World),
      ∃ fs : List String,
        (uploadLoop env events st w).world.log = w.log ++ fs.map Effect.file ∧
        ∀ st1 w1, uploadLoop env events st w = .next st1 w1 →
          st1.localPath = st.localPath ∨ st1.localPath = "" ∨
          ∃ rel k, rel ∈ fs ∧ pathAbs (env.stage k).wd rel = some st1.localPath := by
  induction events with
  | nil =>
    intro st w
    refine ⟨[], by simp [uploadLoop, LoopResult.world], ?_⟩
    intro st1 w1 h
    simp only [uploadLoop, LoopResult.next.injEq] at h
    left; rw [← h.1]
  | cons e rest ih =>
    intro st w
    cases e with
    | fail msg =>
      refine ⟨[], by simp [uploadLoop, LoopResult.world], ?_⟩
      intro st1 w1 h
      simp [uploadLoop] at h
    | part p =>
      obtain ⟨fs, h, hpath⟩ := uploadPart_log env st p w
      unfold uploadLoop
      split
      · rename_i r w1 heq
        rw [heq] at h
        exact ⟨fs, h, fun _ _ hn => by simp at hn⟩
      · rename_i st1 w1 heq
        rw [heq] at h
        obtain ⟨fs2, h2, hpath2⟩ := ih st1 w1
        simp only [LoopResult.world] at h
        refine ⟨fs ++ fs2, ?_, ?_⟩
        · rw [h2, h]; simp
        · intro st2 w2 hn
          rcases hpath2 st2 w2 hn with h3 | h3 | ⟨rel, k, hrel, habs⟩
          · rw [h3]
            rcases hpath st1 w1 heq with h4 | h4 | ⟨rel, k, hrel, habs⟩
            · left; exact h4
            · right; left; exact h4
            · right; right; exact ⟨rel, k, by simp [hrel], habs⟩
          · right; left; exact h3
          · right; right; exact ⟨rel, k, by simp [hrel], habs⟩

/-- The staging of `processEmail` adds only file effects to the record of
changes, and its path is empty or the absolute path of the file it wrote. -/
theorem stageAttachment_log (o : StageOracle) (a : Attachment) (w : World) :
    ∃ fs : List String, (stageAttachment o a w).2.log = w.log ++ fs.map Effect.file ∧
      ((stageAttachment o a w).1 = "" ∨
       ∃ rel, rel ∈ fs ∧ pathAbs o.wd rel = some (stageAttachment o a w).1) := by
  simp only [stageAttachment]
  repeat' split
  all_goals first
    | (refine ⟨[], ?_, ?_⟩
       · simp
       · left; with_reducible rfl)
    | (refine ⟨[pathJoin ["uploads", o.token.String ++ "_" ++ a.Filename]], ?_, ?_⟩
       · simp only [writeFile_log, mkdir_log]; rfl
       · first
           | (left; with_reducible rfl)
           | (rcases abs_or_empty o.wd
                (pathJoin ["uploads", o.token.String ++ "_" ++ a.Filename]) with h0 | h0
              · left; exact h0
              · right; exact ⟨_, List.mem_singleton.mpr rfl, h0⟩))

theorem newEffects_append (w out : World) (ext : List Effect) (h : out.log = w.log ++ ext) :
    newEffects w out = ext := by
  simp [newEffects, h]

/-- The push step either leaves the world alone or appends one message, built
from the job id, the investor id and the path, to the queue and to the record. -/
theorem enqueueStep_cases (redis : Option (Except String Unit)) (jobID : UUID)
    (inv : Option UUID) (path : String) (w : World) :
    enqueueStep redis jobID inv path w = w ∨
    ((enqueueStep redis jobID inv path w).queue =
        w.queue ++ [marshal (jobPayload jobID inv "" path)] ∧
      (enqueueStep redis jobID inv path w).log =
        w.log ++ [.push (marshal (jobPayload jobID inv "" path))]) := by
  unfold enqueueStep EnqueueJob
  rcases redis with _ | (e | u)
  · left; rfl
  · left; rfl
  · right; exact ⟨rfl, rfl⟩

/-- The upload handler, once its loop has ended with a staged path and both
inserts are answered: a Deck row and a Job row are appended to the world `w1`
the loop left, and the push step runs on the result. -/
theorem uploadDeck_success (env : Env) (events : List PartEvent) (w w1 : World)
    (st : UploadState) (id id2 : UUID) (t t2 : Time)
    (hloop : uploadLoop env events {} w = .next st w1) (hp : st.localPath ≠ "")
    (hd : env.deckInsert = .ok (id, t)) (hj : env.jobInsert = .ok (id2, t2)) :
    ∃ (d : PitchDeck) (j : AnalysisJob) (w3 : World),
      uploadDeck env (.ok events) w =
        (⟨201, .uploaded d id2 "Job queued for processing"⟩,
         enqueueStep env.redis id2 st.investorID st.localPath w3) ∧
      d = { ID := id, InvestorID := st.investorID, Filename := st.filename,
            GCSPath := some "", Source := "upload", CreatedAt := t } ∧
      j = { ID := id2, DeckID := some id, InvestorID := st.investorID,
            Status := JobStatusPending, CreatedAt := t2 } ∧
      w3.store.decks = w1.store.decks ++ [d] ∧ w3.store.jobs = w1.store.jobs ++ [j] ∧
      w3.queue = w1.queue ∧ w3.files = w1.files ∧ w3.dirs = w1.dirs ∧
      w3.log = w1.log ++ [.deck id, .job id2] := by
  refine ⟨_, _, { w1 with
      store := { decks := w1.store.decks ++ [_], jobs := w1.store.jobs ++ [_] },
      log := w1.log ++ [.deck id, .job id2] }, ?_, rfl, rfl, rfl, rfl, rfl, rfl, rfl, rfl⟩
  simp [uploadDeck, hloop, hd, hj, hp, World.createDeck, World.createJob,
    CreatePitchDeck, CreateJob]

/-- The email handler, once the message has a qualifying attachment and both
inserts are answered: a Deck row and a Job row are appended to the world, the
first attachment is staged in the resulting world `w2`, and the push step runs. -/
theorem processEmail_success (g : Gmail) (env : Env) (messageID : String) (w : World)
    (a0 : Attachment) (rest : List Attachment) (id id2 : UUID) (t t2 : Time)
    (hm : messageID ≠ "") (hg : GetPDFAttachments g messageID = .ok (a0 :: rest))
    (hd : env.deckInsert = .ok (id, t)) (hj : env.jobInsert = .ok (id2, t2)) :
    ∃ (d : PitchDeck) (j : AnalysisJob) (w2 : World),
      processEmail (some g) env messageID w =
        (⟨200, .queued "queued" id2 id a0.Filename⟩,
         enqueueStep env.redis id2 none (stageAttachment (env.stage 0) a0 w2).1
           (stageAttachment (env.stage 0) a0 w2).2) ∧
      d = { ID := id, Filename := a0.Filename, GCSPath := some "", Source := "gmail",
            SourceMetadata := some ("\x7b\"message_id\": \"" ++ messageID ++ "\"\x7d"),
            CreatedAt := t } ∧
      j = { ID := id2, DeckID := some id, Status := JobStatusPending, CreatedAt := t2 } ∧
      w2.store.decks = w.store.decks ++ [d] ∧ w2.store.jobs = w.store.jobs ++ [j] ∧
      w2.queue = w.queue ∧ w2.files = w.files ∧ w2.dirs = w.dirs ∧
      w2.log = w.log ++ [.deck id, .job id2] := by
  refine ⟨_, _, { w with
      store := { decks := w.store.decks ++ [_], jobs := w.store.jobs ++ [_] },
      log := w.log ++ [.deck id, .job id2] }, ?_, rfl, rfl, rfl, rfl, rfl, rfl, rfl, rfl⟩
  simp [processEmail, hg, hd, hj, hm, World.createDeck, World.createJob,
    CreatePitchDeck, CreateJob]

/-- Every run of `uploadDeck` has one of the three shapes. -/
theorem uploadDeck_outcome (env : Env) (req : Except String (List PartEvent)) (w : World) :
    Outcome (fun fs2 => fs2 = []) env w (uploadDeck env req w).2 := by
  cases req with
  | error e => exact .nothing [] rfl rfl (by simp [uploadDeck, newEffects])
  | ok events =>
    have hl := uploadLoop_store_queue env events {} w
    obtain ⟨fs, hlog, hpath⟩ := uploadLoop_log env events {} w
    rcases hloop : uploadLoop env events {} w with ⟨r, w1⟩ | ⟨st, w1⟩
    · rw [hloop] at hl hlog
      simp only [LoopResult.world] at hl hlog
      simp only [uploadDeck, hloop]
      exact .nothing fs hl.1 hl.2 (newEffects_append _ _ _ hlog)
    · rw [hloop] at hl hlog
      simp only [LoopResult.world] at hl hlog
      have hpath := hpath st w1 hloop
      by_cases hp : st.localPath = ""
      · simp only [uploadDeck, hloop, hp, if_true]
        exact .nothing fs hl.1 hl.2 (newEffects_append _ _ _ hlog)
      · rcases hd : env.deckInsert with e | ⟨id, t⟩
        · simp only [uploadDeck, hloop, hp, if_false, World.createDeck, CreatePitchDeck, hd]
          exact .nothing fs hl.1 hl.2 (newEffects_append _ _ _ hlog)
        · rcases hj : env.jobInsert with e2 | ⟨id2, t2⟩
          · simp only [uploadDeck, hloop, hp, if_false, World.createDeck, CreatePitchDeck, hd,
              World.createJob, CreateJob, hj]
            refine Outcome.orphan fs
              ({ ID := id, InvestorID := st.investorID, Filename := st.filename,
                 GCSPath := some "", Source := "upload", CreatedAt := t } : PitchDeck)
              e2 hd hj ?_ ?_ ?_ ?_
            · simp [hl.1]
            · simp [hl.1]
            · simp [hl.2]
            · apply newEffects_append; simp [hlog]
          · obtain ⟨d, j, w3, hrun, hdeq, hjeq, h1, h2, h3, -, -, h4⟩ :=
              uploadDeck_success env events w w1 st id id2 t t2 hloop hp hd hj
            rw [hrun]
            have hdid : d.ID = id := by rw [hdeq]
            have hdt : d.CreatedAt = t := by rw [hdeq]
            have hjid : j.ID = id2 := by rw [hjeq]
            have hjt : j.CreatedAt = t2 := by rw [hjeq]
            refine Outcome.recorded fs [] d j (by rw [hdid, hdt]; exact hd)
              (by rw [hjid, hjt]; exact hj) ?_ ?_ (by rw [hjeq, hdid]) (by rw [hjeq]) rfl ?_
            · simp [h1, hl.1]
            · simp [h2, hl.1]
            · rcases enqueueStep_cases env.redis id2 st.investorID st.localPath w3 with h | h
              · left
                rw [h]
                refine ⟨by rw [h3, hl.2], ?_⟩
                apply newEffects_append; simp [h4, hlog, hdid, hjid]
              · right
                refine ⟨marshal (jobPayload id2 st.investorID "" st.localPath), st.localPath,
                  ?_, ?_, ?_, ?_⟩
                · simp only [h.1, h3, hl.2]
                · rw [hjid, hjeq]
                · rcases hpath with h5 | h5 | ⟨rel, k, hrel, habs⟩
                  · exact absurd h5 hp
                  · exact absurd h5 hp
                  · right; exact ⟨rel, k, by simp [hrel], habs⟩
                · apply newEffects_append; simp [h.2, h4, hlog, hdid, hjid]

/-- Every run of `processEmail` has one of the three shapes. -/
theorem processEmail_outcome (gmail : Option Gmail) (env : Env) (messageID : String)
    (w : World) : Outcome (fun _ => True) env w (processEmail gmail env messageID w).2 := by
  have hnil : newEffects w w = ([] : List String).map Effect.file := by simp [newEffects]
  cases gmail with
  | none => exact .nothing [] rfl rfl hnil
  | some g =>
    by_cases hm : messageID = ""
    · simp only [processEmail, hm, if_true]
      exact .nothing [] rfl rfl hnil
    · rcases hg : GetPDFAttachments g messageID with e | (_ | ⟨a0, rest⟩)
      · simp only [processEmail, hm, if_false, hg]
        exact .nothing [] rfl rfl hnil
      · simp only [processEmail, hm, if_false, hg]
        exact .nothing [] rfl rfl hnil
      · rcases hd : env.deckInsert with e | ⟨id, t⟩
        · simp only [processEmail, hm, if_false, hg, World.createDeck, CreatePitchDeck, hd]
          exact .nothing [] rfl rfl hnil
        · rcases hj : env.jobInsert with e2 | ⟨id2, t2⟩
          · simp only [processEmail, hm, if_false, hg, World.createDeck, CreatePitchDeck, hd,
              World.createJob, CreateJob, hj]
            refine Outcome.orphan []
              ({ ID := id, Filename := a0.Filename, GCSPath := some "", Source := "gmail",
                 SourceMetadata := some ("\x7b\"message_id\": \"" ++ messageID ++ "\"\x7d"),
                 CreatedAt := t } : PitchDeck)
              e2 hd hj rfl rfl rfl ?_
            apply newEffects_append; simp
          · obtain ⟨d, j, w2, hrun, hdeq, hjeq, h1, h2, h3, -, -, h4⟩ :=
              processEmail_success g env messageID w a0 rest id id2 t t2 hm hg hd hj
            rw [hrun]
            have hdid : d.ID = id := by rw [hdeq]
            have hdt : d.CreatedAt = t := by rw [hdeq]
            have hjid : j.ID = id2 := by rw [hjeq]
            have hjt : j.CreatedAt = t2 := by rw [hjeq]
            obtain ⟨fs2, hstage, hpath⟩ := stageAttachment_log (env.stage 0) a0 w2
            refine Outcome.recorded [] fs2 d j (by rw [hdid, hdt]; exact hd)
              (by rw [hjid, hjt]; exact hj) ?_ ?_ (by rw [hjeq, hdid]) (by rw [hjeq]) trivial ?_
            · simp [h1]
            · simp [h2]
            · rcases enqueueStep_cases env.redis id2 none (stageAttachment (env.stage 0) a0 w2).1
                (stageAttachment (env.stage 0) a0 w2).2 with h | h
              · left
                rw [h]
                refine ⟨by rw [stageAttachment_queue, h3], ?_⟩
                apply newEffects_append; simp [hstage, h4, hdid, hjid]
              · right
                refine ⟨marshal (jobPayload id2 none ""
                  (stageAttachment (env.stage 0) a0 w2).1),
                  (stageAttachment (env.stage 0) a0 w2).1, ?_, ?_, ?_, ?_⟩
                · simp only [h.1, stageAttachment_queue, h3]
                · rw [hjid, hjeq]
                · rcases hpath with h5 | ⟨rel, hrel, habs⟩
                  · left; exact h5
                  · right; exact ⟨rel, 0, by simp [hrel], habs⟩
                · apply newEffects_append; simp [h.2, hstage, h4, hdid, hjid]

/-- A shape stays one when more late files are allowed. -/
theorem Outcome.mono (late late2 : List String → Prop) (env : Env) (w out : World)
    (hmono : ∀ fs2, late fs2 → late2 fs2) (h : Outcome late env w out) :
    Outcome late2 env w out := by
  cases h with
  | nothing fs hs hq hl => exact .nothing fs hs hq hl
  | orphan fs d e hd hj hdecks hjobs hq hl => exact .orphan fs d e hd hj hdecks hjobs hq hl
  | recorded fs fs2 d j hd hj hdecks hjobs href hstatus hlate hpush =>
    exact .recorded fs fs2 d j hd hj hdecks hjobs href hstatus (hmono _ hlate) hpush

/-- Every run of an intake call has one of the three shapes. -/
theorem intake_outcome (env : Env) (i : Intake) (w : World) :
    Outcome (fun _ => True) env w (i.after env w) := by
  cases i with
  | upload req =>
    exact Outcome.mono _ _ env w _ (fun _ _ => trivial) (uploadDeck_outcome env req w)
  | email gmail messageID => exact processEmail_outcome gmail env messageID w

/-- A push effect found in a list that ends with the only push effect it has is
that last one. -/
theorem push_is_last (A pre post : List Effect) (m m0 : Message)
    (hA : ∀ x, Effect.push x ∉ A) (h : pre ++ Effect.push m :: post = A ++ [Effect.push m0]) :
    pre = A ∧ m = m0 ∧ post = [] := by
  rcases List.append_eq_append_iff.mp h with ⟨a, ha, hb⟩ | ⟨c, hc, hb⟩
  · cases a with
    | nil =>
      simp only [List.nil_append, List.cons.injEq, Effect.push.injEq] at hb
      simp only [List.append_nil] at ha
      exact ⟨ha.symm, hb.1, hb.2⟩
    | cons x a2 =>
      simp only [List.cons_append, List.cons.injEq] at hb
      exact absurd (by rw [ha, ← hb.1]; simp) (hA m)
  · cases c with
    | nil =>
      simp only [List.nil_append, List.cons.injEq, Effect.push.injEq] at hb
      simp only [List.append_nil] at hc
      exact ⟨hc, hb.1.symm, hb.2.symm⟩
    | cons x c2 =>
      simp at hb

theorem no_push_in_files (fs : List String) (x : Message) :
    Effect.push x ∉ fs.map Effect.file := by
  simp

/-- Claim C5.  In every run of an intake call: a push effect occurs only after
the effects of a Deck row and of a Job row created in that run, it is the last
effect, and the pushed message carries the id of that Job as `job_id`; the queue
changes only by such a push.  When the insert of `CreatePitchDeck` fails, the
store and the queue are unchanged.  When the insert of `CreateJob` fails, the
jobs and the queue are unchanged and a Deck row created in the run stays. -/
theorem message_only_after_rows (env : Env) (i : Intake) (w : World) :
    (∀ m pre post, newEffects w (i.after env w) = pre ++ Effect.push m :: post →
      ∃ d j, Effect.deck d.ID ∈ pre ∧ Effect.job j.ID ∈ pre ∧ post = [] ∧
        (i.after env w).store.decks = w.store.decks ++ [d] ∧
        (i.after env w).store.jobs = w.store.jobs ++ [j] ∧
        j.DeckID = some d.ID ∧ Message.member m "job_id" = some j.ID.String ∧
        (i.after env w).queue = w.queue ++ [m]) ∧
    ((∀ m, Effect.push m ∉ newEffects w (i.after env w)) → (i.after env w).queue = w.queue) ∧
    (∀ e, env.deckInsert = .error e →
      (i.after env w).store = w.store ∧ (i.after env w).queue = w.queue) ∧
    (∀ e, env.jobInsert = .error e →
      (i.after env w).store.jobs = w.store.jobs ∧ (i.after env w).queue = w.queue ∧
      ∀ id, Effect.deck id ∈ newEffects w (i.after env w) →
        ∃ d, d.ID = id ∧ (i.after env w).store.decks = w.store.decks ++ [d]) := by
  have hout := intake_outcome env i w
  generalize i.after env w = out at hout
  cases hout with
  | nothing fs hs hq hl =>
    refine ⟨?_, fun _ => hq, fun _ _ => ⟨hs, hq⟩, fun _ _ => ⟨by rw [hs], hq, ?_⟩⟩
    · intro m pre post h
      rw [hl] at h
      exact absurd (by rw [h]; simp) (no_push_in_files fs m)
    · intro id hid
      rw [hl] at hid
      simp at hid
  | orphan fs d e hd hj hdecks hjobs hq hl =>
    refine ⟨?_, fun _ => hq, ?_, fun _ _ => ⟨hjobs, hq, ?_⟩⟩
    · intro m pre post h
      rw [hl] at h
      have : Effect.push m ∈ fs.map Effect.file ++ [Effect.deck d.ID] := by rw [h]; simp
      simp at this
    · intro e2 he2
      rw [he2] at hd
      simp at hd
    · intro id hid
      rw [hl] at hid
      simp only [List.mem_append, List.mem_map, List.mem_singleton, Effect.deck.injEq,
        reduceCtorEq, and_false, exists_false, false_or] at hid
      exact ⟨d, hid.symm, hdecks⟩
  | recorded fs fs2 d j hd hj hdecks hjobs href hstatus hlate hpush =>
    refine ⟨?_, ?_, ?_, ?_⟩
    · intro m pre post h
      rcases hpush with ⟨_, hl⟩ | ⟨m0, path, hq, hm0, _, hl⟩
      · rw [hl] at h
        have : Effect.push m ∈
            fs.map Effect.file ++ [Effect.deck d.ID, Effect.job j.ID] ++ fs2.map Effect.file := by
          rw [h]; simp
        simp at this
      · rw [hl] at h
        obtain ⟨hpre, hm, hpost⟩ := push_is_last _ pre post m m0 (by simp) h.symm
        subst hm
        exact ⟨d, j, by rw [hpre]; simp, by rw [hpre]; simp, hpost, hdecks, hjobs, href,
          by rw [hm0, marshal_job_id, jobPayload_JobID], hq⟩
    · intro hno
      rcases hpush with ⟨hq, _⟩ | ⟨m0, _, _, _, _, hl⟩
      · exact hq
      · exact absurd (by rw [hl]; simp) (hno m0)
    · intro e he
      rw [he] at hd
      simp at hd
    · intro e he
      rw [he] at hj
      simp at hj

/-- Witness of C5: in the upload of `deck.pdf` the push is the last of four
effects, after the file, the Deck row and the Job row. -/
theorem message_only_after_rows_witness :
    newEffects {} ((Intake.upload deckUpload).after okEnv {}) =
      [.file "uploads/00000000-0000-0000-0000-000000000001_deck.pdf", .deck ⟨16⟩, .job ⟨32⟩] ++
        Effect.push [("job_id", "00000000-0000-0000-0000-000000000020"),
          ("deck_path", "/app/uploads/00000000-0000-0000-0000-000000000001_deck.pdf")] :: [] ∧
    ∃ d j, Effect.deck d.ID ∈
        [Effect.file "uploads/00000000-0000-0000-0000-000000000001_deck.pdf", .deck ⟨16⟩,
          .job ⟨32⟩] ∧
      Effect.job j.ID ∈
        [Effect.file "uploads/00000000-0000-0000-0000-000000000001_deck.pdf", .deck ⟨16⟩,
          .job ⟨32⟩] ∧
      ([] : List Effect) = [] ∧
      ((Intake.upload deckUpload).after okEnv {}).store.decks = ({} : World).store.decks ++ [d] ∧
      ((Intake.upload deckUpload).after okEnv {}).store.jobs = ({} : World).store.jobs ++ [j] ∧
      j.DeckID = some d.ID ∧
      Message.member [("job_id", "00000000-0000-0000-0000-000000000020"),
          ("deck_path", "/app/uploads/00000000-0000-0000-0000-000000000001_deck.pdf")] "job_id"
        = some j.ID.String ∧
      ((Intake.upload deckUpload).after okEnv {}).queue = ({} : World).queue ++
        [[("job_id", "00000000-0000-0000-0000-000000000020"),
          ("deck_path", "/app/uploads/00000000-0000-0000-0000-000000000001_deck.pdf")]] :=
  ⟨by decide, (message_only_after_rows okEnv (.upload deckUpload) {}).1 _ _ _ (by decide)⟩

/-! ## Staging failures -/

/-- The loop over a concatenation runs the first list and, unless that aborts,
goes on with the second from the state and world reached. -/
theorem uploadLoop_append (env : Env) (pre post : List PartEvent) :
    ∀ (st : UploadState) (w : World),
      uploadLoop env (pre ++ post) st w =
        match uploadLoop env pre st w with
        | .abort r w1 => .abort r w1
        | .next st1 w1 => uploadLoop env post st1 w1 := by
  induction pre with
  | nil => intro st w; simp [uploadLoop]
  | cons e rest ih =>
    intro st w
    cases e with
    | fail msg => simp [uploadLoop]
    | part p =>
      simp only [List.cons_append, uploadLoop]
      cases uploadPart env st p w with
      | abort r w1 => rfl
      | next st1 w1 => exact ih st1 w1

/-- A file part whose staging fails aborts the turn with status 500. -/
theorem uploadPart_staging_fails (env : Env) (st : UploadState) (p : Part) (w : World)
    (hfile : p.formName = "file") (hfail : uploadStagingFails (env.stage st.staged) p = true) :
    ∃ r w1, uploadPart env st p w = .abort r w1 ∧ r.code = 500 := by
  have hne : p.formName ≠ "investor_id" := by rw [hfile]; decide
  simp only [uploadStagingFails, Bool.or_eq_true, Bool.not_eq_true'] at hfail
  simp only [uploadPart, hne, hfile, if_true, if_false]
  rcases hfail with (h | h) | h
  · simp [h]
  · by_cases hm : (env.stage st.staged).mkdirOk = true
    · simp [h, hm]
    · simp [hm]
  · by_cases hm : (env.stage st.staged).mkdirOk = true
    · by_cases hc : (env.stage st.staged).createOk = true
      · rcases hcopy : copyToFile p.readErr (env.stage st.staged).writeErr p.body with ⟨b, ok⟩
        rw [hcopy] at h
        simp only at h
        subst h
        simp [hm, hc]
      · simp [hm, hc]
    · simp [hm]

/-- Counterexample to C6 as stated: in the email intake the staging file cannot
be created, and the call still answers 200, with a Deck row, a Job row and a
message recorded and no file staged. -/
theorem email_staging_failure_is_swallowed :
    emailStagingFails (noDiskEnv.stage 0) = true ∧
    (processEmail (some oneDeckMail) noDiskEnv "m1" {}).1.code = 200 ∧
    (processEmail (some oneDeckMail) noDiskEnv "m1" {}).2.store.decks.map PitchDeck.ID = [⟨16⟩] ∧
    (processEmail (some oneDeckMail) noDiskEnv "m1" {}).2.store.jobs.map AnalysisJob.ID = [⟨32⟩] ∧
    (processEmail (some oneDeckMail) noDiskEnv "m1" {}).2.queue =
      [[("job_id", "00000000-0000-0000-0000-000000000020")]] ∧
    (processEmail (some oneDeckMail) noDiskEnv "m1" {}).2.files = [] ∧
    newEffects {} (processEmail (some oneDeckMail) noDiskEnv "m1" {}).2 =
      [.deck ⟨16⟩, .job ⟨32⟩, .push [("job_id", "00000000-0000-0000-0000-000000000020")]] := by
  decide

/-- What follows an effect that is not among the first effects `A` of a list
`A ++ T` lies in `T`. -/
theorem after_effect_in_tail (A T pre post : List Effect) (x : Effect) (hx : x ∉ A)
    (h : A ++ T = pre ++ x :: post) : ∀ y ∈ post, y ∈ T := by
  rcases List.append_eq_append_iff.mp h with ⟨a, ha, hb⟩ | ⟨c, hc, hb⟩
  · cases a with
    | nil =>
      simp only [List.nil_append] at hb
      intro y hy; rw [hb]; simp [hy]
    | cons z a2 =>
      intro y hy; rw [hb]; simp [hy]
  · cases c with
    | nil =>
      simp only [List.nil_append] at hb
      intro y hy; rw [← hb]; simp [hy]
    | cons z c2 =>
      simp only [List.cons_append, List.cons.injEq] at hb
      exact absurd (by rw [hc, hb.1]; simp) hx

/-- A failed staging in `processEmail` empties the path. -/
theorem stageAttachment_fails (o : StageOracle) (a : Attachment) (w : World)
    (h : emailStagingFails o = true) : (stageAttachment o a w).1 = "" := by
  simp only [emailStagingFails, Bool.or_eq_true, Bool.not_eq_true', Option.isSome_iff_exists] at h
  simp only [stageAttachment]
  rcases h with h | ⟨n, h⟩
  · simp [h]
  · by_cases hc : o.createOk = true <;> simp [hc, h]

/-- An aborted loop is the answer of the handler, with the world it reached. -/
theorem uploadDeck_abort (env : Env) (events : List PartEvent) (w w1 : World) (r : Response)
    (h : uploadLoop env events {} w = .abort r w1) :
    uploadDeck env (.ok events) w = (r, w1) := by
  simp [uploadDeck, h]

/-- Claim C6, amended.  In `uploadDeck` staging comes before the inserts: when
the run reaches a file part whose staging fails, the call fails with status 500
and the record store and the queue are unchanged, and in no run is a file
written after a Deck row was created.  In `processEmail` staging comes after
the inserts and its failure is swallowed: the call still answers 200, the Deck
row and the Job row created before it stay, and a message that is pushed has no
path. -/
theorem staging_failure (env : Env) (w : World) :
    (∀ pre p post st w1, p.formName = "file" → uploadLoop env pre {} w = .next st w1 →
      uploadStagingFails (env.stage st.staged) p = true →
      (uploadDeck env (.ok (pre ++ .part p :: post)) w).1.code = 500 ∧
      (uploadDeck env (.ok (pre ++ .part p :: post)) w).2.store = w.store ∧
      (uploadDeck env (.ok (pre ++ .part p :: post)) w).2.queue = w.queue) ∧
    (∀ req pre id post, newEffects w (uploadDeck env req w).2 = pre ++ Effect.deck id :: post →
      ∀ path, Effect.file path ∉ post) ∧
    (∀ g messageID a0 rest id t id2 t2, messageID ≠ "" →
      GetPDFAttachments g messageID = .ok (a0 :: rest) →
      env.deckInsert = .ok (id, t) → env.jobInsert = .ok (id2, t2) →
      emailStagingFails (env.stage 0) = true →
      (processEmail (some g) env messageID w).1.code = 200 ∧
      ∃ d j, d.ID = id ∧ j.ID = id2 ∧
        (processEmail (some g) env messageID w).2.store.decks = w.store.decks ++ [d] ∧
        (processEmail (some g) env messageID w).2.store.jobs = w.store.jobs ++ [j] ∧
        ((processEmail (some g) env messageID w).2.queue = w.queue ∨
         (processEmail (some g) env messageID w).2.queue =
           w.queue ++ [[("job_id", id2.String)]])) := by
  refine ⟨?_, ?_, ?_⟩
  · intro pre p post st w1 hfile hpre hfail
    have hl := uploadLoop_store_queue env pre {} w
    rw [hpre] at hl
    simp only [LoopResult.world] at hl
    obtain ⟨r, w2, hpart, hcode⟩ := uploadPart_staging_fails env st p w1 hfile hfail
    have hps := uploadPart_store_queue env st p w1
    rw [hpart] at hps
    simp only [LoopResult.world] at hps
    have hloop : uploadLoop env (pre ++ .part p :: post) {} w = .abort r w2 := by
      rw [uploadLoop_append, hpre]
      simp [uploadLoop, hpart]
    rw [uploadDeck_abort env _ w w2 r hloop]
    exact ⟨hcode, by rw [hps.1, hl.1], by rw [hps.2, hl.2]⟩
  · intro req pre id post h path hmem
    have hout := uploadDeck_outcome env req w
    generalize (uploadDeck env req w).2 = out at h hout
    cases hout with
    | nothing fs hs hq hl =>
      rw [hl] at h
      have : Effect.deck id ∈ fs.map Effect.file := by rw [h]; simp
      simp at this
    | orphan fs d e hd hj hdecks hjobs hq hl =>
      rw [hl] at h
      have := after_effect_in_tail _ _ pre post (Effect.deck id) (by simp) h _ hmem
      simp at this
    | recorded fs fs2 d j hd hj hdecks hjobs href hstatus hlate hpush =>
      subst hlate
      rcases hpush with ⟨_, hl⟩ | ⟨m, _, _, _, _, hl⟩
      · rw [hl, List.append_assoc] at h
        have := after_effect_in_tail _ _ pre post (Effect.deck id) (by simp) h _ hmem
        simp at this
      · rw [hl, List.append_assoc, List.append_assoc] at h
        have := after_effect_in_tail _ _ pre post (Effect.deck id) (by simp) h _ hmem
        simp at this
  · intro g messageID a0 rest id t id2 t2 hm hg hd hj hfail
    obtain ⟨d, j, w2, hrun, hdeq, hjeq, h1, h2, h3, -, -, -⟩ :=
      processEmail_success g env messageID w a0 rest id id2 t t2 hm hg hd hj
    rw [hrun, stageAttachment_fails _ _ _ hfail]
    refine ⟨rfl, d, j, by rw [hdeq], by rw [hjeq], ?_, ?_, ?_⟩
    · simp [h1]
    · simp [h2]
    · rcases enqueueStep_cases env.redis id2 none "" (stageAttachment (env.stage 0) a0 w2).2
        with h | h
      · left
        simp only [h, stageAttachment_queue, h3]
      · right
        simp only [h.1, stageAttachment_queue, h3]
        rfl

/-- Witness of C6, amended: an upload of `deck.pdf` and the email intake of
`m1`, both with a staging file that cannot be created. -/
theorem staging_failure_witness :
    ((uploadDeck noDiskEnv (.ok ([] ++ .part deckPart :: [])) {}).1.code = 500 ∧
      (uploadDeck noDiskEnv (.ok ([] ++ .part deckPart :: [])) {}).2.store = ({} : World).store ∧
      (uploadDeck noDiskEnv (.ok ([] ++ .part deckPart :: [])) {}).2.queue = ({} : World).queue) ∧
    ((processEmail (some oneDeckMail) noDiskEnv "m1" {}).1.code = 200 ∧
      ∃ d j, d.ID = ⟨16⟩ ∧ j.ID = ⟨32⟩ ∧
        (processEmail (some oneDeckMail) noDiskEnv "m1" {}).2.store.decks =
          ({} : World).store.decks ++ [d] ∧
        (processEmail (some oneDeckMail) noDiskEnv "m1" {}).2.store.jobs =
          ({} : World).store.jobs ++ [j] ∧
        ((processEmail (some oneDeckMail) noDiskEnv "m1" {}).2.queue = ({} : World).queue ∨
         (processEmail (some oneDeckMail) noDiskEnv "m1" {}).2.queue =
           ({} : World).queue ++ [[("job_id", (⟨32⟩ : UUID).String)]])) :=
  ⟨(staging_failure noDiskEnv {}).1 [] deckPart [] {} {} rfl rfl (by decide),
   (staging_failure noDiskEnv {}).2.2 oneDeckMail "m1" deckAttachment []
     ⟨16⟩ 100 ⟨32⟩ 101 (by decide) rfl rfl rfl (by decide)⟩

/-! ## Malformed uploads -/

/-- A loop over parts none of which is named `file` changes neither the world
nor the path, and when it aborts it does so with status 400. -/
theorem uploadLoop_without_file (env : Env) (events : List PartEvent)
    (h : ∀ p, PartEvent.part p ∈ events → p.formName ≠ "file") :
    ∀ (st : UploadState) (w : World),
      match uploadLoop env events st w with
      | .abort r w1 => r.code = 400 ∧ w1 = w
      | .next st1 w1 => st1.localPath = st.localPath ∧ w1 = w := by
  induction events with
  | nil => intro st w; simp [uploadLoop]
  | cons e rest ih =>
    intro st w
    cases e with
    | fail msg => simp [uploadLoop]
    | part p =>
      have hp : p.formName ≠ "file" := h p (by simp)
      have hrest : ∀ q, PartEvent.part q ∈ rest → q.formName ≠ "file" :=
        fun q hq => h q (by simp [hq])
      have hpart : ∃ st1, uploadPart env st p w = .next st1 w ∧ st1.localPath = st.localPath := by
        simp only [uploadPart, hp, if_false]
        repeat' split
        all_goals exact ⟨_, rfl, rfl⟩
      obtain ⟨st1, hst1, hpath⟩ := hpart
      simp only [uploadLoop, hst1]
      have := ih hrest st1 w
      rw [hpath] at this
      exact this

/-- Claim C7.  A multipart upload with no part named `file`, whatever other
fields it has, fails with status 400 (bad request) and changes nothing: no file
is staged, no Deck row, no Job row and no queue message is created. -/
theorem upload_without_file_is_rejected (env : Env) (events : List PartEvent) (w : World)
    (h : ∀ p, PartEvent.part p ∈ events → p.formName ≠ "file") :
    (uploadDeck env (.ok events) w).1.code = 400 ∧ (uploadDeck env (.ok events) w).2 = w := by
  have hloop := uploadLoop_without_file env events h {} w
  rcases hl : uploadLoop env events {} w with ⟨r, w1⟩ | ⟨st, w1⟩
  · rw [hl] at hloop
    simp only at hloop
    simp [uploadDeck, hl, hloop.1, hloop.2]
  · rw [hl] at hloop
    simp only at hloop
    have hp : st.localPath = "" := hloop.1
    simp [uploadDeck, hl, hp, hloop.2]

/-- Witness of C7: an upload with a valid investor id, a note, and no file. -/
theorem upload_without_file_is_rejected_witness :
    (∀ p, PartEvent.part p ∈ noFileParts → p.formName ≠ "file") ∧
    (uploadDeck okEnv (.ok noFileParts) {}).1.code = 400 ∧
    (uploadDeck okEnv (.ok noFileParts) {}).2 = {} :=
  have hno : ∀ p, PartEvent.part p ∈ noFileParts → p.formName ≠ "file" := by
    intro p hp
    simp only [noFileParts, List.mem_cons, PartEvent.part.injEq, List.mem_singleton,
      List.not_mem_nil, or_false] at hp
    rcases hp with rfl | rfl <;> decide
  ⟨hno, upload_without_file_is_rejected okEnv noFileParts {} hno⟩

/-- An investor id part that does not parse leaves the state and the world alone. -/
theorem uploadPart_unparseable (env : Env) (st : UploadState) (p : Part) (w : World)
    (hname : p.formName = "investor_id") (hbad : uuidParse p.body = none) :
    uploadPart env st p w = .next st w := by
  simp only [uploadPart, hname, if_true, hbad]
  repeat' split
  all_goals rfl

/-- Counterexample to C8 as stated: an upload whose investor id field holds
`not-a-uuid` is accepted with status 201, and a Deck row without investor, a
Job row and a message are recorded. -/
theorem unparseable_investor_id_is_accepted :
    badInvestorPart.body ≠ "" ∧ uuidParse badInvestorPart.body = none ∧
    (uploadDeck okEnv (.ok [.part badInvestorPart, .part deckPart]) {}).1.code = 201 ∧
    (uploadDeck okEnv (.ok [.part badInvestorPart, .part deckPart]) {}).2.store.decks.map
      (fun d => (d.ID, d.InvestorID)) = [(⟨16⟩, none)] ∧
    (uploadDeck okEnv (.ok [.part badInvestorPart, .part deckPart]) {}).2.store.jobs.map
      (fun j => (j.ID, j.Status)) = [(⟨32⟩, "pending")] ∧
    (uploadDeck okEnv (.ok [.part badInvestorPart, .part deckPart]) {}).2.queue =
      [[("job_id", "00000000-0000-0000-0000-000000000020"),
        ("deck_path", "/app/uploads/00000000-0000-0000-0000-000000000001_deck.pdf")]] := by
  decide

/-- An identifier of 38 bytes is parsed from the 36 bytes in its middle, whatever
its first and last byte: a field that holds one is not unparseable, and the
upload records the parsed investor on the Deck row, the Job row and the message. -/
theorem unbraced_investor_id_is_parsed :
    uuidParse unbracedInvestorPart.body = some ⟨255⟩ ∧
    (uploadDeck okEnv (.ok [.part unbracedInvestorPart, .part deckPart]) {}).1.code = 201 ∧
    (uploadDeck okEnv (.ok [.part unbracedInvestorPart, .part deckPart]) {}).2.store.decks.map
      (fun d => (d.ID, d.InvestorID)) = [(⟨16⟩, some ⟨255⟩)] ∧
    (uploadDeck okEnv (.ok [.part unbracedInvestorPart, .part deckPart]) {}).2.store.jobs.map
      (fun j => (j.ID, j.InvestorID)) = [(⟨32⟩, some ⟨255⟩)] ∧
    (uploadDeck okEnv (.ok [.part unbracedInvestorPart, .part deckPart]) {}).2.queue =
      [[("job_id", "00000000-0000-0000-0000-000000000020"),
        ("investor_id", "00000000-0000-0000-0000-0000000000ff"),
        ("deck_path", "/app/uploads/00000000-0000-0000-0000-000000000001_deck.pdf")]] := by
  decide

/-- Claim C8, amended.  An investor id field that holds an unparseable
identifier is not rejected but ignored: `uploadDeck` answers and acts exactly as
for the same request without that field. -/
theorem unparseable_investor_id_is_ignored (env : Env) (pre post : List PartEvent) (p : Part)
    (w : World) (hname : p.formName = "investor_id") (hbad : uuidParse p.body = none) :
    uploadDeck env (.ok (pre ++ .part p :: post)) w = uploadDeck env (.ok (pre ++ post)) w := by
  have hloop : uploadLoop env (pre ++ .part p :: post) {} w = uploadLoop env (pre ++ post) {} w := by
    rw [uploadLoop_append, uploadLoop_append]
    cases uploadLoop env pre {} w with
    | abort r w1 => rfl
    | next st1 w1 =>
      simp only [uploadLoop, uploadPart_unparseable env st1 p w1 hname hbad]
  simp only [uploadDeck, hloop]

/-- Witness of C8, amended: the upload of `deck.pdf` with the field `not-a-uuid`
before the file. -/
theorem unparseable_investor_id_is_ignored_witness :
    badInvestorPart.formName = "investor_id" ∧ uuidParse badInvestorPart.body = none ∧
    uploadDeck okEnv (.ok ([] ++ .part badInvestorPart :: [.part deckPart])) {} =
      uploadDeck okEnv (.ok ([] ++ [.part deckPart])) {} :=
  ⟨rfl, by decide,
   unparseable_investor_id_is_ignored okEnv [] [.part deckPart] badInvestorPart {} rfl
     (by decide)⟩

/-! ## Contents of a message -/

/-- The string form of a UUID is never empty. -/
theorem UUID.String_ne_empty (u : UUID) : u.String ≠ "" := by
  intro h
  have := congrArg String.data h
  simp [UUID.String] at this

/-- The members of a marshalled payload. -/
theorem marshal_members (p : JobPayload) :
    Message.member (marshal p) "job_id" = some p.JobID ∧
    Message.member (marshal p) "investor_id" =
      (if p.InvestorID = "" then none else some p.InvestorID) ∧
    Message.member (marshal p) "deck_content" =
      (if p.DeckContent = "" then none else some p.DeckContent) ∧
    Message.member (marshal p) "deck_path" =
      (if p.DeckPath = "" then none else some p.DeckPath) ∧
    ∀ kv ∈ marshal p, kv.1 ∈ ["job_id", "investor_id", "deck_content", "deck_path"] := by
  refine ⟨?_, ?_, ?_, ?_, ?_⟩
  · simp [Message.member, marshal, List.lookup]
  · by_cases h1 : p.InvestorID = "" <;> by_cases h2 : p.DeckContent = "" <;>
      by_cases h3 : p.DeckPath = "" <;>
      simp [Message.member, marshal, omitEmpty, List.lookup, h1, h2, h3]
  · by_cases h1 : p.InvestorID = "" <;> by_cases h2 : p.DeckContent = "" <;>
      by_cases h3 : p.DeckPath = "" <;>
      simp [Message.member, marshal, omitEmpty, List.lookup, h1, h2, h3]
  · by_cases h1 : p.InvestorID = "" <;> by_cases h2 : p.DeckContent = "" <;>
      by_cases h3 : p.DeckPath = "" <;>
      simp [Message.member, marshal, omitEmpty, List.lookup, h1, h2, h3]
  · intro kv hkv
    simp only [marshal, omitEmpty, List.mem_append, List.mem_singleton] at hkv
    rcases hkv with ((h | h) | h) | h
    · rw [h]; simp
    · split at h
      · simp at h
      · simp only [List.mem_singleton] at h; rw [h]; simp
    · split at h
      · simp at h
      · simp only [List.mem_singleton] at h; rw [h]; simp
    · split at h
      · simp at h
      · simp only [List.mem_singleton] at h; rw [h]; simp

/-- Whether a copy succeeds does not depend on the bytes copied. -/
theorem copyToFile_ok (readErr writeErr : Option Nat) (b b2 : Bytes) :
    (copyToFile readErr writeErr b).2 = (copyToFile readErr writeErr b2).2 := by
  cases readErr <;> cases writeErr <;> rfl

/-- Taking the bytes out of a part keeps its name, its file name and its read error. -/
theorem Part.withoutBytes_fields (p : Part) :
    p.withoutBytes.formName = p.formName ∧ p.withoutBytes.fileName = p.fileName ∧
    p.withoutBytes.readErr = p.readErr ∧ (p.formName ≠ "file" → p.withoutBytes = p) := by
  unfold Part.withoutBytes
  split
  · exact ⟨rfl, rfl, rfl, fun h => absurd ‹_› h⟩
  · exact ⟨rfl, rfl, rfl, fun _ => rfl⟩

/-- The response or state a turn of the loop gives depends neither on the world
nor on the bytes of a file part. -/
theorem uploadPart_skeleton (env : Env) (st : UploadState) (p p2 : Part) (w w2 : World)
    (h : p.withoutBytes = p2.withoutBytes) :
    (uploadPart env st p w).skeleton = (uploadPart env st p2 w2).skeleton := by
  obtain ⟨hn, hf, hr, hid⟩ := p.withoutBytes_fields
  obtain ⟨hn2, hf2, hr2, hid2⟩ := p2.withoutBytes_fields
  have hname : p.formName = p2.formName := by rw [← hn, ← hn2, h]
  have hfile : p.fileName = p2.fileName := by rw [← hf, ← hf2, h]
  have hread : p.readErr = p2.readErr := by rw [← hr, ← hr2, h]
  by_cases hfl : p.formName = "file"
  · have hfl2 : p2.formName = "file" := by rw [← hname]; exact hfl
    have hne : p.formName ≠ "investor_id" := by rw [hfl]; decide
    have hne2 : p2.formName ≠ "investor_id" := by rw [hfl2]; decide
    have hcopy := copyToFile_ok p2.readErr (env.stage st.staged).writeErr p.body p2.body
    simp only [uploadPart, hne, hne2, hfl, hfl2, if_true, if_false, ← hfile, hread]
    rcases h1 : copyToFile p2.readErr (env.stage st.staged).writeErr p.body with ⟨b1, ok1⟩
    rcases h2 : copyToFile p2.readErr (env.stage st.staged).writeErr p2.body with ⟨b2, ok2⟩
    rw [h1, h2] at hcopy
    simp only at hcopy
    subst hcopy
    by_cases hm : (env.stage st.staged).mkdirOk = true <;>
      by_cases hc : (env.stage st.staged).createOk = true <;>
      cases ok1 <;> simp [hm, hc, LoopResult.skeleton]
  · have hfl2 : p2.formName ≠ "file" := by rw [← hname]; exact hfl
    have hpp : p = p2 := by rw [← hid hfl, ← hid2 hfl2, h]
    subst hpp
    simp only [uploadPart, hfl, if_false]
    repeat' split
    all_goals rfl

/-- The response or state the loop gives depends neither on the world nor on
the bytes of the file parts. -/
theorem uploadLoop_skeleton (env : Env) (events : List PartEvent) :
    ∀ (events2 : List PartEvent) (st : UploadState) (w w2 : World),
      events.map PartEvent.withoutBytes = events2.map PartEvent.withoutBytes →
      (uploadLoop env events st w).skeleton = (uploadLoop env events2 st w2).skeleton := by
  induction events with
  | nil =>
    intro events2 st w w2 h
    cases events2 with
    | nil => rfl
    | cons e2 r2 => simp at h
  | cons e rest ih =>
    intro events2 st w w2 h
    cases events2 with
    | nil => simp at h
    | cons e2 rest2 =>
      simp only [List.map_cons, List.cons.injEq] at h
      obtain ⟨he, hrest⟩ := h
      cases e with
      | fail msg =>
        cases e2 with
        | fail msg2 =>
          simp only [PartEvent.withoutBytes, PartEvent.fail.injEq] at he
          subst he
          rfl
        | part p2 => simp [PartEvent.withoutBytes] at he
      | part p =>
        cases e2 with
        | fail msg2 => simp [PartEvent.withoutBytes] at he
        | part p2 =>
          simp only [PartEvent.withoutBytes, PartEvent.part.injEq] at he
          have hp := uploadPart_skeleton env st p p2 w w2 he
          simp only [uploadLoop]
          rcases h1 : uploadPart env st p w with ⟨r1, w1⟩ | ⟨s1, w1⟩ <;>
            rcases h2 : uploadPart env st p2 w2 with ⟨r2, w3⟩ | ⟨s2, w3⟩ <;>
            rw [h1, h2] at hp <;> simp only [LoopResult.skeleton, Sum.inl.injEq, Sum.inr.injEq,
              reduceCtorEq] at hp
          · subst hp; rfl
          · subst hp; exact ih rest2 s1 w1 w3 hrest

/-- The queue after the push step depends only on the queue before it. -/
theorem enqueueStep_queue (redis : Option (Except String Unit)) (jobID : UUID)
    (inv : Option UUID) (path : String) (w w2 : World) (h : w.queue = w2.queue) :
    (enqueueStep redis jobID inv path w).queue = (enqueueStep redis jobID inv path w2).queue := by
  unfold enqueueStep EnqueueJob
  rcases redis with _ | (e | u) <;> simp [h]

/-- The path of the staging in `processEmail` depends only on the answers of the
file system and on the file name. -/
theorem stageAttachment_path (o : StageOracle) (a a2 : Attachment) (w w2 : World)
    (h : a.Filename = a2.Filename) :
    (stageAttachment o a w).1 = (stageAttachment o a2 w2).1 := by
  simp only [stageAttachment, h]
  repeat' split
  all_goals rfl

/-- The message `EnqueueJob` marshals when it is given no deck content. -/
theorem marshal_jobPayload (id : UUID) (inv : Option UUID) (path : String) :
    marshal (jobPayload id inv "" path) =
      [("job_id", id.String)] ++
        (match inv with
         | some i => [("investor_id", i.String)]
         | none => []) ++
        (if path = "" then [] else [("deck_path", path)]) := by
  cases inv with
  | none => simp [marshal, jobPayload, omitEmpty]
  | some i => simp [marshal, jobPayload, omitEmpty, UUID.String_ne_empty]

/-- The members of the message `EnqueueJob` marshals when it is given no deck content. -/
theorem jobPayload_members (id : UUID) (inv : Option UUID) (path : String) :
    Message.member (marshal (jobPayload id inv "" path)) "job_id" = some id.String ∧
    Message.member (marshal (jobPayload id inv "" path)) "investor_id" = inv.map UUID.String ∧
    Message.member (marshal (jobPayload id inv "" path)) "deck_content" = none ∧
    Message.member (marshal (jobPayload id inv "" path)) "deck_path" =
      (if path = "" then none else some path) ∧
    ∀ kv ∈ marshal (jobPayload id inv "" path), kv.1 ∈ ["job_id", "investor_id", "deck_path"] := by
  rw [marshal_jobPayload]
  cases inv <;> by_cases hp : path = "" <;>
    simp [Message.member, List.lookup, hp]

/-- The queue after `uploadDeck` is fixed by the queue before, the answers of
the collaborators and the response or state the loop gives. -/
theorem uploadDeck_queue (env : Env) (events events2 : List PartEvent) (w : World)
    (h : (uploadLoop env events {} w).skeleton = (uploadLoop env events2 {} w).skeleton) :
    (uploadDeck env (.ok events2) w).2.queue = (uploadDeck env (.ok events) w).2.queue := by
  have hl := uploadLoop_store_queue env events {} w
  have hl2 := uploadLoop_store_queue env events2 {} w
  rcases h1 : uploadLoop env events {} w with ⟨r1, w1⟩ | ⟨s1, w1⟩ <;>
    rcases h2 : uploadLoop env events2 {} w with ⟨r2, w2⟩ | ⟨s2, w2⟩ <;>
    rw [h1, h2] at h <;> rw [h1] at hl <;> rw [h2] at hl2 <;>
    simp only [LoopResult.skeleton, Sum.inl.injEq, Sum.inr.injEq, reduceCtorEq] at h <;>
    simp only [LoopResult.world] at hl hl2
  · simp [uploadDeck, h1, h2, hl.2, hl2.2]
  · subst h
    by_cases hp : s1.localPath = ""
    · simp [uploadDeck, h1, h2, hp, hl.2, hl2.2]
    · rcases hd : env.deckInsert with e | ⟨id, t⟩
      · simp [uploadDeck, h1, h2, hp, hd, World.createDeck, CreatePitchDeck, hl.2, hl2.2]
      · rcases hj : env.jobInsert with e2 | ⟨id2, t2⟩
        · simp [uploadDeck, h1, h2, hp, hd, hj, World.createDeck, CreatePitchDeck,
            World.createJob, CreateJob, hl.2, hl2.2]
        · obtain ⟨_, _, w3, hrun, -, -, -, -, hq, -⟩ :=
            uploadDeck_success env events w w1 s1 id id2 t t2 h1 hp hd hj
          obtain ⟨_, _, w4, hrun2, -, -, -, -, hq2, -⟩ :=
            uploadDeck_success env events2 w w2 s1 id id2 t t2 h2 hp hd hj
          rw [hrun, hrun2]
          exact enqueueStep_queue _ _ _ _ _ _ (by rw [hq, hq2, hl.2, hl2.2])

/-- The queue after `processEmail` is the same for two mail providers whose
extracted attachments agree once their data are taken out. -/
theorem processEmail_queue (env : Env) (g g2 : Gmail) (messageID : String) (w : World)
    (h : match GetPDFAttachments g messageID, GetPDFAttachments g2 messageID with
      | .ok l1, .ok l2 => l1.map Attachment.withoutBytes = l2.map Attachment.withoutBytes
      | .error a, .error b => a = b
      | _, _ => False) :
    (processEmail (some g2) env messageID w).2.queue =
      (processEmail (some g) env messageID w).2.queue := by
  by_cases hm : messageID = ""
  · simp [processEmail, hm]
  · rcases hg : GetPDFAttachments g messageID with e | l1 <;>
      rcases hg2 : GetPDFAttachments g2 messageID with e2 | l2 <;>
      rw [hg, hg2] at h <;> simp only at h
    · simp [processEmail, hm, hg, hg2]
    · cases l1 with
      | nil =>
        cases l2 with
        | nil => simp [processEmail, hm, hg, hg2]
        | cons b0 rest2 => simp at h
      | cons a0 rest =>
        cases l2 with
        | nil => simp at h
        | cons b0 rest2 =>
          simp only [List.map_cons, List.cons.injEq, Attachment.withoutBytes,
            Attachment.mk.injEq] at h
          have hname : a0.Filename = b0.Filename := h.1.1
          rcases hd : env.deckInsert with e | ⟨id, t⟩
          · simp [processEmail, hm, hg, hg2, hd, World.createDeck, CreatePitchDeck]
          · rcases hj : env.jobInsert with e2 | ⟨id2, t2⟩
            · simp [processEmail, hm, hg, hg2, hd, hj, World.createDeck, CreatePitchDeck,
                World.createJob, CreateJob]
            · obtain ⟨_, _, w3, hrun, -, -, -, -, hq, -⟩ :=
                processEmail_success g env messageID w a0 rest id id2 t t2 hm hg hd hj
              obtain ⟨_, _, w4, hrun2, -, -, -, -, hq2, -⟩ :=
                processEmail_success g2 env messageID w b0 rest2 id id2 t t2 hm hg2 hd hj
              rw [hrun, hrun2]
              simp only
              rw [stageAttachment_path (env.stage 0) b0 a0 w4 w3 hname.symm]
              exact enqueueStep_queue _ _ _ _ _ _
                (by rw [stageAttachment_queue, stageAttachment_queue, hq, hq2])

/-- The rules of `filepath.Clean` never keep an empty element. -/
theorem cleanPush_nonempty (rooted : Bool) (stack : List (List Char)) (e : List Char)
    (h : ∀ x ∈ stack, x ≠ []) : ∀ x ∈ cleanPush rooted stack e, x ≠ [] := by
  unfold cleanPush
  by_cases h1 : e = [] ∨ e = ['.']
  · simp only [h1, if_true]
    exact h
  · simp only [h1, if_false]
    by_cases h2 : e = ['.', '.']
    · simp only [h2, if_true]
      cases stack with
      | nil => cases rooted <;> simp
      | cons top rest =>
        by_cases h3 : top = ['.', '.']
        · simp only [h3, if_true]
          intro x hx
          rcases List.mem_cons.mp hx with hx | hx
          · rw [hx]; simp
          · exact h x (by rw [h3]; exact hx)
        · simp only [h3, if_false]
          intro x hx
          exact h x (List.mem_cons_of_mem _ hx)
    · simp only [h2, if_false]
      intro x hx
      rcases List.mem_cons.mp hx with hx | hx
      · rw [hx]
        intro h0
        exact h1 (Or.inl h0)
      · exact h x hx

/-- Cleaning keeps no empty element, whatever the elements read. -/
theorem cleanFold_nonempty (rooted : Bool) (es : List (List Char)) :
    ∀ stack : List (List Char), (∀ x ∈ stack, x ≠ []) →
      ∀ x ∈ es.foldl (cleanPush rooted) stack, x ≠ [] := by
  induction es with
  | nil => intro stack h; exact h
  | cons e rest ih =>
    intro stack h
    exact ih _ (cleanPush_nonempty rooted stack e h)

/-- A cleaned path is never empty. -/
theorem pathClean_ne_empty (p : String) : pathClean p ≠ "" := by
  intro h
  have hd := congrArg String.data h
  simp only [pathClean] at hd
  split at hd
  · simp at hd
  · split at hd
    · simp at hd
    · rename_i hk
      have hne := cleanFold_nonempty (decide (p.data.head? = some '/')) (splitSlash p.data []) []
        (by simp)
      rcases hkept : (List.foldl (cleanPush (decide (p.data.head? = some '/'))) []
        (splitSlash p.data [])).reverse with _ | ⟨x, rest⟩
      · exact hk hkept
      · rw [hkept] at hd
        have hx : x ≠ [] := hne x (by
          have : x ∈ (List.foldl (cleanPush (decide (p.data.head? = some '/'))) []
            (splitSlash p.data [])).reverse := by rw [hkept]; simp
          exact List.mem_reverse.mp this)
        cases rest with
        | nil =>
          simp only [List.intercalate, List.intersperse, List.flatten, List.append_nil] at hd
          exact hx (by simpa using hd)
        | cons y r =>
          simp [List.intercalate, List.intersperse] at hd

/-- A join of elements one of which is not empty is never empty. -/
theorem pathJoin_ne_empty (es : List String) (h : ∃ e ∈ es, e ≠ "") : pathJoin es ≠ "" := by
  unfold pathJoin
  rcases hdw : es.dropWhile (fun e => decide (e = "")) with _ | ⟨x, rest⟩
  · exfalso
    obtain ⟨e, he, hne⟩ := h
    have := List.dropWhile_eq_nil_iff.mp hdw e he
    simp at this
    exact hne this
  · simp only
    exact pathClean_ne_empty _

/-- The absolute path of a path that is not empty is not empty. -/
theorem pathAbs_ne_empty (wd : Option String) (rel p : String) (hrel : rel ≠ "")
    (h : pathAbs wd rel = some p) : p ≠ "" := by
  unfold pathAbs at h
  split at h
  · simp only [Option.some.injEq] at h
    rw [← h]
    exact pathClean_ne_empty _
  · cases wd with
    | none => simp at h
    | some d =>
      simp only [Option.some.injEq] at h
      rw [← h]
      exact pathJoin_ne_empty _ ⟨rel, by simp, hrel⟩

/-- The path kept by `filepath.Abs` with its error dropped, for a path that is
not empty: as a member of a message it is the answer of `filepath.Abs`. -/
theorem abs_member (wd : Option String) (rel : String) (hrel : rel ≠ "") :
    (if (pathAbs wd rel).getD "" = "" then none else some ((pathAbs wd rel).getD "")) =
      pathAbs wd rel := by
  cases h : pathAbs wd rel with
  | none => simp
  | some p => simp [pathAbs_ne_empty wd rel p hrel h]

/-- One turn of the loop that does not abort: the investor id is the one the
part gives, or the one before; a part not named `file` changes nothing else; a
part named `file` was staged with success, and the turn takes its name and the
absolute path of its file, which holds its bytes. -/
theorem uploadPart_next (env : Env) (st st1 : UploadState) (p : Part) (w w1 : World)
    (h : uploadPart env st p w = .next st1 w1) :
    st1.investorID = (match p.investor with
      | some u => some u
      | none => st.investorID) ∧
    (p.formName ≠ "file" →
      st1.localPath = st.localPath ∧ st1.filename = st.filename ∧ st1.staged = st.staged ∧
      w1 = w) ∧
    (p.formName = "file" →
      uploadStagingFails (env.stage st.staged) p = false ∧
      st1.localPath =
        (pathAbs (env.stage st.staged).wd (stagedName env st.staged p)).getD "" ∧
      st1.filename = p.fileName ∧ st1.staged = st.staged + 1 ∧
      w1.files = (w.files.filter fun f => f.1 ≠ stagedName env st.staged p) ++
        [(stagedName env st.staged p, p.body)]) := by
  by_cases hinv : p.formName = "investor_id"
  · have hnf : p.formName ≠ "file" := by rw [hinv]; decide
    simp only [uploadPart, hinv, if_true] at h
    cases hr : p.readErr with
    | some n =>
      rw [hr] at h
      simp only [LoopResult.next.injEq] at h
      obtain ⟨rfl, rfl⟩ := h
      simp [Part.investor, hinv, hr, hnf]
    | none =>
      rw [hr] at h
      by_cases hb : p.body = ""
      · simp only [hb, ne_eq, not_true_eq_false, if_false, LoopResult.next.injEq] at h
        obtain ⟨rfl, rfl⟩ := h
        simp [Part.investor, hinv, hr, hnf, hb]
      · simp only [ne_eq, hb, not_false_eq_true, if_true] at h
        cases hu : uuidParse p.body with
        | none =>
          rw [hu] at h
          simp only [LoopResult.next.injEq] at h
          obtain ⟨rfl, rfl⟩ := h
          simp [Part.investor, hinv, hr, hnf, hb, hu]
        | some u =>
          rw [hu] at h
          simp only [LoopResult.next.injEq] at h
          obtain ⟨rfl, rfl⟩ := h
          simp [Part.investor, hinv, hr, hnf, hb, hu]
  · have hnone : p.investor = none := by simp [Part.investor, hinv]
    by_cases hfile : p.formName = "file"
    · by_cases hfail : uploadStagingFails (env.stage st.staged) p = true
      · obtain ⟨r, w2, habort, -⟩ := uploadPart_staging_fails env st p w hfile hfail
        rw [habort] at h
        simp at h
      · have hok : uploadStagingFails (env.stage st.staged) p = false := by
          simpa using hfail
        simp only [uploadStagingFails, Bool.or_eq_false_iff, Bool.not_eq_false'] at hok
        obtain ⟨⟨hm, hc⟩, hcopy⟩ := hok
        have hbody : copyToFile p.readErr (env.stage st.staged).writeErr p.body = (p.body, true) := by
          cases hr : p.readErr <;> cases hw : (env.stage st.staged).writeErr <;>
            simp [copyToFile, hr, hw] at hcopy ⊢
        simp only [uploadPart, hinv, hfile, if_true, if_false, hm, hc, Bool.not_true,
          Bool.false_eq_true, hbody, LoopResult.next.injEq] at h
        obtain ⟨rfl, rfl⟩ := h
        refine ⟨by simp [hnone], fun hne => absurd hfile hne, fun _ => ?_⟩
        refine ⟨?_, rfl, rfl, rfl, ?_⟩
        · simp [uploadStagingFails, hm, hc, hbody]
        · simp [World.writeFile, stagedName]
    · simp only [uploadPart, hinv, hfile, if_false, LoopResult.next.injEq] at h
      obtain ⟨rfl, rfl⟩ := h
      exact ⟨by simp [hnone], fun _ => ⟨rfl, rfl, rfl, rfl⟩, fun hf => absurd hf hfile⟩

/-- A loop that does not abort has read parts only. -/
theorem uploadLoop_parts (env : Env) (events : List PartEvent) :
    ∀ (st st1 : UploadState) (w w1 : World), uploadLoop env events st w = .next st1 w1 →
      ∃ ps : List Part, events = ps.map PartEvent.part := by
  induction events with
  | nil => intro st st1 w w1 _; exact ⟨[], rfl⟩
  | cons e rest ih =>
    intro st st1 w w1 h
    cases e with
    | fail msg => simp [uploadLoop] at h
    | part p =>
      simp only [uploadLoop] at h
      cases hp : uploadPart env st p w with
      | abort r w2 => rw [hp] at h; simp at h
      | next st2 w2 =>
        rw [hp] at h
        obtain ⟨ps, hps⟩ := ih st2 st1 w2 w1 h
        exact ⟨p :: ps, by simp [hps]⟩

/-- The loop of `uploadDeck` over parts, when it does not abort: the investor id
is the one the last part that gives one gave; every part named `file` was
staged; without such a part the path is empty, and otherwise the last of them
was staged with success, its file holds its bytes, and the loop ends with its
name and the absolute path of its file. -/
theorem uploadLoop_next (env : Env) (w : World) (ps : List Part) :
    ∀ (st1 : UploadState) (w1 : World),
      uploadLoop env (ps.map PartEvent.part) {} w = .next st1 w1 →
      st1.investorID = (ps.filterMap Part.investor).getLast? ∧
      st1.staged = (fileParts ps).length ∧
      match (fileParts ps).getLast? with
      | none => st1.localPath = ""
      | some pl =>
        uploadStagingFails (env.stage ((fileParts ps).length - 1)) pl = false ∧
        st1.localPath = (pathAbs (env.stage ((fileParts ps).length - 1)).wd
          (stagedName env ((fileParts ps).length - 1) pl)).getD "" ∧
        st1.filename = pl.fileName ∧
        (stagedName env ((fileParts ps).length - 1) pl, pl.body) ∈ w1.files := by
  induction ps using List.reverseRecOn with
  | nil =>
    intro st1 w1 h
    simp only [List.map_nil, uploadLoop, LoopResult.next.injEq] at h
    obtain ⟨rfl, rfl⟩ := h
    simp [fileParts]
  | append_singleton l a ih =>
    intro st1 w1 h
    rw [List.map_append, uploadLoop_append] at h
    cases hl : uploadLoop env (l.map PartEvent.part) {} w with
    | abort r w2 => rw [hl] at h; simp at h
    | next st2 w2 =>
      rw [hl] at h
      simp only [List.map_cons, List.map_nil, uploadLoop] at h
      cases hp : uploadPart env st2 a w2 with
      | abort r w3 => rw [hp] at h; simp at h
      | next st3 w3 =>
        rw [hp] at h
        simp only [LoopResult.next.injEq] at h
        obtain ⟨rfl, rfl⟩ := h
        obtain ⟨hinv, hcount, hlast⟩ := ih st2 w2 hl
        obtain ⟨kinv, kother, kfile⟩ := uploadPart_next env st2 st3 a w2 w3 hp
        refine ⟨?_, ?_, ?_⟩
        · rw [kinv, List.filterMap_append]
          cases ha : a.investor with
          | none => simp [ha, hinv]
          | some u => simp [ha]
        · by_cases hf : a.formName = "file"
          · rw [(kfile hf).2.2.2.1, hcount]
            simp [fileParts, hf]
          · rw [(kother hf).2.2.1, hcount]
            simp [fileParts, hf]
        · by_cases hf : a.formName = "file"
          · obtain ⟨k1, k2, k3, k4, k5⟩ := kfile hf
            have hfp : fileParts (l ++ [a]) = fileParts l ++ [a] := by simp [fileParts, hf]
            rw [hfp]
            simp only [List.getLast?_append, List.getLast?_singleton, Option.or,
              List.length_append, List.length_singleton, Nat.add_sub_cancel]
            rw [← hcount]
            exact ⟨k1, k2, k3, by rw [k5]; simp⟩
          · obtain ⟨k1, k2, k3, k4⟩ := kother hf
            have hfp : fileParts (l ++ [a]) = fileParts l := by simp [fileParts, hf]
            rw [hfp, k1, k2, k4]
            exact hlast

/-- The name under which a file part is staged is not empty. -/
theorem stagedName_ne_empty (env : Env) (k : Nat) (p : Part) : stagedName env k p ≠ "" :=
  pathJoin_ne_empty _ ⟨"uploads", by simp, by decide⟩

/-- The name under which an attachment is staged is not empty. -/
theorem emailStagedName_ne_empty (o : StageOracle) (a : Attachment) :
    emailStagedName o a ≠ "" :=
  pathJoin_ne_empty _ ⟨"uploads", by simp, by decide⟩

/-- A staging in `processEmail` that does not fail writes the bytes of the
attachment to the joined path, records that one file, keeps the other files
that do not have this path, and returns the absolute path. -/
theorem stageAttachment_ok (o : StageOracle) (a : Attachment) (w : World)
    (h : emailStagingFails o = false) :
    (stageAttachment o a w).1 =
      (pathAbs o.wd (pathJoin ["uploads", o.token.String ++ "_" ++ a.Filename])).getD "" ∧
    (stageAttachment o a w).2.log =
      w.log ++ [.file (pathJoin ["uploads", o.token.String ++ "_" ++ a.Filename])] ∧
    (stageAttachment o a w).2.files =
      (w.files.filter fun f =>
        f.1 ≠ pathJoin ["uploads", o.token.String ++ "_" ++ a.Filename]) ++
        [(pathJoin ["uploads", o.token.String ++ "_" ++ a.Filename], a.Data)] := by
  simp only [emailStagingFails, Bool.or_eq_false_iff, Bool.not_eq_false'] at h
  obtain ⟨hc, hw⟩ := h
  have hnone : o.writeErr = none := by
    cases hwe : o.writeErr with
    | none => rfl
    | some n => rw [hwe] at hw; simp at hw
  simp only [stageAttachment, hc, hnone, Bool.not_true, Bool.false_eq_true, if_false]
  refine ⟨trivial, ?_, ?_⟩
  · by_cases hm : o.mkdirOk = true <;> simp [hm, writeFile_log]
  · by_cases hm : o.mkdirOk = true <;> simp [hm, World.writeFile]

/-- An upload that pushes a message: its loop ended without abort and with a
staged path, a Job row was appended, and the message is built from the id and
the investor id of that row, which is the investor id the loop ended with, and
from the path the loop ended with, the absolute path of a file written in the run. -/
theorem uploadDeck_pushed (env : Env) (events : List PartEvent) (w : World) (m : Message)
    (hm : Effect.push m ∈ newEffects w (uploadDeck env (.ok events) w).2) :
    ∃ (st : UploadState) (w1 : World) (j : AnalysisJob),
      uploadLoop env events {} w = .next st w1 ∧ st.localPath ≠ "" ∧
      j.InvestorID = st.investorID ∧
      (uploadDeck env (.ok events) w).2.store.jobs = w.store.jobs ++ [j] ∧
      (uploadDeck env (.ok events) w).2.queue = w.queue ++ [m] ∧
      (uploadDeck env (.ok events) w).2.files = w1.files ∧
      m = marshal (jobPayload j.ID j.InvestorID "" st.localPath) ∧
      ∃ rel k, Effect.file rel ∈ newEffects w (uploadDeck env (.ok events) w).2 ∧
        pathAbs (env.stage k).wd rel = some st.localPath := by
  have hl := uploadLoop_store_queue env events {} w
  obtain ⟨fs, hlog, hpath⟩ := uploadLoop_log env events {} w
  rcases hloop : uploadLoop env events {} w with ⟨r, w1⟩ | ⟨st, w1⟩
  · rw [hloop] at hl hlog
    simp only [LoopResult.world] at hl hlog
    simp only [uploadDeck, hloop] at hm
    rw [newEffects_append _ _ _ hlog] at hm
    exact absurd hm (no_push_in_files _ _)
  · rw [hloop] at hl hlog
    simp only [LoopResult.world] at hl hlog
    have hpath := hpath st w1 hloop
    by_cases hp : st.localPath = ""
    · simp only [uploadDeck, hloop, hp, if_true] at hm
      rw [newEffects_append _ _ _ hlog] at hm
      exact absurd hm (no_push_in_files _ _)
    · rcases hd : env.deckInsert with e | ⟨id, t⟩
      · simp only [uploadDeck, hloop, hp, if_false, World.createDeck, CreatePitchDeck, hd] at hm
        rw [newEffects_append _ _ _ hlog] at hm
        exact absurd hm (no_push_in_files _ _)
      · rcases hj : env.jobInsert with e2 | ⟨id2, t2⟩
        · simp only [uploadDeck, hloop, hp, if_false, World.createDeck, CreatePitchDeck, hd,
            World.createJob, CreateJob, hj] at hm
          rw [newEffects_append _ _ (fs.map Effect.file ++ [.deck id]) (by simp [hlog])] at hm
          simp at hm
        · obtain ⟨d, j, w3, hrun, hdeq, hjeq, h1, h2, h3, h5, -, h4⟩ :=
            uploadDeck_success env events w w1 st id id2 t t2 hloop hp hd hj
          have hjid : j.ID = id2 := by rw [hjeq]
          have hjinv : j.InvestorID = st.investorID := by rw [hjeq]
          rw [hrun] at hm ⊢
          simp only at hm ⊢
          rcases enqueueStep_cases env.redis id2 st.investorID st.localPath w3 with h | h
          · rw [h] at hm
            rw [newEffects_append _ _ (fs.map Effect.file ++ [.deck id, .job id2])
              (by simp [h4, hlog])] at hm
            simp at hm
          · have hnew : newEffects w (enqueueStep env.redis id2 st.investorID st.localPath w3) =
                fs.map Effect.file ++ [.deck id, .job id2,
                  .push (marshal (jobPayload id2 st.investorID "" st.localPath))] :=
              newEffects_append _ _ _ (by simp [h.2, h4, hlog])
            rw [hnew] at hm ⊢
            have hmm : m = marshal (jobPayload id2 st.investorID "" st.localPath) := by
              simpa using hm
            refine ⟨st, w1, j, rfl, hp, hjinv, ?_, ?_, ?_, ?_, ?_⟩
            · simp only [enqueueStep_store, h2, hl.1]
            · rw [h.1, h3, hl.2, hmm]
            · simp only [enqueueStep_files, h5]
            · rw [hmm, hjid, hjinv]
            · rcases hpath with h6 | h6 | ⟨rel, k, hrel, habs⟩
              · exact absurd h6 hp
              · exact absurd h6 hp
              · exact ⟨rel, k, by simp [hrel], habs⟩

/-- An email intake that pushes a message: the message had a first attachment
`a0`, a Job row without investor was appended, `a0` was staged after that, and
the message is built from the id of that row and the path the staging left. -/
theorem processEmail_pushed (gmail : Option Gmail) (env : Env) (messageID : String)
    (w : World) (m : Message)
    (hm : Effect.push m ∈ newEffects w (processEmail gmail env messageID w).2) :
    ∃ (g : Gmail) (a0 : Attachment) (rest : List Attachment) (j : AnalysisJob) (w2 : World),
      gmail = some g ∧ GetPDFAttachments g messageID = .ok (a0 :: rest) ∧
      j.InvestorID = none ∧
      (processEmail gmail env messageID w).2.store.jobs = w.store.jobs ++ [j] ∧
      (processEmail gmail env messageID w).2.queue = w.queue ++ [m] ∧
      (processEmail gmail env messageID w).2.files =
        (stageAttachment (env.stage 0) a0 w2).2.files ∧
      m = marshal (jobPayload j.ID j.InvestorID "" (stageAttachment (env.stage 0) a0 w2).1) ∧
      ((stageAttachment (env.stage 0) a0 w2).1 = "" ∨
        ∃ rel k, Effect.file rel ∈ newEffects w (processEmail gmail env messageID w).2 ∧
          pathAbs (env.stage k).wd rel = some (stageAttachment (env.stage 0) a0 w2).1) := by
  have hnil : newEffects w w = [] := by simp [newEffects]
  cases gmail with
  | none =>
    simp only [processEmail, hnil] at hm
    simp at hm
  | some g =>
    by_cases hmid : messageID = ""
    · simp only [processEmail, hmid, if_true, hnil] at hm
      simp at hm
    · rcases hg : GetPDFAttachments g messageID with e | (_ | ⟨a0, rest⟩)
      · simp only [processEmail, hmid, if_false, hg, hnil] at hm
        simp at hm
      · simp only [processEmail, hmid, if_false, hg, hnil] at hm
        simp at hm
      · rcases hd : env.deckInsert with e | ⟨id, t⟩
        · simp only [processEmail, hmid, if_false, hg, World.createDeck, CreatePitchDeck, hd,
            hnil] at hm
          simp at hm
        · rcases hj : env.jobInsert with e2 | ⟨id2, t2⟩
          · simp only [processEmail, hmid, if_false, hg, World.createDeck, CreatePitchDeck, hd,
              World.createJob, CreateJob, hj] at hm
            rw [newEffects_append _ _ [.deck id] (by simp)] at hm
            simp at hm
          · obtain ⟨d, j, w2, hrun, hdeq, hjeq, h1, h2, h3, -, -, h4⟩ :=
              processEmail_success g env messageID w a0 rest id id2 t t2 hmid hg hd hj
            have hjid : j.ID = id2 := by rw [hjeq]
            have hjinv : j.InvestorID = none := by rw [hjeq]
            obtain ⟨fs2, hstage, hpath⟩ := stageAttachment_log (env.stage 0) a0 w2
            rw [hrun] at hm ⊢
            simp only at hm ⊢
            rcases enqueueStep_cases env.redis id2 none (stageAttachment (env.stage 0) a0 w2).1
              (stageAttachment (env.stage 0) a0 w2).2 with h | h
            · rw [h] at hm
              rw [newEffects_append _ _ ([.deck id, .job id2] ++ fs2.map Effect.file)
                (by simp [hstage, h4])] at hm
              simp at hm
            · have hnew : newEffects w (enqueueStep env.redis id2 none
                  (stageAttachment (env.stage 0) a0 w2).1
                  (stageAttachment (env.stage 0) a0 w2).2) =
                  [.deck id, .job id2] ++ fs2.map Effect.file ++
                    [.push (marshal (jobPayload id2 none ""
                      (stageAttachment (env.stage 0) a0 w2).1))] :=
                newEffects_append _ _ _ (by simp [h.2, hstage, h4])
              rw [hnew] at hm ⊢
              have hmm : m = marshal (jobPayload id2 none ""
                  (stageAttachment (env.stage 0) a0 w2).1) := by
                simpa using hm
              refine ⟨g, a0, rest, j, w2, rfl, hg, hjinv, ?_, ?_, ?_, ?_, ?_⟩
              · simp only [enqueueStep_store, stageAttachment_store, h2]
              · rw [h.1, stageAttachment_queue, h3, hmm]
              · simp only [enqueueStep_files]
              · rw [hmm, hjid, hjinv]
              · rcases hpath with h6 | ⟨rel, hrel, habs⟩
                · left; exact h6
                · right; exact ⟨rel, 0, by simp [hrel], habs⟩

/-- Claim C9.  A message pushed by an intake call is the one message the run
adds to the queue and is built from the id of the Job row created in the run,
the investor id of that row when it has one (no member `investor_id`
otherwise), no deck content, and a path: it has no member `deck_content` and no
member beyond `job_id`, `investor_id` and `deck_path`.  For an upload the
investor id is the one the request gave, the parsed value of its last field
`investor_id` that holds a parseable identifier (none when there is no such
field), and `deck_path` is the absolute path of the file of the last part named
`file`, which was staged with success and holds the bytes of that part.  For an
email intake there is no investor id, and `deck_path` is the absolute path of the
file that holds the bytes of the first attachment when its staging succeeded,
and is absent when the staging failed.  Two intake calls that differ only in the
bytes of the files they carry leave the same queue. -/
theorem message_carries_references_only (env : Env) (i : Intake) (w : World) :
    (∀ m, Effect.push m ∈ newEffects w (i.after env w) →
      ∃ j path, (i.after env w).store.jobs = w.store.jobs ++ [j] ∧
        (i.after env w).queue = w.queue ++ [m] ∧
        m = marshal (jobPayload j.ID j.InvestorID "" path) ∧
        (path = "" ∨ ∃ rel k, Effect.file rel ∈ newEffects w (i.after env w) ∧
          pathAbs (env.stage k).wd rel = some path) ∧
        Message.member m "job_id" = some j.ID.String ∧
        Message.member m "investor_id" = j.InvestorID.map UUID.String ∧
        Message.member m "deck_content" = none ∧
        Message.member m "deck_path" = (if path = "" then none else some path) ∧
        (∀ kv ∈ m, kv.1 ∈ ["job_id", "investor_id", "deck_path"]) ∧
        match i with
        | .upload req =>
          ∃ ps pl, req = .ok (ps.map PartEvent.part) ∧ (fileParts ps).getLast? = some pl ∧
            j.InvestorID = (ps.filterMap Part.investor).getLast? ∧
            Message.member m "investor_id" =
              ((ps.filterMap Part.investor).getLast?).map UUID.String ∧
            uploadStagingFails (env.stage ((fileParts ps).length - 1)) pl = false ∧
            (stagedName env ((fileParts ps).length - 1) pl, pl.body) ∈
              (uploadDeck env req w).2.files ∧
            pathAbs (env.stage ((fileParts ps).length - 1)).wd
              (stagedName env ((fileParts ps).length - 1) pl) = some path ∧
            Message.member m "deck_path" = some path
        | .email gmail messageID =>
          ∃ g a0 rest, gmail = some g ∧ GetPDFAttachments g messageID = .ok (a0 :: rest) ∧
            j.InvestorID = none ∧ Message.member m "investor_id" = none ∧
            (emailStagingFails (env.stage 0) = true →
              path = "" ∧ Message.member m "deck_path" = none) ∧
            (emailStagingFails (env.stage 0) = false →
              (emailStagedName (env.stage 0) a0, a0.Data) ∈
                (processEmail gmail env messageID w).2.files ∧
              path = (pathAbs (env.stage 0).wd (emailStagedName (env.stage 0) a0)).getD "" ∧
              Message.member m "deck_path" =
                pathAbs (env.stage 0).wd (emailStagedName (env.stage 0) a0))) ∧
    (∀ i2, sameButBytes i i2 → (i2.after env w).queue = (i.after env w).queue) := by
  constructor
  · intro m hm
    cases i with
    | upload req =>
      simp only [Intake.after, Intake.run] at hm ⊢
      cases req with
      | error e => simp [uploadDeck, newEffects] at hm
      | ok events =>
        obtain ⟨st, w1, j, hloop, hp, hjinv, hjobs, hq, hfiles, hm0, hrel⟩ :=
          uploadDeck_pushed env events w m hm
        obtain ⟨ps, hps⟩ := uploadLoop_parts env events {} st w w1 hloop
        subst hps
        obtain ⟨hinv, hcount, hlast⟩ := uploadLoop_next env w ps st w1 hloop
        obtain ⟨k1, k2, k3, k4, k5⟩ := jobPayload_members j.ID j.InvestorID st.localPath
        rw [← hm0] at k1 k2 k3 k4 k5
        have k4s : Message.member m "deck_path" = some st.localPath := by
          rw [k4]; simp [hp]
        cases hgl : (fileParts ps).getLast? with
        | none =>
          rw [hgl] at hlast
          exact absurd hlast hp
        | some pl =>
          rw [hgl] at hlast
          obtain ⟨l1, l2, l3, l4⟩ := hlast
          have habs : pathAbs (env.stage ((fileParts ps).length - 1)).wd
              (stagedName env ((fileParts ps).length - 1) pl) = some st.localPath := by
            rcases abs_or_empty (env.stage ((fileParts ps).length - 1)).wd
              (stagedName env ((fileParts ps).length - 1) pl) with h0 | h0
            · exact absurd (l2.trans h0) hp
            · rw [h0, ← l2]
          refine ⟨j, st.localPath, hjobs, hq, hm0, Or.inr hrel, k1, k2, k3, k4, k5,
            ps, pl, rfl, hgl, by rw [hjinv, hinv], by rw [k2, hjinv, hinv], l1, ?_, habs, k4s⟩
          rw [hfiles]
          exact l4
    | email gmail messageID =>
      simp only [Intake.after, Intake.run] at hm ⊢
      obtain ⟨g, a0, rest, j, w2, hgm, hg, hjinv, hjobs, hq, hfiles, hm0, hrel⟩ :=
        processEmail_pushed gmail env messageID w m hm
      obtain ⟨k1, k2, k3, k4, k5⟩ :=
        jobPayload_members j.ID j.InvestorID (stageAttachment (env.stage 0) a0 w2).1
      rw [← hm0] at k1 k2 k3 k4 k5
      refine ⟨j, (stageAttachment (env.stage 0) a0 w2).1, hjobs, hq, hm0, hrel, k1, k2, k3, k4,
        k5, g, a0, rest, hgm, hg, hjinv, by rw [k2, hjinv]; rfl, ?_, ?_⟩
      · intro hfail
        have h0 := stageAttachment_fails (env.stage 0) a0 w2 hfail
        exact ⟨h0, by rw [k4]; simp [h0]⟩
      · intro hok
        obtain ⟨s1, -, s3⟩ := stageAttachment_ok (env.stage 0) a0 w2 hok
        refine ⟨?_, s1, ?_⟩
        · rw [hfiles, s3]
          simp [emailStagedName]
        · rw [k4, s1]
          exact abs_member (env.stage 0).wd (emailStagedName (env.stage 0) a0)
            (emailStagedName_ne_empty _ _)
  · intro i2 hsame
    cases i with
    | upload req =>
      cases i2 with
      | email g2 m2 => cases req <;> simp [sameButBytes] at hsame
      | upload req2 =>
        cases req with
        | error a =>
          cases req2 with
          | error b => simp [Intake.after, Intake.run, uploadDeck]
          | ok e2 => simp [sameButBytes] at hsame
        | ok e1 =>
          cases req2 with
          | error b => simp [sameButBytes] at hsame
          | ok e2 =>
            simp only [sameButBytes] at hsame
            exact uploadDeck_queue env e1 e2 w (uploadLoop_skeleton env e1 e2 {} w w hsame)
    | email g m1 =>
      cases i2 with
      | upload req2 => cases g <;> simp [sameButBytes] at hsame
      | email g2 m2 =>
        cases g with
        | none =>
          cases g2 with
          | none => simp [Intake.after, Intake.run, processEmail]
          | some g2 => simp [sameButBytes] at hsame
        | some g =>
          cases g2 with
          | none => simp [sameButBytes] at hsame
          | some g2 =>
            simp only [sameButBytes] at hsame
            obtain ⟨hmid, hres⟩ := hsame
            subst hmid
            exact processEmail_queue env g g2 m1 w hres

/-- Witness of C9: the upload of `deck.pdf` with the investor id 255 pushes a
message of three members, the id of the Job, the investor id given and the
absolute path of the staged file, and the same upload with other bytes in the
file leaves the same queue. -/
theorem message_carries_references_only_witness :
    Effect.push [("job_id", "00000000-0000-0000-0000-000000000020"),
        ("investor_id", "00000000-0000-0000-0000-0000000000ff"),
        ("deck_path", "/app/uploads/00000000-0000-0000-0000-000000000001_deck.pdf")] ∈
      newEffects {} ((Intake.upload (.ok [.part investorPart, .part deckPart])).after okEnv {}) ∧
    sameButBytes (.upload (.ok [.part investorPart, .part deckPart]))
      (.upload (.ok [.part investorPart, .part deckPart2])) ∧
    ((Intake.upload (.ok [.part investorPart, .part deckPart2])).after okEnv {}).queue =
      ((Intake.upload (.ok [.part investorPart, .part deckPart])).after okEnv {}).queue ∧
    ((Intake.upload (.ok [.part investorPart, .part deckPart])).after okEnv {}).queue =
      [[("job_id", "00000000-0000-0000-0000-000000000020"),
        ("investor_id", "00000000-0000-0000-0000-0000000000ff"),
        ("deck_path", "/app/uploads/00000000-0000-0000-0000-000000000001_deck.pdf")]] ∧
    ((Intake.upload (.ok [.part investorPart, .part deckPart])).after okEnv {}).files =
      [("uploads/00000000-0000-0000-0000-000000000001_deck.pdf", "%PDF-1.4")] :=
  ⟨by decide, rfl,
   (message_carries_references_only okEnv
     (.upload (.ok [.part investorPart, .part deckPart])) {}).2
     (.upload (.ok [.part investorPart, .part deckPart2])) rfl,
   by decide, by decide⟩

/-! ## Staged paths -/

/-- Claim C10 fails on the code.  Two email intakes draw the distinct tokens 1
and 2 for attachments that both carry the name `/../deck.pdf`: `filepath.Join`
cleans the token away, both are staged at `uploads/deck.pdf`, the second run
overwrites the file of the first, and both messages carry the same path. -/
theorem staged_paths_collide :
    (okEnv.stage 0).token ≠ (okEnv2.stage 0).token ∧
    (okEnv.stage 0).token.String ≠ (okEnv2.stage 0).token.String ∧
    pathJoin ["uploads", (okEnv.stage 0).token.String ++ "_" ++ "/../deck.pdf"] =
      pathJoin ["uploads", (okEnv2.stage 0).token.String ++ "_" ++ "/../deck.pdf"] ∧
    (processEmail (some (slashMail "first")) okEnv "m1" {}).1.code = 200 ∧
    (processEmail (some (slashMail "first")) okEnv "m1" {}).2.files =
      [("uploads/deck.pdf", "first")] ∧
    (processEmail (some (slashMail "second")) okEnv2 "m1"
      (processEmail (some (slashMail "first")) okEnv "m1" {}).2).1.code = 200 ∧
    (processEmail (some (slashMail "second")) okEnv2 "m1"
      (processEmail (some (slashMail "first")) okEnv "m1" {}).2).2.files =
      [("uploads/deck.pdf", "second")] ∧
    (processEmail (some (slashMail "second")) okEnv2 "m1"
      (processEmail (some (slashMail "first")) okEnv "m1" {}).2).2.queue =
      [[("job_id", "00000000-0000-0000-0000-000000000020"),
        ("deck_path", "/app/uploads/deck.pdf")],
       [("job_id", "00000000-0000-0000-0000-000000000021"),
        ("deck_path", "/app/uploads/deck.pdf")]] := by
  decide

/-- No hexadecimal digit is the path separator. -/
theorem hexDigit_ne_slash (n : Nat) : hexDigit n ≠ '/' := by
  unfold hexDigit
  by_cases h : n < 16
  · interval_cases n <;> decide
  · have : "0123456789abcdef".data.length ≤ n := by
      have : "0123456789abcdef".data.length = 16 := by decide
      omega
    rw [List.getD_eq_default _ _ this]
    decide

/-- The string form of a UUID has 36 characters. -/
theorem UUID.String_length (u : UUID) : u.String.data.length = 36 := rfl

/-- The string form of a UUID has no path separator. -/
theorem UUID.String_no_slash (u : UUID) : '/' ∉ u.String.data := by
  intro h
  simp only [UUID.String, UUID.hexRange, UUID.byteHex, List.range, List.range.loop,
    List.map, List.flatten, List.mem_append, List.mem_cons, List.not_mem_nil, or_false,
    List.append_nil, List.cons_append, List.nil_append] at h
  have hne := fun n => (hexDigit_ne_slash n).symm
  simp [hne] at h

/-- A run of characters without separator is one path element. -/
theorem splitSlash_plain (a : List Char) (h : '/' ∉ a) :
    ∀ cur, splitSlash a cur = [cur.reverse ++ a] := by
  induction a with
  | nil => intro cur; simp [splitSlash]
  | cons c cs ih =>
    intro cur
    have hc : c ≠ '/' := fun hc => h (by simp [hc])
    have hcs : '/' ∉ cs := fun hcs => h (by simp [hcs])
    simp [splitSlash, hc, ih hcs]

/-- A separator after a run of characters without separator ends the element. -/
theorem splitSlash_sep (a rest : List Char) (h : '/' ∉ a) :
    ∀ cur, splitSlash (a ++ '/' :: rest) cur = (cur.reverse ++ a) :: splitSlash rest [] := by
  induction a with
  | nil => intro cur; simp [splitSlash]
  | cons c cs ih =>
    intro cur
    have hc : c ≠ '/' := fun hc => h (by simp [hc])
    have hcs : '/' ∉ cs := fun hcs => h (by simp [hcs])
    simp [splitSlash, hc, ih hcs]

/-- A name of three characters or more without separator is kept by
`filepath.Join` as it is, below `uploads`. -/
theorem pathJoin_plain (name : String) (h : '/' ∉ name.data) (hlen : 3 ≤ name.data.length) :
    pathJoin ["uploads", name] = "uploads/" ++ name := by
  have hsplit : splitSlash ("uploads".data ++ '/' :: name.data) [] =
      ["uploads".data, name.data] := by
    rw [splitSlash_sep _ _ (by decide), splitSlash_plain _ h]
    rfl
  have h1 : name.data ≠ [] := by intro h0; rw [h0] at hlen; simp at hlen
  have h2 : name.data ≠ ['.'] := by intro h0; rw [h0] at hlen; simp at hlen
  have h3 : name.data ≠ ['.', '.'] := by intro h0; rw [h0] at hlen; simp at hlen
  have hdata : ("uploads" ++ "/" ++ name).data = "uploads".data ++ '/' :: name.data := by
    simp [String.data_append]
  have hjoin : String.intercalate "/" ["uploads", name] = "uploads" ++ "/" ++ name := rfl
  have hdrop : (["uploads", name].dropWhile fun e => decide (e = "")) = ["uploads", name] := by
    simp [List.dropWhile]
  unfold pathJoin
  rw [hdrop]
  simp only
  unfold pathClean
  rw [hjoin, hdata, hsplit]
  have hpush : cleanPush false [] "uploads".data = ["uploads".data] := by decide
  have hpush2 : cleanPush false ["uploads".data] name.data = [name.data, "uploads".data] := by
    simp [cleanPush, h1, h2, h3]
  have hroot : (("uploads".data ++ '/' :: name.data).head? = some '/') = False := by
    simp
  simp only [hroot, decide_False, List.foldl, hpush, hpush2]
  apply String.ext
  simp [List.intercalate, String.data_append]

/-- Where staging is collision-free: for file names without a path separator
(such as the base names `part.FileName()` returns), two stagings that draw
tokens with distinct string forms get distinct paths, also for equal names. -/
theorem staged_paths_distinct (t1 t2 : UUID) (f1 f2 : String) (ht : t1.String ≠ t2.String)
    (h1 : '/' ∉ f1.data) (h2 : '/' ∉ f2.data) :
    pathJoin ["uploads", t1.String ++ "_" ++ f1] ≠
      pathJoin ["uploads", t2.String ++ "_" ++ f2] := by
  have hd1 : (t1.String ++ "_" ++ f1).data = t1.String.data ++ '_' :: f1.data := by
    simp [String.data_append]
  have hd2 : (t2.String ++ "_" ++ f2).data = t2.String.data ++ '_' :: f2.data := by
    simp [String.data_append]
  have hn1 : '/' ∉ (t1.String ++ "_" ++ f1).data := by
    rw [hd1]
    simp only [List.mem_append, List.mem_cons, not_or]
    exact ⟨t1.String_no_slash, by decide, h1⟩
  have hn2 : '/' ∉ (t2.String ++ "_" ++ f2).data := by
    rw [hd2]
    simp only [List.mem_append, List.mem_cons, not_or]
    exact ⟨t2.String_no_slash, by decide, h2⟩
  have hl1 : 3 ≤ (t1.String ++ "_" ++ f1).data.length := by
    rw [hd1, List.length_append, t1.String_length]; omega
  have hl2 : 3 ≤ (t2.String ++ "_" ++ f2).data.length := by
    rw [hd2, List.length_append, t2.String_length]; omega
  rw [pathJoin_plain _ hn1 hl1, pathJoin_plain _ hn2 hl2]
  intro heq
  have hdata := congrArg String.data heq
  simp only [String.data_append, List.append_assoc] at hdata
  have hcancel := List.append_cancel_left hdata
  have hlen : t1.String.data.length = t2.String.data.length := by
    rw [t1.String_length, t2.String_length]
  have := (List.append_inj hcancel hlen).1
  exact ht (String.ext this)

/-- An instance of `staged_paths_distinct`: two uploads of `deck.pdf`. -/
theorem staged_paths_distinct_example :
    pathJoin ["uploads", (⟨1⟩ : UUID).String ++ "_" ++ "deck.pdf"] ≠
      pathJoin ["uploads", (⟨2⟩ : UUID).String ++ "_" ++ "deck.pdf"] :=
  staged_paths_distinct ⟨1⟩ ⟨2⟩ "deck.pdf" "deck.pdf" (by decide) (by decide) (by decide)

/-! ## Frame of the lifecycle transitions -/

/-- An executed update keyed by `id` keeps the decks, the number and order of
the job rows and every row with another id; it keeps the whole store when no
row has the id. -/
theorem updateJobs_frame (id : UUID) (set : AnalysisJob → AnalysisJob) (s : Store) :
    ∃ s1, updateJobs true id set s = .ok s1 ∧ s1.decks = s.decks ∧
      s1.jobs.length = s.jobs.length ∧
      (∀ (k : Nat) (j : AnalysisJob), s.jobs[k]? = some j → j.ID ≠ id → s1.jobs[k]? = some j) ∧
      ((∀ j ∈ s.jobs, j.ID ≠ id) → s1 = s) := by
  refine ⟨{ s with jobs := s.jobs.map fun j => if j.ID = id then set j else j }, ?_, rfl, ?_,
    ?_, ?_⟩
  · simp [updateJobs]
  · simp
  · intro k j hk hne
    simp [List.getElem?_map, hk, hne]
  · intro hno
    have hmap : (s.jobs.map fun j => if j.ID = id then set j else j) = s.jobs := by
      conv_rhs => rw [← List.map_id s.jobs]
      apply List.map_congr_left
      intro j hj
      simp [hno j hj]
    rw [hmap]

/-- Every transition is an executed update keyed by the id. -/
theorem Transition.run_eq_updateJobs (id : UUID) (t : Transition) (s : Store) :
    ∃ set : AnalysisJob → AnalysisJob, t.run id s = updateJobs true id set s := by
  cases t with
  | started now => exact ⟨_, rfl⟩
  | completed now c v r => exact ⟨_, rfl⟩
  | failed now m => exact ⟨_, rfl⟩
  | status st => exact ⟨_, rfl⟩

/-- Claim C16.  Each lifecycle transition (`UpdateJobStarted`,
`UpdateJobCompleted`, `UpdateJobFailed`, and `UpdateJobStatus` as well) is keyed
by the job id only: executed on any store for any id it returns no error, keeps
every Deck row, keeps the number and order of the Job rows and every Job row
with another id, and leaves the whole store unchanged when no Job has the id. -/
theorem transition_touches_one_job (id : UUID) (t : Transition) (s : Store) :
    ∃ s1, t.run id s = .ok s1 ∧ s1.decks = s.decks ∧
      s1.jobs.length = s.jobs.length ∧
      (∀ (k : Nat) (j : AnalysisJob), s.jobs[k]? = some j → j.ID ≠ id → s1.jobs[k]? = some j) ∧
      ((∀ j ∈ s.jobs, j.ID ≠ id) → s1 = s) := by
  obtain ⟨set, hset⟩ := Transition.run_eq_updateJobs id t s
  rw [hset]
  exact updateJobs_frame id set s

/-! ## Runs that record rows -/

/-- A run of `uploadDeck` in which a Job row was created went through the loop
to a staged path, and both inserts were answered. -/
theorem uploadDeck_job_inv (env : Env) (req : Except String (List PartEvent)) (w : World)
    (jid : UUID) (h : Effect.job jid ∈ newEffects w (uploadDeck env req w).2) :
    ∃ events st w1 id t t2, req = .ok events ∧ uploadLoop env events {} w = .next st w1 ∧
      st.localPath ≠ "" ∧ env.deckInsert = .ok (id, t) ∧ env.jobInsert = .ok (jid, t2) := by
  cases req with
  | error e => simp [uploadDeck, newEffects] at h
  | ok events =>
    obtain ⟨fs, hlog, -⟩ := uploadLoop_log env events {} w
    rcases hloop : uploadLoop env events {} w with ⟨r, w1⟩ | ⟨st, w1⟩
    · rw [hloop] at hlog
      simp only [LoopResult.world] at hlog
      simp only [uploadDeck, hloop] at h
      rw [newEffects_append _ _ _ hlog] at h
      simp at h
    · rw [hloop] at hlog
      simp only [LoopResult.world] at hlog
      by_cases hp : st.localPath = ""
      · simp only [uploadDeck, hloop, hp, if_true] at h
        rw [newEffects_append _ _ _ hlog] at h
        simp at h
      · rcases hd : env.deckInsert with e | ⟨id, t⟩
        · simp only [uploadDeck, hloop, hp, if_false, World.createDeck, CreatePitchDeck, hd] at h
          rw [newEffects_append _ _ _ hlog] at h
          simp at h
        · rcases hj : env.jobInsert with e2 | ⟨id2, t2⟩
          · simp only [uploadDeck, hloop, hp, if_false, World.createDeck, CreatePitchDeck, hd,
              World.createJob, CreateJob, hj] at h
            rw [newEffects_append _ _ (fs.map Effect.file ++ [.deck id]) (by simp [hlog])] at h
            simp at h
          · obtain ⟨d, j, w3, hrun, -, -, -, -, -, -, -, h4⟩ :=
              uploadDeck_success env events w w1 st id id2 t t2 hloop hp hd hj
            rw [hrun] at h
            have hid : jid = id2 := by
              rcases enqueueStep_cases env.redis id2 st.investorID st.localPath w3 with he | he
              · rw [he, newEffects_append _ _
                  (fs.map Effect.file ++ [.deck id, .job id2]) (by simp [h4, hlog])] at h
                simpa using h
              · rw [newEffects_append _ _ (fs.map Effect.file ++ [.deck id, .job id2] ++
                  [.push (marshal (jobPayload id2 st.investorID "" st.localPath))])
                  (by simp [he.2, h4, hlog])] at h
                simpa using h
            subst hid
            exact ⟨events, st, w1, id, t, t2, rfl, hloop, hp, rfl, rfl⟩

/-- A run of `processEmail` in which a Job row was created had a mail service, a
message id, a first attachment, and both inserts were answered. -/
theorem processEmail_job_inv (gmail : Option Gmail) (env : Env) (messageID : String)
    (w : World) (jid : UUID)
    (h : Effect.job jid ∈ newEffects w (processEmail gmail env messageID w).2) :
    ∃ g a0 rest id t t2, gmail = some g ∧ messageID ≠ "" ∧
      GetPDFAttachments g messageID = .ok (a0 :: rest) ∧
      env.deckInsert = .ok (id, t) ∧ env.jobInsert = .ok (jid, t2) := by
  cases gmail with
  | none => simp [processEmail, newEffects] at h
  | some g =>
    by_cases hm : messageID = ""
    · simp [processEmail, hm, newEffects] at h
    · rcases hg : GetPDFAttachments g messageID with e | (_ | ⟨a0, rest⟩)
      · simp [processEmail, hm, hg, newEffects] at h
      · simp [processEmail, hm, hg, newEffects] at h
      · rcases hd : env.deckInsert with e | ⟨id, t⟩
        · simp [processEmail, hm, hg, World.createDeck, CreatePitchDeck, hd, newEffects] at h
        · rcases hj : env.jobInsert with e2 | ⟨id2, t2⟩
          · simp [processEmail, hm, hg, World.createDeck, CreatePitchDeck, hd,
              World.createJob, CreateJob, hj, newEffects] at h
          · obtain ⟨d, j, w2, hrun, -, -, -, -, -, -, -, h4⟩ :=
              processEmail_success g env messageID w a0 rest id id2 t t2 hm hg hd hj
            rw [hrun] at h
            obtain ⟨fs2, hstage, -⟩ := stageAttachment_log (env.stage 0) a0 w2
            have hid : jid = id2 := by
              rcases enqueueStep_cases env.redis id2 none (stageAttachment (env.stage 0) a0 w2).1
                (stageAttachment (env.stage 0) a0 w2).2 with he | he
              · rw [he, newEffects_append _ _
                  ([.deck id, .job id2] ++ fs2.map Effect.file) (by simp [hstage, h4])] at h
                simpa using h
              · rw [newEffects_append _ _ ([.deck id, .job id2] ++ fs2.map Effect.file ++
                  [.push (marshal (jobPayload id2 none ""
                    (stageAttachment (env.stage 0) a0 w2).1))])
                  (by simp [he.2, hstage, h4])] at h
                simpa using h
            subst hid
            exact ⟨g, a0, rest, id, t, t2, rfl, hm, hg, rfl, rfl⟩

/-- A push that Redis answers with an error leaves the world as it is. -/
theorem enqueueStep_error (e : String) (jobID : UUID) (inv : Option UUID) (path : String)
    (w : World) : enqueueStep (some (.error e)) jobID inv path w = w := rfl

/-- Claim C12.  When an intake run has created its Deck row and its Job row and
the push to the queue then fails, the failure is swallowed: the call answers
with its success code and a body carrying the ids of the Deck and the Job, both
rows are in the store, the Job row in status `pending`, and the queue is as it
was before the call. -/
theorem enqueue_failure_is_swallowed (env : Env) (i : Intake) (w : World) (jid : UUID)
    (e : String) (hjob : Effect.job jid ∈ newEffects w (i.after env w))
    (hredis : env.redis = some (.error e)) :
    (i.run env w).1.code = i.successCode ∧
    ∃ d j, j.ID = jid ∧ (i.run env w).1.body.ids = some (d.ID, j.ID) ∧
      (i.after env w).store.decks = w.store.decks ++ [d] ∧
      (i.after env w).store.jobs = w.store.jobs ++ [j] ∧
      j.DeckID = some d.ID ∧ j.Status = JobStatusPending ∧
      (i.after env w).queue = w.queue := by
  cases i with
  | upload req =>
    simp only [Intake.after, Intake.run, Intake.successCode] at hjob ⊢
    obtain ⟨events, st, w1, id, t, t2, hreq, hloop, hp, hd, hj⟩ :=
      uploadDeck_job_inv env req w jid hjob
    subst hreq
    have hl := uploadLoop_store_queue env events {} w
    rw [hloop] at hl
    simp only [LoopResult.world] at hl
    obtain ⟨d, j, w3, hrun, hdeq, hjeq, h1, h2, h3, -, -, -⟩ :=
      uploadDeck_success env events w w1 st id jid t t2 hloop hp hd hj
    rw [hrun, hredis, enqueueStep_error]
    refine ⟨rfl, d, j, by rw [hjeq], ?_, by rw [h1, hl.1], by rw [h2, hl.1], ?_, by rw [hjeq],
      by rw [h3, hl.2]⟩
    · simp only [Body.ids]; rw [hjeq]
    · rw [hjeq, hdeq]
  | email gmail messageID =>
    simp only [Intake.after, Intake.run, Intake.successCode] at hjob ⊢
    obtain ⟨g, a0, rest, id, t, t2, hgm, hm, hg, hd, hj⟩ :=
      processEmail_job_inv gmail env messageID w jid hjob
    subst hgm
    obtain ⟨d, j, w2, hrun, hdeq, hjeq, h1, h2, h3, -, -, -⟩ :=
      processEmail_success g env messageID w a0 rest id jid t t2 hm hg hd hj
    rw [hrun, hredis, enqueueStep_error]
    refine ⟨rfl, d, j, by rw [hjeq], ?_, by simp [h1], by simp [h2], ?_, by rw [hjeq],
      by simp [h3]⟩
    · simp only [Body.ids]; rw [hjeq, hdeq]
    · rw [hjeq, hdeq]

/-- Witness of C12: the upload of `deck.pdf` with a push that Redis refuses. -/
theorem enqueue_failure_is_swallowed_witness :
    Effect.job ⟨32⟩ ∈ newEffects {} ((Intake.upload deckUpload).after noRedisEnv {}) ∧
    noRedisEnv.redis = some (.error "connection refused") ∧
    ((Intake.upload deckUpload).run noRedisEnv {}).1.code =
      (Intake.upload deckUpload).successCode ∧
    ∃ d j, j.ID = ⟨32⟩ ∧
      ((Intake.upload deckUpload).run noRedisEnv {}).1.body.ids = some (d.ID, j.ID) ∧
      ((Intake.upload deckUpload).after noRedisEnv {}).store.decks =
        ({} : World).store.decks ++ [d] ∧
      ((Intake.upload deckUpload).after noRedisEnv {}).store.jobs =
        ({} : World).store.jobs ++ [j] ∧
      j.DeckID = some d.ID ∧ j.Status = JobStatusPending ∧
      ((Intake.upload deckUpload).after noRedisEnv {}).queue = ({} : World).queue :=
  ⟨by decide, rfl,
   enqueue_failure_is_swallowed noRedisEnv (.upload deckUpload) {} ⟨32⟩ "connection refused"
     (by decide) rfl⟩

/-! ## Contents of the Deck row -/

/-- A list is not itself with one more element. -/
theorem ne_append_singleton {α : Type} (l : List α) (x : α) : l ≠ l ++ [x] := by
  intro h
  have := congrArg List.length h
  simp at this

/-- The Deck row a run of `uploadDeck` appends: built from the investor id and
the file name the loop ended with, with the tag `upload`, an empty storage path
and no hash or metadata. -/
theorem uploadDeck_deck_inv (env : Env) (req : Except String (List PartEvent)) (w : World)
    (d : PitchDeck) (h : (uploadDeck env req w).2.store.decks = w.store.decks ++ [d]) :
    ∃ events st w1, req = .ok events ∧ uploadLoop env events {} w = .next st w1 ∧
      st.localPath ≠ "" ∧ env.deckInsert = .ok (d.ID, d.CreatedAt) ∧
      d.Source = "upload" ∧ d.InvestorID = st.investorID ∧ d.Filename = st.filename ∧
      d.GCSPath = some "" ∧ d.FileHash = none ∧ d.SourceMetadata = none := by
  cases req with
  | error e => exact absurd h (by simp [uploadDeck])
  | ok events =>
    have hl := uploadLoop_store_queue env events {} w
    rcases hloop : uploadLoop env events {} w with ⟨r, w1⟩ | ⟨st, w1⟩
    · rw [hloop] at hl
      simp only [LoopResult.world] at hl
      simp only [uploadDeck, hloop, hl.1] at h
      exact absurd h (ne_append_singleton _ d)
    · rw [hloop] at hl
      simp only [LoopResult.world] at hl
      by_cases hp : st.localPath = ""
      · simp only [uploadDeck, hloop, hp, if_true, hl.1] at h
        exact absurd h (ne_append_singleton _ d)
      · rcases hd : env.deckInsert with e | ⟨id, t⟩
        · simp only [uploadDeck, hloop, hp, if_false, World.createDeck, CreatePitchDeck, hd,
            hl.1] at h
          exact absurd h (ne_append_singleton _ d)
        · have hrow : d =
              ({ ID := id, InvestorID := st.investorID, Filename := st.filename,
                 GCSPath := some "", Source := "upload", CreatedAt := t } : PitchDeck) := by
            rcases hj : env.jobInsert with e2 | ⟨id2, t2⟩
            · simp only [uploadDeck, hloop, hp, if_false, World.createDeck, CreatePitchDeck, hd,
                World.createJob, CreateJob, hj, hl.1] at h
              simpa using h.symm
            · obtain ⟨d0, j, w3, hrun, hdeq, -, h1, -⟩ :=
                uploadDeck_success env events w w1 st id id2 t t2 hloop hp hd hj
              rw [hrun] at h
              simp only [enqueueStep_store, h1, hl.1, hdeq] at h
              simpa using h.symm
          subst hrow
          exact ⟨events, st, w1, rfl, hloop, hp, rfl, rfl, rfl, rfl, rfl, rfl, rfl⟩

/-- The Deck row a run of `processEmail` appends: built from the name of the
first attachment, with the tag `gmail`, the message id as metadata, an empty
storage path and no investor or hash. -/
theorem processEmail_deck_inv (gmail : Option Gmail) (env : Env) (messageID : String)
    (w : World) (d : PitchDeck)
    (h : (processEmail gmail env messageID w).2.store.decks = w.store.decks ++ [d]) :
    ∃ g a0 rest, gmail = some g ∧ messageID ≠ "" ∧
      GetPDFAttachments g messageID = .ok (a0 :: rest) ∧
      env.deckInsert = .ok (d.ID, d.CreatedAt) ∧
      d.Source = "gmail" ∧ d.InvestorID = none ∧ d.Filename = a0.Filename ∧
      d.GCSPath = some "" ∧ d.FileHash = none ∧
      d.SourceMetadata = some ("\x7b\"message_id\": \"" ++ messageID ++ "\"\x7d") := by
  cases gmail with
  | none => exact absurd h (by simp [processEmail])
  | some g =>
    by_cases hm : messageID = ""
    · exact absurd h (by simp [processEmail, hm])
    · rcases hg : GetPDFAttachments g messageID with e | (_ | ⟨a0, rest⟩)
      · exact absurd h (by simp [processEmail, hm, hg])
      · exact absurd h (by simp [processEmail, hm, hg])
      · rcases hd : env.deckInsert with e | ⟨id, t⟩
        · exact absurd h (by
            simp [processEmail, hm, hg, World.createDeck, CreatePitchDeck, hd])
        · have hrow : d =
              ({ ID := id, Filename := a0.Filename, GCSPath := some "", Source := "gmail",
                 SourceMetadata := some ("\x7b\"message_id\": \"" ++ messageID ++ "\"\x7d"),
                 CreatedAt := t } : PitchDeck) := by
            rcases hj : env.jobInsert with e2 | ⟨id2, t2⟩
            · simp only [processEmail, hm, if_false, hg, World.createDeck, CreatePitchDeck, hd,
                World.createJob, CreateJob, hj] at h
              simpa using h.symm
            · obtain ⟨d0, j, w2, hrun, hdeq, -, h1, -⟩ :=
                processEmail_success g env messageID w a0 rest id id2 t t2 hm hg hd hj
              rw [hrun] at h
              simp only [enqueueStep_store, stageAttachment_store, h1, hdeq] at h
              simpa using h.symm
          subst hrow
          exact ⟨g, a0, rest, rfl, hm, hg, rfl, rfl, rfl, rfl, rfl, rfl, rfl⟩

/-- A loop over parts none of which is named `investor_id` keeps the investor id. -/
theorem uploadLoop_without_investor (env : Env) (events : List PartEvent)
    (h : ∀ p, PartEvent.part p ∈ events → p.formName ≠ "investor_id") :
    ∀ (st st1 : UploadState) (w w1 : World),
      uploadLoop env events st w = .next st1 w1 → st1.investorID = st.investorID := by
  induction events with
  | nil =>
    intro st st1 w w1 hl
    simp only [uploadLoop, LoopResult.next.injEq] at hl
    rw [← hl.1]
  | cons e rest ih =>
    intro st st1 w w1 hl
    cases e with
    | fail msg => simp [uploadLoop] at hl
    | part p =>
      have hp : p.formName ≠ "investor_id" := h p (by simp)
      have hrest : ∀ q, PartEvent.part q ∈ rest → q.formName ≠ "investor_id" :=
        fun q hq => h q (by simp [hq])
      simp only [uploadLoop] at hl
      rcases hpart : uploadPart env st p w with ⟨r, w2⟩ | ⟨st2, w2⟩
      · rw [hpart] at hl; simp at hl
      · rw [hpart] at hl
        simp only at hl
        have h2 : st2.investorID = st.investorID := by
          simp only [uploadPart, hp, if_false] at hpart
          repeat' (split at hpart)
          all_goals first
            | (simp only [reduceCtorEq] at hpart)
            | (simp only [LoopResult.next.injEq] at hpart; rw [← hpart.1])
        rw [ih hrest st2 st1 w2 w1 hl, h2]

/-- Counterexample to C11 as stated: the Deck row of the email intake of `m1`
carries the tag `gmail`, which is neither `upload` nor `email`. -/
theorem email_deck_is_tagged_gmail :
    ((Intake.email (some oneDeckMail) "m1").after okEnv {}).store.decks.map PitchDeck.Source =
      ["gmail"] ∧
    "gmail" ∉ ["upload", "email"] := by
  decide

/-- Claim C11, amended.  The Deck row an intake call creates carries the source
tag `upload` when the upload intake created it, without investor id when the
request had no part named `investor_id`, and the tag `gmail` (not `email`),
without investor id, when the email intake created it. -/
theorem deck_source_tag (env : Env) (i : Intake) (w : World) (d : PitchDeck)
    (h : (i.after env w).store.decks = w.store.decks ++ [d]) :
    match i with
    | .upload req =>
      d.Source = "upload" ∧
      ((∀ events p, req = .ok events → PartEvent.part p ∈ events →
          p.formName ≠ "investor_id") → d.InvestorID = none)
    | .email _ _ => d.Source = "gmail" ∧ d.InvestorID = none := by
  cases i with
  | upload req =>
    simp only [Intake.after, Intake.run] at h
    obtain ⟨events, st, w1, hreq, hloop, -, -, hsrc, hinv, -⟩ :=
      uploadDeck_deck_inv env req w d h
    refine ⟨hsrc, ?_⟩
    intro hno
    rw [hinv, uploadLoop_without_investor env events (fun p hp => hno events p hreq hp)
      {} st w w1 hloop]
  | email gmail messageID =>
    simp only [Intake.after, Intake.run] at h
    obtain ⟨g, a0, rest, -, -, -, -, hsrc, hinv, -⟩ :=
      processEmail_deck_inv gmail env messageID w d h
    exact ⟨hsrc, hinv⟩

/-- Witness of C11, amended: the Deck rows of the email intake of `m1` and of
the upload of `deck.pdf`. -/
theorem deck_source_tag_witness :
    (((Intake.email (some oneDeckMail) "m1").after okEnv {}).store.decks =
        ({} : World).store.decks ++ [m1DeckRow] ∧
      m1DeckRow.Source = "gmail" ∧ m1DeckRow.InvestorID = none) ∧
    (((Intake.upload deckUpload).after okEnv {}).store.decks =
        ({} : World).store.decks ++ [uploadDeckRow] ∧
      uploadDeckRow.Source = "upload" ∧ uploadDeckRow.InvestorID = none) :=
  ⟨⟨by decide,
    deck_source_tag okEnv (.email (some oneDeckMail) "m1") {} m1DeckRow (by decide)⟩,
   ⟨by decide,
    (deck_source_tag okEnv (.upload deckUpload) {} uploadDeckRow (by decide)).1,
    (deck_source_tag okEnv (.upload deckUpload) {} uploadDeckRow (by decide)).2
      (by
        intro events p hev hp
        simp only [deckUpload, Except.ok.injEq] at hev
        subst hev
        simp only [List.mem_singleton, PartEvent.part.injEq] at hp
        subst hp
        decide)⟩⟩


/-! ## Extraction of attachments -/

/-- The loop of `GetPDFAttachments` appends what `pdfAttachment` keeps, in order. -/
theorem attachments_foldl (f : MessagePart → Option Attachment) (parts : List MessagePart) :
    ∀ init : List Attachment,
      parts.foldl (fun attachments part =>
        match f part with
        | some a => attachments ++ [a]
        | none => attachments) init = init ++ parts.filterMap f := by
  induction parts with
  | nil => intro init; simp
  | cons p rest ih =>
    intro init
    simp only [List.foldl_cons, List.filterMap_cons]
    cases hf : f p with
    | none => simp only [ih]
    | some a => simp only [ih, List.append_assoc, List.singleton_append]

/-- The result of `GetPDFAttachments` for a message the provider returns: what
`pdfAttachment` keeps of the parts at the first level of the payload, in order. -/
theorem GetPDFAttachments_eq_filterMap (g : Gmail) (messageID : String) (msg : GmailMessage)
    (hget : g.get messageID = .ok msg) :
    GetPDFAttachments g messageID = .ok (msg.Parts.filterMap (pdfAttachment g messageID)) := by
  simp only [GetPDFAttachments, hget, attachments_foldl, List.nil_append]

/-- The loop of `CheckForPitchDecks` appends what `pitchDeckMail` keeps, in order. -/
theorem results_foldl (f : String → Option PitchDeckMail) (ids : List String) :
    ∀ init : List PitchDeckMail,
      ids.foldl (fun results id =>
        match f id with
        | some r => results ++ [r]
        | none => results) init = init ++ ids.filterMap f := by
  induction ids with
  | nil => intro init; simp
  | cons id rest ih =>
    intro init
    simp only [List.foldl_cons, List.filterMap_cons]
    cases hf : f id with
    | none => simp only [ih]
    | some a => simp only [ih, List.append_assoc, List.singleton_append]

/-- A message is kept by the scan exactly when it can be fetched and at least
one attachment is extracted from it; the element kept carries the message id
and the attachments extracted. -/
theorem pitchDeckMail_spec (g : Gmail) (id : String) :
    (pitchDeckMail g id = none ↔
      (∃ e, g.get id = .error e) ∨ GetPDFAttachments g id = .ok []) ∧
    (∀ r, pitchDeckMail g id = some r →
      r.MessageID = id ∧ GetPDFAttachments g id = .ok r.PDFs ∧ r.PDFs ≠ []) := by
  unfold pitchDeckMail GetMessage
  rcases hget : g.get id with e | msg
  · simp
  · have hatt : GetPDFAttachments g id =
        .ok (msg.Parts.filterMap (pdfAttachment g id)) :=
      GetPDFAttachments_eq_filterMap g id msg hget
    rw [hatt]
    cases hl : msg.Parts.filterMap (pdfAttachment g id) with
    | nil => simp
    | cons a rest =>
      simp only [List.length_cons, Nat.add_one_ne_zero, if_false, reduceCtorEq, exists_false,
        Except.ok.injEq, or_self, Option.some.injEq, ne_eq, true_and, false_iff,
        not_false_eq_true]
      intro r hr
      rw [← hr]
      exact ⟨rfl, rfl, by simp⟩

/-- The ids of the elements kept form a sublist of the ids scanned. -/
theorem kept_ids_sublist (f : String → Option PitchDeckMail)
    (hf : ∀ id r, f id = some r → r.MessageID = id) (ids : List String) :
    ((ids.filterMap f).map PitchDeckMail.MessageID).Sublist ids := by
  induction ids with
  | nil => simp
  | cons id rest ih =>
    simp only [List.filterMap_cons]
    cases h : f id with
    | none => exact List.Sublist.cons _ ih
    | some r =>
      simp only [List.map_cons, hf id r h]
      exact List.Sublist.cons₂ _ ih

/-- Counterexample to C14 as stated: the message `m1` of `halfMail` fails the
fetch of its attachment `lost.pdf`, and it is not skipped: it appears in the
results with its other attachment. -/
theorem half_fetched_message_is_kept :
    halfMail.get "m1" = .ok halfMessage ∧
    attachmentFails halfMail "m1" halfMessage = true ∧
    CheckForPitchDecks halfMail =
      .ok [{ MessageID := "m1", Subject := "pitch", Sender := "founder@example.com",
             PDFs := [deckAttachment] }] :=
  ⟨rfl, by decide, rfl⟩

/-- Claim C14, amended.  For every list of candidate messages the provider
returns, `CheckForPitchDecks` returns without error, with what the scan keeps of
the messages in the order of the provider.  A message is skipped exactly when
its fetch fails or no attachment is extracted from it (no part qualifies, or
every part that qualifies fails fetch or decode), and then no result carries its
id; a message from which an attachment is extracted is kept with the attachments
extracted, whatever failed for its other parts; every result has a non-empty
list of PDFs. -/
theorem CheckForPitchDecks_skips (g : Gmail) (ids : List String)
    (hlist : g.list pitchDeckQuery 10 = .ok ids) :
    CheckForPitchDecks g = .ok (ids.filterMap (pitchDeckMail g)) ∧
    (∀ id, pitchDeckMail g id = none ↔
      (∃ e, g.get id = .error e) ∨ GetPDFAttachments g id = .ok []) ∧
    (∀ id, pitchDeckMail g id = none →
      ∀ r ∈ ids.filterMap (pitchDeckMail g), r.MessageID ≠ id) ∧
    (∀ id r, pitchDeckMail g id = some r →
      r.MessageID = id ∧ GetPDFAttachments g id = .ok r.PDFs) ∧
    (∀ r ∈ ids.filterMap (pitchDeckMail g), r.PDFs ≠ []) ∧
    ((ids.filterMap (pitchDeckMail g)).map PitchDeckMail.MessageID).Sublist ids := by
  have hquery : g.list
      "is:unread has:attachment filename:pdf (subject:pitch OR subject:deck OR subject:investment)"
      10 = .ok ids := hlist
  refine ⟨?_, fun id => (pitchDeckMail_spec g id).1, ?_,
    fun id r hr => ⟨((pitchDeckMail_spec g id).2 r hr).1, ((pitchDeckMail_spec g id).2 r hr).2.1⟩,
    ?_, kept_ids_sublist _ (fun id r hr => ((pitchDeckMail_spec g id).2 r hr).1) ids⟩
  · simp only [CheckForPitchDecks, ListRecentMessages, hquery, results_foldl, List.nil_append]
  · intro id hnone r hr heq
    obtain ⟨id2, -, h2⟩ := List.mem_filterMap.mp hr
    have hid := ((pitchDeckMail_spec g id2).2 r h2).1
    rw [heq] at hid
    rw [← hid, hnone] at h2
    simp at h2
  · intro r hr
    obtain ⟨id2, -, h2⟩ := List.mem_filterMap.mp hr
    exact ((pitchDeckMail_spec g id2).2 r h2).2.2

/-- Witness of C14, amended: the scan of `halfMail` skips `m0`, which cannot be
fetched, and keeps `m1`. -/
theorem CheckForPitchDecks_skips_witness :
    halfMail.list pitchDeckQuery 10 = .ok ["m0", "m1"] ∧
    CheckForPitchDecks halfMail = .ok (["m0", "m1"].filterMap (pitchDeckMail halfMail)) ∧
    (["m0", "m1"].filterMap (pitchDeckMail halfMail)).map PitchDeckMail.MessageID = ["m1"] :=
  ⟨rfl, (CheckForPitchDecks_skips halfMail ["m0", "m1"] rfl).1, by decide⟩

/-! ## The first attachment of a message -/

/-- Claim C15.  For an email message from which `GetPDFAttachments` extracts the
attachments `a0 :: rest`, `processEmail` carries forward only `a0`: it answers
and acts as for a message with the single attachment `a0`; and when both inserts
and the staging succeed it answers 200, appends one Deck row, named after `a0`,
and one Job row bound to it, writes one file, which holds the bytes of `a0`, and
pushes at most one message, and nothing else.  For a message with no qualifying
attachment it answers 404 (not found) and changes nothing. -/
theorem first_attachment_only (env : Env) (w : World) (g : Gmail) (messageID : String)
    (hm : messageID ≠ "") :
    (∀ a0 rest, GetPDFAttachments g messageID = .ok (a0 :: rest) →
      (∀ g2, GetPDFAttachments g2 messageID = .ok [a0] →
        processEmail (some g2) env messageID w = processEmail (some g) env messageID w) ∧
      (∀ id t id2 t2, env.deckInsert = .ok (id, t) → env.jobInsert = .ok (id2, t2) →
        emailStagingFails (env.stage 0) = false →
        (processEmail (some g) env messageID w).1 = ⟨200, .queued "queued" id2 id a0.Filename⟩ ∧
        ∃ d j, d.ID = id ∧ j.ID = id2 ∧ d.Filename = a0.Filename ∧ j.DeckID = some d.ID ∧
          (processEmail (some g) env messageID w).2.store.decks = w.store.decks ++ [d] ∧
          (processEmail (some g) env messageID w).2.store.jobs = w.store.jobs ++ [j] ∧
          (processEmail (some g) env messageID w).2.files =
            (w.files.filter fun f => f.1 ≠
              pathJoin ["uploads", (env.stage 0).token.String ++ "_" ++ a0.Filename]) ++
            [(pathJoin ["uploads", (env.stage 0).token.String ++ "_" ++ a0.Filename],
              a0.Data)] ∧
          ((newEffects w (processEmail (some g) env messageID w).2 =
              [.deck id, .job id2,
               .file (pathJoin ["uploads", (env.stage 0).token.String ++ "_" ++ a0.Filename])] ∧
            (processEmail (some g) env messageID w).2.queue = w.queue) ∨
           (∃ m, newEffects w (processEmail (some g) env messageID w).2 =
              [.deck id, .job id2,
               .file (pathJoin ["uploads", (env.stage 0).token.String ++ "_" ++ a0.Filename]),
               .push m] ∧
            (processEmail (some g) env messageID w).2.queue = w.queue ++ [m])))) ∧
    (GetPDFAttachments g messageID = .ok [] →
      processEmail (some g) env messageID w =
        (⟨404, .error "No PDF attachments found" none⟩, w)) := by
  constructor
  · intro a0 rest hg
    constructor
    · intro g2 hg2
      simp only [processEmail, hm, if_false, hg, hg2]
    · intro id t id2 t2 hd hj hstage
      obtain ⟨d, j, w2, hrun, hdeq, hjeq, h1, h2, h3, h4, -, h5⟩ :=
        processEmail_success g env messageID w a0 rest id id2 t t2 hm hg hd hj
      obtain ⟨-, hslog, hsfiles⟩ := stageAttachment_ok (env.stage 0) a0 w2 hstage
      rw [hrun]
      refine ⟨rfl, d, j, by rw [hdeq], by rw [hjeq], by rw [hdeq], by rw [hjeq, hdeq],
        by simp [h1], by simp [h2], by simp [hsfiles, h4], ?_⟩
      rcases enqueueStep_cases env.redis id2 none (stageAttachment (env.stage 0) a0 w2).1
        (stageAttachment (env.stage 0) a0 w2).2 with he | he
      · left
        rw [he]
        exact ⟨newEffects_append _ _ _ (by simp [hslog, h5]), by simp [h3]⟩
      · right
        refine ⟨_, newEffects_append _ _ _ (by simp [he.2, hslog, h5]; rfl), ?_⟩
        simp [he.1, h3]
  · intro hg
    simp only [processEmail, hm, if_false, hg]

/-- Witness of C15: the message `m1` of `twoDeckMail` has the attachments
`deck.pdf` and `terms.pdf`; its intake answers as that of `oneDeckMail`, whose
message has `deck.pdf` only, and the message of `noDeckMail` is not found. -/
theorem first_attachment_only_witness :
    "m1" ≠ "" ∧
    GetPDFAttachments twoDeckMail "m1" = .ok (deckAttachment :: [termsAttachment]) ∧
    GetPDFAttachments oneDeckMail "m1" = .ok [deckAttachment] ∧
    processEmail (some oneDeckMail) okEnv "m1" {} =
      processEmail (some twoDeckMail) okEnv "m1" {} ∧
    (processEmail (some twoDeckMail) okEnv "m1" {}).2.files =
      [("uploads/00000000-0000-0000-0000-000000000001_deck.pdf", "JVBERi0")] ∧
    processEmail (some noDeckMail) okEnv "m1" {} =
      (⟨404, .error "No PDF attachments found" none⟩, {}) :=
  ⟨by decide, rfl, rfl,
   ((first_attachment_only okEnv {} twoDeckMail "m1" (by decide)).1
      deckAttachment [termsAttachment] rfl).1 oneDeckMail rfl,
   by decide,
   (first_attachment_only okEnv {} noDeckMail "m1" (by decide)).2 rfl⟩

/-! ## Absolute paths of staged files -/

/-- A separator ends the element being read, whatever came before it. -/
theorem splitSlash_append (x y : List Char) :
    ∀ cur, splitSlash (x ++ '/' :: y) cur = splitSlash x cur ++ splitSlash y [] := by
  induction x with
  | nil => intro cur; simp [splitSlash]
  | cons c cs ih =>
    intro cur
    by_cases hc : c = '/'
    · simp [splitSlash, hc, ih]
    · simp [splitSlash, hc, ih]

/-- Joining with one more element appends a separator and that element. -/
theorem intercalate_snoc (sep n : List Char) (L : List (List Char)) (hL : L ≠ []) :
    List.intercalate sep (L ++ [n]) = List.intercalate sep L ++ sep ++ n := by
  induction L with
  | nil => exact absurd rfl hL
  | cons a rest ih =>
    cases rest with
    | nil => simp [List.intercalate, List.intersperse]
    | cons b rest2 =>
      have h2 := ih (by simp)
      simp only [List.intercalate, List.cons_append, List.intersperse, List.flatten,
        List.append_assoc, List.append_eq] at h2 ⊢
      rw [h2]

/-- Cleaning a path that ends in `/uploads/name`, for a name of three characters
or more without separator, gives a path that ends in `/name` and whose start is
fixed by what stands before `/uploads`. -/
theorem pathClean_staged (x : List Char) (hx : x ≠ []) :
    ∃ R : List Char, ∀ name : String, '/' ∉ name.data → 3 ≤ name.data.length →
      (pathClean (String.mk (x ++ '/' :: ("uploads".data ++ '/' :: name.data)))).data =
        R ++ '/' :: name.data := by
  refine ⟨(if x.head? = some '/' then ['/'] else []) ++
    List.intercalate ['/']
      (((splitSlash x []).foldl (cleanPush (decide (x.head? = some '/'))) []).reverse
        ++ ["uploads".data]), ?_⟩
  intro name hplain hlen
  have h1 : name.data ≠ [] := by intro h0; rw [h0] at hlen; simp at hlen
  have h2 : name.data ≠ ['.'] := by intro h0; rw [h0] at hlen; simp at hlen
  have h3 : name.data ≠ ['.', '.'] := by intro h0; rw [h0] at hlen; simp at hlen
  have hhead : (x ++ '/' :: ("uploads".data ++ '/' :: name.data)).head? = x.head? := by
    cases x with
    | nil => exact absurd rfl hx
    | cons c cs => rfl
  have hsplit : splitSlash (x ++ '/' :: ("uploads".data ++ '/' :: name.data)) [] =
      splitSlash x [] ++ ["uploads".data, name.data] := by
    rw [splitSlash_append, splitSlash_sep _ _ (by decide), splitSlash_plain _ hplain]
    rfl
  have hpush : ∀ (r : Bool) (S : List (List Char)),
      cleanPush r (cleanPush r S "uploads".data) name.data = name.data :: "uploads".data :: S := by
    intro r S
    have hu : cleanPush r S "uploads".data = "uploads".data :: S := by
      simp [cleanPush]
    rw [hu]
    simp [cleanPush, h1, h2, h3]
  unfold pathClean
  simp only [hhead, hsplit, List.foldl_append, List.foldl_cons, List.foldl_nil, hpush,
    List.reverse_cons, List.append_assoc, List.singleton_append]
  have hsn := intercalate_snoc ['/'] name.data
    (((splitSlash x []).foldl (cleanPush (decide (x.head? = some '/'))) []).reverse
      ++ ["uploads".data]) (by simp)
  simp only [List.append_assoc, List.singleton_append] at hsn
  by_cases hr : x.head? = some '/'
  · simp only [hr, decide_True] at hsn
    simp only [hr, decide_True, if_true, String.data_append]
    simpa using hsn
  · simp only [hr, decide_False] at hsn
    simp only [hr, decide_False, if_false, Bool.false_eq_true]
    simpa using hsn

/-- The absolute path of a file staged under a plain name of three characters or
more ends in `/name`, and its start is fixed by the working directory. -/
theorem pathAbs_staged (d : String) :
    ∃ R : List Char, ∀ name : String, '/' ∉ name.data → 3 ≤ name.data.length →
      pathAbs (some d) (pathJoin ["uploads", name]) = some (String.mk (R ++ '/' :: name.data)) := by
  by_cases hd : d = ""
  · refine ⟨"uploads".data, ?_⟩
    intro name hplain hlen
    have hrel := pathJoin_plain name hplain hlen
    have hne : ("uploads/" ++ name) ≠ "" := by
      intro h
      have := congrArg String.data h
      simp [String.data_append] at this
    have hdrop : ([d, "uploads/" ++ name].dropWhile fun e => decide (e = "")) =
        ["uploads/" ++ name] := by
      simp [List.dropWhile, hd, hne]
    have hclean : pathClean ("uploads/" ++ name) = "uploads/" ++ name := by
      have h2 := hrel
      unfold pathJoin at h2
      simp only [List.dropWhile] at h2
      exact h2
    rw [hrel]
    unfold pathAbs
    have hhead : ("uploads/" ++ name).data.head? ≠ some '/' := by
      simp [String.data_append]
    simp only [hhead, if_false]
    unfold pathJoin
    rw [hdrop]
    simp only
    have hj : String.intercalate "/" ["uploads/" ++ name] = "uploads/" ++ name := rfl
    rw [hj, hclean]
    congr 1
  · have hx : d.data ≠ [] := by
      intro h
      exact hd (String.ext h)
    obtain ⟨R, hR⟩ := pathClean_staged d.data hx
    refine ⟨R, ?_⟩
    intro name hplain hlen
    have hrel := pathJoin_plain name hplain hlen
    have hdrop : ([d, "uploads/" ++ name].dropWhile fun e => decide (e = "")) =
        [d, "uploads/" ++ name] := by
      simp [List.dropWhile, hd]
    rw [hrel]
    unfold pathAbs
    have hhead : ("uploads/" ++ name).data.head? ≠ some '/' := by
      simp [String.data_append]
    simp only [hhead, if_false]
    unfold pathJoin
    rw [hdrop]
    simp only
    have hj : String.intercalate "/" [d, "uploads/" ++ name] =
        String.mk (d.data ++ '/' :: ("uploads".data ++ '/' :: name.data)) := by
      have h0 : String.intercalate "/" [d, "uploads/" ++ name] = d ++ "/" ++ ("uploads/" ++ name) :=
        rfl
      rw [h0]
      apply String.ext
      simp [String.data_append]
    rw [hj]
    congr 1
    apply String.ext
    exact hR name hplain hlen

/-! ## Uploads with several files -/

/-- A file part whose staging succeeds: the turn writes the file, takes the name
of the part and the absolute path of the file, and counts the staging. -/
theorem uploadPart_staged (env : Env) (st : UploadState) (p : Part) (w : World)
    (hfile : p.formName = "file")
    (hok : (env.stage st.staged).mkdirOk = true ∧ (env.stage st.staged).createOk = true ∧
      (env.stage st.staged).writeErr = none)
    (hread : p.readErr = none) :
    ∃ st1 w1, uploadPart env st p w = .next st1 w1 ∧
      st1.localPath =
        (pathAbs (env.stage st.staged).wd (stagedName env st.staged p)).getD "" ∧
      st1.filename = p.fileName ∧ st1.staged = st.staged + 1 ∧
      st1.investorID = st.investorID ∧
      w1.store = w.store ∧ w1.queue = w.queue ∧
      w1.log = w.log ++ [.file (stagedName env st.staged p)] ∧
      w1.files = writeAll w.files [(stagedName env st.staged p, p.body)] := by
  have hne : p.formName ≠ "investor_id" := by rw [hfile]; decide
  refine ⟨({ localPath :=
               (pathAbs (env.stage st.staged).wd (stagedName env st.staged p)).getD "",
             filename := p.fileName,
             investorID := st.investorID,
             staged := st.staged + 1 } : UploadState),
    (w.mkdir "uploads").writeFile (stagedName env st.staged p) p.body, ?_,
    rfl, rfl, rfl, rfl, ?_, ?_, ?_, ?_⟩
  · simp [uploadPart, hne, hfile, hok.1, hok.2.1, hok.2.2, hread, copyToFile, stagedName]
  · simp
  · simp
  · simp [writeFile_log]
  · simp [World.writeFile, writeAll]

/-- A part that is not named `file` leaves the world, the path, the file name
and the count of stagings alone, and does not abort. -/
theorem uploadPart_other (env : Env) (st : UploadState) (p : Part) (w : World)
    (hfile : p.formName ≠ "file") :
    ∃ st1, uploadPart env st p w = .next st1 w ∧ st1.localPath = st.localPath ∧
      st1.filename = st.filename ∧ st1.staged = st.staged := by
  simp only [uploadPart, hfile, if_false]
  repeat' split
  all_goals exact ⟨_, rfl, rfl, rfl, rfl⟩

/-- Writing files one after the other, in two runs. -/
theorem writeAll_append (files a b : List (String × Bytes)) :
    writeAll files (a ++ b) = writeAll (writeAll files a) b := by
  simp [writeAll, List.foldl_append]

/-- The loop over parts whose stagings all succeed ends without abort, having
written the files of the parts named `file` in order; without such a part the
path and the file name are as before. -/
theorem uploadLoop_staged (env : Env) (ps : List Part)
    (hstage : ∀ k, (env.stage k).mkdirOk = true ∧ (env.stage k).createOk = true ∧
      (env.stage k).writeErr = none)
    (hread : ∀ p ∈ ps, p.formName = "file" → p.readErr = none) :
    ∀ (st : UploadState) (w : World),
      ∃ st1 w1, uploadLoop env (ps.map PartEvent.part) st w = .next st1 w1 ∧
        st1.staged = st.staged + (stagedFrom env st.staged ps).length ∧
        w1.log = w.log ++ (stagedFrom env st.staged ps).map (fun f => Effect.file f.1) ∧
        w1.files = writeAll w.files (stagedFrom env st.staged ps) ∧
        ((∀ p ∈ ps, p.formName ≠ "file") →
          st1.localPath = st.localPath ∧ st1.filename = st.filename) := by
  induction ps with
  | nil =>
    intro st w
    exact ⟨st, w, rfl, by simp [stagedFrom], by simp [stagedFrom], by simp [stagedFrom, writeAll],
      fun _ => ⟨rfl, rfl⟩⟩
  | cons p rest ih =>
    intro st w
    have hrest : ∀ q ∈ rest, q.formName = "file" → q.readErr = none :=
      fun q hq => hread q (by simp [hq])
    by_cases hfile : p.formName = "file"
    · obtain ⟨st1, w1, hpart, -, -, hstaged, -, -, -, hlog, hfiles⟩ :=
        uploadPart_staged env st p w hfile (hstage _) (hread p (by simp) hfile)
      obtain ⟨st2, w2, hloop, hcount, hlog2, hfiles2, -⟩ := ih hrest st1 w1
      rw [hstaged] at hcount hlog2 hfiles2
      refine ⟨st2, w2, ?_, ?_, ?_, ?_, ?_⟩
      · simp only [List.map_cons, uploadLoop, hpart]
        exact hloop
      · rw [hcount]
        simp only [stagedFrom, hfile, if_true, List.length_cons]
        omega
      · rw [hlog2, hlog]
        simp [stagedFrom, hfile]
      · rw [hfiles2, hfiles]
        simp only [stagedFrom, hfile, if_true]
        rw [← writeAll_append]
        rfl
      · intro hno
        exact absurd hfile (hno p (by simp))
    · obtain ⟨st1, hpart, hpath, hname, hcount⟩ := uploadPart_other env st p w hfile
      obtain ⟨st2, w2, hloop, hcount2, hlog2, hfiles2, hkeep⟩ := ih hrest st1 w
      refine ⟨st2, w2, ?_, ?_, ?_, ?_, ?_⟩
      · simp only [List.map_cons, uploadLoop, hpart]
        exact hloop
      · rw [hcount2, hcount]
        simp only [stagedFrom, hfile, if_false]
      · rw [hlog2, hcount]
        simp only [stagedFrom, hfile, if_false]
      · rw [hfiles2, hcount]
        simp only [stagedFrom, hfile, if_false]
      · intro hno
        obtain ⟨h1, h2⟩ := hkeep (fun q hq => hno q (by simp [hq]))
        exact ⟨by rw [h1, hpath], by rw [h2, hname]⟩

/-- The files of a concatenation: those of the first list, then those of the
second, counted on from the stagings of the first. -/
theorem stagedFrom_append (env : Env) (a b : List Part) :
    ∀ k, stagedFrom env k (a ++ b) =
      stagedFrom env k a ++ stagedFrom env (k + (stagedFrom env k a).length) b := by
  induction a with
  | nil => intro k; simp [stagedFrom]
  | cons p rest ih =>
    intro k
    by_cases hfile : p.formName = "file"
    · have h1 := ih (k + 1)
      rw [show k + 1 + (stagedFrom env (k + 1) rest).length =
        k + ((stagedFrom env (k + 1) rest).length + 1) by omega] at h1
      simp only [List.cons_append, stagedFrom, hfile, if_true, List.length_cons,
        List.append_eq, h1]
    · simp only [List.cons_append, stagedFrom, hfile, if_false, List.append_eq, ih]

/-- Parts none of which is named `file` stage nothing. -/
theorem stagedFrom_none (env : Env) (ps : List Part) (h : ∀ p ∈ ps, p.formName ≠ "file") :
    ∀ k, stagedFrom env k ps = [] := by
  induction ps with
  | nil => intro k; rfl
  | cons p rest ih =>
    intro k
    have hp : p.formName ≠ "file" := h p (by simp)
    simp only [stagedFrom, hp, if_false]
    exact ih (fun q hq => h q (by simp [hq])) k

/-- Every staged file is the file of a part named `file`, staged at a count
not below the first one. -/
theorem stagedFrom_mem (env : Env) (ps : List Part) :
    ∀ k f, f ∈ stagedFrom env k ps →
      ∃ i p, k ≤ i ∧ i < k + (stagedFrom env k ps).length ∧ p ∈ ps ∧ p.formName = "file" ∧
        f = (stagedName env i p, p.body) := by
  induction ps with
  | nil => intro k f hf; simp [stagedFrom] at hf
  | cons p rest ih =>
    intro k f hf
    by_cases hfile : p.formName = "file"
    · simp only [stagedFrom, hfile, if_true, List.mem_cons] at hf
      simp only [stagedFrom, hfile, if_true, List.length_cons]
      rcases hf with hf | hf
      · exact ⟨k, p, le_refl k, by omega, by simp, hfile, hf⟩
      · obtain ⟨i, q, hi, hi2, hq, hqf, hfq⟩ := ih (k + 1) f hf
        exact ⟨i, q, by omega, by omega, by simp [hq], hqf, hfq⟩
    · simp only [stagedFrom, hfile, if_false] at hf
      simp only [stagedFrom, hfile, if_false]
      obtain ⟨i, q, hi, hi2, hq, hqf, hfq⟩ := ih k f hf
      exact ⟨i, q, hi, hi2, by simp [hq], hqf, hfq⟩

/-- The name under which a file is staged has no separator and three
characters or more when the file name has no separator. -/
theorem stagedName_plain (t : UUID) (f : String) (h : '/' ∉ f.data) :
    '/' ∉ (t.String ++ "_" ++ f).data ∧ 3 ≤ (t.String ++ "_" ++ f).data.length := by
  have hd : (t.String ++ "_" ++ f).data = t.String.data ++ '_' :: f.data := by
    simp [String.data_append]
  rw [hd]
  constructor
  · simp only [List.mem_append, List.mem_cons, not_or]
    exact ⟨t.String_no_slash, by decide, h⟩
  · rw [List.length_append, t.String_length]; omega

/-- The paths of the staged files are pairwise distinct when the tokens of
different stagings among the first `n` have different string forms and the file
names have no separator. -/
theorem stagedFrom_nodup (env : Env) (ps : List Part) (n : Nat)
    (htok : ∀ a b, a < n → b < n → a ≠ b →
      (env.stage a).token.String ≠ (env.stage b).token.String)
    (hplain : ∀ p ∈ ps, p.formName = "file" → '/' ∉ p.fileName.data) :
    ∀ k, k + (stagedFrom env k ps).length ≤ n → ((stagedFrom env k ps).map Prod.fst).Nodup := by
  induction ps with
  | nil => intro k _; simp [stagedFrom]
  | cons p rest ih =>
    intro k hn
    have hrest : ∀ q ∈ rest, q.formName = "file" → '/' ∉ q.fileName.data :=
      fun q hq => hplain q (by simp [hq])
    by_cases hfile : p.formName = "file"
    · simp only [stagedFrom, hfile, if_true, List.length_cons] at hn
      simp only [stagedFrom, hfile, if_true, List.map_cons, List.nodup_cons]
      refine ⟨?_, ih hrest (k + 1) (by omega)⟩
      intro hmem
      obtain ⟨f, hf, hfst⟩ := List.mem_map.mp hmem
      obtain ⟨i, q, hi, hi2, hq, hqf, hfq⟩ := stagedFrom_mem env rest (k + 1) f hf
      rw [hfq] at hfst
      simp only [stagedName] at hfst
      exact staged_paths_distinct _ _ _ _ (htok i k (by omega) (by omega) (by omega))
        (hrest q hq hqf) (hplain p (by simp) hfile) hfst
    · simp only [stagedFrom, hfile, if_false] at hn
      simp only [stagedFrom, hfile, if_false]
      exact ih hrest k hn

/-- A file written stays as it is while files with other paths are written. -/
theorem writeAll_keeps (L : List (String × Bytes)) :
    ∀ (files : List (String × Bytes)) (f : String × Bytes), f ∈ files →
      (∀ g ∈ L, g.1 ≠ f.1) → f ∈ writeAll files L := by
  induction L with
  | nil => intro files f hf _; simpa [writeAll] using hf
  | cons g rest ih =>
    intro files f hf hne
    have hg : g.1 ≠ f.1 := hne g (by simp)
    have hstep : writeAll files (g :: rest) =
        writeAll ((files.filter fun x => x.1 ≠ g.1) ++ [g]) rest := rfl
    rw [hstep]
    apply ih
    · simp only [List.mem_append, List.mem_filter, List.mem_singleton]
      left
      exact ⟨hf, by simpa using fun h => hg h.symm⟩
    · intro x hx
      exact hne x (by simp [hx])

/-- After files with pairwise distinct paths were written, each of them is
there with its bytes. -/
theorem writeAll_mem (L : List (String × Bytes)) :
    ∀ files : List (String × Bytes), (L.map Prod.fst).Nodup →
      ∀ f ∈ L, f ∈ writeAll files L := by
  induction L with
  | nil => intro files _ f hf; simp at hf
  | cons g rest ih =>
    intro files hnd f hf
    simp only [List.map_cons, List.nodup_cons] at hnd
    have hstep : writeAll files (g :: rest) =
        writeAll ((files.filter fun x => x.1 ≠ g.1) ++ [g]) rest := rfl
    rw [hstep]
    rcases List.mem_cons.mp hf with hfg | hfr
    · rw [hfg]
      apply writeAll_keeps
      · simp
      · intro x hx heq
        exact hnd.1 (List.mem_map.mpr ⟨x, hx, heq⟩)
    · exact ih _ hnd.2 f hfr

/-- A list of parts with a part named `file` stages a file. -/
theorem stagedFrom_ne_nil (env : Env) (ps : List Part) (h : ∃ p ∈ ps, p.formName = "file") :
    ∀ k, stagedFrom env k ps ≠ [] := by
  induction ps with
  | nil => obtain ⟨p, hp, -⟩ := h; simp at hp
  | cons q rest ih =>
    intro k
    by_cases hfile : q.formName = "file"
    · simp [stagedFrom, hfile]
    · simp only [stagedFrom, hfile, if_false]
      obtain ⟨p, hp, hpf⟩ := h
      rcases List.mem_cons.mp hp with hpq | hpr
      · rw [hpq] at hpf; exact absurd hpf hfile
      · exact ih ⟨p, hpr, hpf⟩ k

/-- Names staged under tokens with different string forms differ. -/
theorem token_names_distinct (t1 t2 : UUID) (f1 f2 : String) (ht : t1.String ≠ t2.String) :
    (t1.String ++ "_" ++ f1).data ≠ (t2.String ++ "_" ++ f2).data := by
  intro heq
  simp only [String.data_append, List.append_assoc] at heq
  have hlen : t1.String.data.length = t2.String.data.length := by
    rw [t1.String_length, t2.String_length]
  exact ht (String.ext (List.append_inj heq hlen).1)

/-- The absolute paths of the files staged in a working directory: each is
there and is not empty, and those of stagings whose tokens have different
string forms differ. -/
theorem staged_abs_paths (env : Env) (d : String) :
    (∀ k (p : Part), '/' ∉ p.fileName.data →
      ∃ a, pathAbs (some d) (stagedName env k p) = some a ∧ a ≠ "") ∧
    (∀ k1 k2 (p1 p2 : Part), '/' ∉ p1.fileName.data → '/' ∉ p2.fileName.data →
      (env.stage k1).token.String ≠ (env.stage k2).token.String →
      pathAbs (some d) (stagedName env k1 p1) ≠ pathAbs (some d) (stagedName env k2 p2)) := by
  obtain ⟨R, hR⟩ := pathAbs_staged d
  constructor
  · intro k p hp
    obtain ⟨h1, h2⟩ := stagedName_plain (env.stage k).token p.fileName hp
    refine ⟨_, hR _ h1 h2, ?_⟩
    intro h
    have := congrArg String.data h
    simp at this
  · intro k1 k2 p1 p2 hp1 hp2 ht heq
    obtain ⟨h1, h2⟩ := stagedName_plain (env.stage k1).token p1.fileName hp1
    obtain ⟨h3, h4⟩ := stagedName_plain (env.stage k2).token p2.fileName hp2
    simp only [stagedName] at heq
    rw [hR _ h1 h2, hR _ h3 h4] at heq
    have hdata := congrArg String.data (Option.some.inj heq)
    simp only [List.append_cancel_left_eq, List.cons.injEq, true_and] at hdata
    exact token_names_distinct _ _ _ _ ht hdata

/-- Claim C17.  An upload whose last part named `file` is `pk`, with at least
one such part before it, all stagings and both inserts succeeding, tokens of
different stagings of the run having different string forms and file names
having no separator: every file is staged, under pairwise distinct paths, and is there
with its bytes; the call answers 201 and appends exactly one Deck row, named
after `pk` and holding no path, and one Job row bound to it; at most one
message is pushed, and its path is the absolute path of the file of `pk`, which
differs from the absolute path of every file staged earlier. -/
theorem last_file_part_wins (env : Env) (w : World) (pre post : List Part) (pk : Part)
    (d : String) (id id2 : UUID) (t t2 : Time)
    (hk : pk.formName = "file") (hpre : ∃ p ∈ pre, p.formName = "file")
    (hpost : ∀ p ∈ post, p.formName ≠ "file")
    (hstage : ∀ k, (env.stage k).mkdirOk = true ∧ (env.stage k).createOk = true ∧
      (env.stage k).writeErr = none ∧ (env.stage k).wd = some d)
    (hread : ∀ p ∈ pre ++ [pk], p.formName = "file" → p.readErr = none)
    (hplain : ∀ p ∈ pre ++ [pk], p.formName = "file" → '/' ∉ p.fileName.data)
    (htok : ∀ a b, a < (stagedFrom env 0 (pre ++ [pk])).length →
      b < (stagedFrom env 0 (pre ++ [pk])).length → a ≠ b →
      (env.stage a).token.String ≠ (env.stage b).token.String)
    (hd : env.deckInsert = .ok (id, t)) (hj : env.jobInsert = .ok (id2, t2)) :
    ∃ (earlier : List (String × Bytes)) (lastRel lastAbs : String) (dk : PitchDeck)
      (j : AnalysisJob),
      stagedFrom env 0 (pre ++ pk :: post) = earlier ++ [(lastRel, pk.body)] ∧
      earlier ≠ [] ∧ lastRel = stagedName env earlier.length pk ∧
      ((earlier ++ [(lastRel, pk.body)]).map Prod.fst).Nodup ∧
      (∀ f ∈ earlier ++ [(lastRel, pk.body)],
        f ∈ (uploadDeck env (uploadOf (pre ++ pk :: post)) w).2.files) ∧
      pathAbs (some d) lastRel = some lastAbs ∧
      (∀ f ∈ earlier, pathAbs (some d) f.1 ≠ some lastAbs) ∧
      (uploadDeck env (uploadOf (pre ++ pk :: post)) w).1.code = 201 ∧
      (uploadDeck env (uploadOf (pre ++ pk :: post)) w).2.store.decks = w.store.decks ++ [dk] ∧
      dk.Filename = pk.fileName ∧ dk.GCSPath = some "" ∧ dk.SourceMetadata = none ∧
      (uploadDeck env (uploadOf (pre ++ pk :: post)) w).2.store.jobs = w.store.jobs ++ [j] ∧
      j.DeckID = some dk.ID ∧
      (((uploadDeck env (uploadOf (pre ++ pk :: post)) w).2.queue = w.queue ∧
        newEffects w (uploadDeck env (uploadOf (pre ++ pk :: post)) w).2 =
          (earlier ++ [(lastRel, pk.body)]).map (fun f => Effect.file f.1) ++
            [.deck id, .job id2]) ∨
       ((uploadDeck env (uploadOf (pre ++ pk :: post)) w).2.queue =
          w.queue ++ [marshal (jobPayload id2 j.InvestorID "" lastAbs)] ∧
        newEffects w (uploadDeck env (uploadOf (pre ++ pk :: post)) w).2 =
          (earlier ++ [(lastRel, pk.body)]).map (fun f => Effect.file f.1) ++
            [.deck id, .job id2,
             .push (marshal (jobPayload id2 j.InvestorID "" lastAbs))])) ∧
      Message.member (marshal (jobPayload id2 j.InvestorID "" lastAbs)) "deck_path" =
        some lastAbs := by
  have hst : ∀ k, (env.stage k).mkdirOk = true ∧ (env.stage k).createOk = true ∧
      (env.stage k).writeErr = none := fun k => ⟨(hstage k).1, (hstage k).2.1, (hstage k).2.2.1⟩
  have hwd : ∀ k, (env.stage k).wd = some d := fun k => (hstage k).2.2.2
  have hpkplain : '/' ∉ pk.fileName.data := hplain pk (by simp) hk
  obtain ⟨habs, hdiff⟩ := staged_abs_paths env d
  -- the parts before the last file part
  obtain ⟨st1, w1, hloop1, hcount1, hlog1, hfiles1, -⟩ :=
    uploadLoop_staged env pre hst (fun p hp => hread p (by simp [hp])) {} w
  have hzero : ({} : UploadState).staged = 0 := rfl
  rw [hzero] at hcount1 hlog1 hfiles1
  simp only [Nat.zero_add] at hcount1
  -- the last file part
  obtain ⟨st2, w2, hpart, hpath2, hname2, -, hinv2, -, -, hlog2, hfiles2⟩ :=
    uploadPart_staged env st1 pk w1 hk (hst _) (hread pk (by simp) hk)
  -- the parts after it
  obtain ⟨st3, w3, hloop3, -, hlog3, hfiles3, hkeep⟩ :=
    uploadLoop_staged env post hst (fun p hp hf => absurd hf (hpost p hp)) st2 w2
  rw [stagedFrom_none env post hpost] at hlog3 hfiles3
  simp only [List.map_nil, List.append_nil, writeAll, List.foldl_nil] at hlog3 hfiles3
  obtain ⟨hpath3, hname3⟩ := hkeep hpost
  obtain ⟨lastAbs, hlastAbs, hne⟩ := habs (stagedFrom env 0 pre).length pk hpkplain
  rw [hcount1, hwd, hlastAbs] at hpath2
  simp only [Option.getD_some] at hpath2
  rw [hcount1] at hlog2 hfiles2
  have hloop : uploadLoop env ((pre ++ pk :: post).map PartEvent.part) {} w = .next st3 w3 := by
    rw [List.map_append, uploadLoop_append, hloop1]
    simp only [List.map_cons, uploadLoop, hpart]
    exact hloop3
  have hl := uploadLoop_store_queue env ((pre ++ pk :: post).map PartEvent.part) {} w
  rw [hloop] at hl
  simp only [LoopResult.world] at hl
  have hp3 : st3.localPath ≠ "" := by rw [hpath3, hpath2]; exact hne
  obtain ⟨dk, j, w4, hrun, hdkeq, hjeq, h1, h2, h3, h4, -, h5⟩ :=
    uploadDeck_success env _ w w3 st3 id id2 t t2 hloop hp3 hd hj
  have hstaged : stagedFrom env 0 (pre ++ pk :: post) =
      stagedFrom env 0 pre ++ [(stagedName env (stagedFrom env 0 pre).length pk, pk.body)] := by
    rw [stagedFrom_append]
    simp only [Nat.zero_add, stagedFrom, hk, if_true, stagedFrom_none env post hpost]
  have hall : stagedFrom env 0 (pre ++ [pk]) =
      stagedFrom env 0 pre ++ [(stagedName env (stagedFrom env 0 pre).length pk, pk.body)] := by
    rw [stagedFrom_append]
    simp only [Nat.zero_add, stagedFrom, hk, if_true]
  have hnodup := stagedFrom_nodup env (pre ++ [pk]) _ htok hplain 0 (by omega)
  rw [hall] at hnodup htok
  simp only [List.length_append, List.length_singleton] at htok
  have hinvj : j.InvestorID = st3.investorID := by rw [hjeq]
  have hw3log : w3.log = w.log ++
      (stagedFrom env 0 pre ++
        [(stagedName env (stagedFrom env 0 pre).length pk, pk.body)]).map
          (fun f => Effect.file f.1) := by
    rw [hlog3, hlog2, hlog1]
    simp
  have hw3files : w3.files = writeAll w.files
      (stagedFrom env 0 pre ++
        [(stagedName env (stagedFrom env 0 pre).length pk, pk.body)]) := by
    rw [hfiles3, hfiles2, hfiles1, writeAll_append]
  refine ⟨stagedFrom env 0 pre, stagedName env (stagedFrom env 0 pre).length pk, lastAbs, dk, j,
    hstaged, stagedFrom_ne_nil env pre hpre 0, rfl, hnodup, ?_, hlastAbs, ?_, ?_, ?_, ?_, ?_, ?_,
    ?_, ?_, ?_, ?_⟩
  · intro f hf
    simp only [uploadOf]
    rw [hrun]
    simp only [enqueueStep_files, h4, hw3files]
    exact writeAll_mem _ _ hnodup f hf
  · intro f hf heq
    obtain ⟨i, q, -, hi2, hq, hqf, hfq⟩ := stagedFrom_mem env pre 0 f hf
    have hqplain : '/' ∉ q.fileName.data := hplain q (by simp [hq]) hqf
    have hne2 : f.1 ≠ stagedName env (stagedFrom env 0 pre).length pk := by
      intro h
      have hnd := hnodup
      rw [List.map_append, List.nodup_append] at hnd
      exact hnd.2.2 (List.mem_map.mpr ⟨f, hf, rfl⟩) (by simp [h])
    rw [hfq] at heq hne2
    by_cases hik : i = (stagedFrom env 0 pre).length
    · subst hik
      simp only [stagedName] at hne2
      rw [← hlastAbs] at heq
      by_cases hqk : q.fileName = pk.fileName
      · exact hne2 (by rw [hqk])
      · -- equal tokens, different names: the absolute paths differ with the names
        obtain ⟨R, hR⟩ := pathAbs_staged d
        obtain ⟨a1, a2⟩ := stagedName_plain (env.stage (stagedFrom env 0 pre).length).token
          q.fileName hqplain
        obtain ⟨b1, b2⟩ := stagedName_plain (env.stage (stagedFrom env 0 pre).length).token
          pk.fileName hpkplain
        simp only [stagedName] at heq
        rw [hR _ a1 a2, hR _ b1 b2] at heq
        have hdata := congrArg String.data (Option.some.inj heq)
        simp only [List.append_cancel_left_eq, List.cons.injEq, true_and] at hdata
        exact hne2 (by rw [String.ext hdata])
    · rw [← hlastAbs] at heq
      exact hdiff i _ q pk hqplain hpkplain (htok _ _ (by omega) (by omega) hik) heq
  · simp only [uploadOf]; rw [hrun]
  · simp only [uploadOf]; rw [hrun]; simp only [enqueueStep_store, h1, hl.1]
  · rw [hdkeq]; simp only; rw [hname3, hname2]
  · rw [hdkeq]
  · rw [hdkeq]
  · simp only [uploadOf]; rw [hrun]; simp only [enqueueStep_store, h2, hl.1]
  · rw [hjeq, hdkeq]
  · simp only [uploadOf]
    have hpl : st3.localPath = lastAbs := by rw [hpath3, hpath2]
    rw [hrun, hinvj, hpl]
    rcases enqueueStep_cases env.redis id2 st3.investorID lastAbs w4 with he | he
    · left
      rw [he]
      exact ⟨by rw [h3, hl.2], newEffects_append _ _ _ (by rw [h5, hw3log]; simp)⟩
    · right
      exact ⟨by rw [he.1, h3, hl.2], newEffects_append _ _ _ (by rw [he.2, h5, hw3log]; simp)⟩
  · rw [(jobPayload_members id2 j.InvestorID lastAbs).2.2.2.1]
    simp [hne]

/-- Witness of C17: an upload of two files that are both called `deck.pdf`,
every collaborator succeeding, the working directory being `/app`. -/
theorem last_file_part_wins_witness :
    (uploadDeck okEnv (uploadOf ([deckPart] ++ deckPart2 :: [])) {}).2.files =
      [("uploads/00000000-0000-0000-0000-000000000001_deck.pdf", deckPart.body),
       ("uploads/00000000-0000-0000-0000-000000000002_deck.pdf", deckPart2.body)] ∧
    ∃ (earlier : List (String × Bytes)) (lastRel lastAbs : String) (dk : PitchDeck)
      (j : AnalysisJob),
      stagedFrom okEnv 0 ([deckPart] ++ deckPart2 :: []) = earlier ++ [(lastRel, deckPart2.body)] ∧
      earlier ≠ [] ∧ lastRel = stagedName okEnv earlier.length deckPart2 ∧
      ((earlier ++ [(lastRel, deckPart2.body)]).map Prod.fst).Nodup ∧
      (∀ f ∈ earlier ++ [(lastRel, deckPart2.body)],
        f ∈ (uploadDeck okEnv (uploadOf ([deckPart] ++ deckPart2 :: [])) {}).2.files) ∧
      pathAbs (some "/app") lastRel = some lastAbs ∧
      (∀ f ∈ earlier, pathAbs (some "/app") f.1 ≠ some lastAbs) ∧
      (uploadDeck okEnv (uploadOf ([deckPart] ++ deckPart2 :: [])) {}).1.code = 201 ∧
      (uploadDeck okEnv (uploadOf ([deckPart] ++ deckPart2 :: [])) {}).2.store.decks =
        ({} : World).store.decks ++ [dk] ∧
      dk.Filename = deckPart2.fileName ∧ dk.GCSPath = some "" ∧ dk.SourceMetadata = none ∧
      (uploadDeck okEnv (uploadOf ([deckPart] ++ deckPart2 :: [])) {}).2.store.jobs =
        ({} : World).store.jobs ++ [j] ∧
      j.DeckID = some dk.ID ∧
      (((uploadDeck okEnv (uploadOf ([deckPart] ++ deckPart2 :: [])) {}).2.queue =
          ({} : World).queue ∧
        newEffects {} (uploadDeck okEnv (uploadOf ([deckPart] ++ deckPart2 :: [])) {}).2 =
          (earlier ++ [(lastRel, deckPart2.body)]).map (fun f => Effect.file f.1) ++
            [.deck ⟨16⟩, .job ⟨32⟩]) ∨
       ((uploadDeck okEnv (uploadOf ([deckPart] ++ deckPart2 :: [])) {}).2.queue =
          ({} : World).queue ++ [marshal (jobPayload ⟨32⟩ j.InvestorID "" lastAbs)] ∧
        newEffects {} (uploadDeck okEnv (uploadOf ([deckPart] ++ deckPart2 :: [])) {}).2 =
          (earlier ++ [(lastRel, deckPart2.body)]).map (fun f => Effect.file f.1) ++
            [.deck ⟨16⟩, .job ⟨32⟩,
             .push (marshal (jobPayload ⟨32⟩ j.InvestorID "" lastAbs))])) ∧
      Message.member (marshal (jobPayload ⟨32⟩ j.InvestorID "" lastAbs)) "deck_path" =
        some lastAbs :=
  ⟨by decide,
   last_file_part_wins okEnv {} [deckPart] [] deckPart2 "/app" ⟨16⟩ ⟨32⟩ 100 101 rfl
     ⟨deckPart, by simp, rfl⟩ (by simp) (fun _ => ⟨rfl, rfl, rfl, rfl⟩)
     (by
       intro p hp _
       simp only [List.cons_append, List.nil_append, List.mem_cons, List.mem_singleton,
         List.not_mem_nil, or_false] at hp
       rcases hp with rfl | rfl <;> rfl)
     (by
       intro p hp _
       simp only [List.cons_append, List.nil_append, List.mem_cons, List.mem_singleton,
         List.not_mem_nil, or_false] at hp
       rcases hp with rfl | rfl <;> decide)
     (by
       have hlen : (stagedFrom okEnv 0 ([deckPart] ++ [deckPart2])).length = 2 := by decide
       intro a b ha hb hab
       rw [hlen] at ha hb
       interval_cases a <;> interval_cases b <;> first | exact absurd rfl hab | decide)
     rfl rfl⟩

end Sago
